import Mathlib

/-!
# MARS entity registry (EntityManager / SimEntity)

A shallow embedding of `sim/src/core/EntityManager.cpp` together with the parts
of `SimEntity` it calls.  Entities live on a heap and the registry maps ids to
entity pointers, exactly as the C++ `std::map<unsigned long, SimEntity*>` does;
dereferencing a null or dangling pointer is a fault.  Calls that leave the
component (subscriber callbacks, entity teardown, diagnostics) are recorded in
a trace.
-/

namespace mars

/-! ## Pointers, faults, observable events -/

/-- Address of a heap object; the value 0 is the null pointer. -/
abbrev Ptr := Nat

/-- Number of values of the C++ type unsigned long (LP64). -/
def ULONG_RANGE : Nat := 2 ^ 64

/-- Ways in which a pointer dereference goes wrong. -/
inductive Fault where
  | nullDeref
  | danglingDeref
deriving DecidableEq, Repr

/-- Calls and output that leave the registry, in the order they happen. -/
inductive Event where
  | registerEntity (subscriber : Ptr) (entity : Ptr)
  | entityRemoveEntity (entity : Ptr)
  | entitySelect (entity : Ptr) (nodeId : Nat)
  | entityRemoveAnchor (entity : Ptr)
  | entitySetInitialPose (entity : Ptr) (reset : Bool)
  | stderr (msg : String)
  | stdout (msg : String)
deriving DecidableEq, Repr

/-! ## Configuration documents (configmaps, an external library) -/

/-- A configuration item, represented by what its conversion operators yield. -/
structure ConfigItem where
  asString : String
  asBool : Bool
deriving DecidableEq, Repr, Inhabited

/-- A ConfigMap: string keys to items. -/
abbrev ConfigMap := List (String × ConfigItem)

/-- ConfigMap::hasKey. -/
def ConfigMap.hasKey (m : ConfigMap) (key : String) : Bool :=
  (List.lookup key m).isSome

/-- ConfigMap::operator[] used as an rvalue. -/
def ConfigMap.item (m : ConfigMap) (key : String) : ConfigItem :=
  (List.lookup key m).getD default

/-! ## SimEntity -/

/-- The data members of SimEntity (SimEntity.h, private section). -/
structure SimEntity where
  name : String
  config : ConfigMap
  anchorJointId : Nat
  nodeIds : List (Nat × String)
  motorIds : List (Nat × String)
  controllerIds : List Nat
  sensorIds : List (Nat × String)
  jointIds : List (Nat × String)
  selectedNodes : List Nat
  selected : Bool
deriving DecidableEq, Repr

/-- Modelled from the spec: the constructor SimEntity(control, name) of
SimEntity.cpp, which is not among the sources; a new entity has the given name,
empty tables, no anchor joint and is not selected. -/
def SimEntity.create (name : String) : SimEntity :=
  { name := name, config := [], anchorJointId := 0, nodeIds := [], motorIds := [],
    controllerIds := [], sensorIds := [], jointIds := [], selectedNodes := [],
    selected := false }

/-- SimEntity::getName (SimEntity.h): returns the name. -/
def SimEntity.getName (e : SimEntity) : String := e.name

/-- Modelled from the spec: SimEntity::getAssembly of SimEntity.cpp, which is not
among the sources; reads the assembly field of the config document, empty
string if absent. -/
def SimEntity.getAssembly (e : SimEntity) : String :=
  if ConfigMap.hasKey e.config "assembly" then (ConfigMap.item e.config "assembly").asString
  else ""

/-- Modelled from the spec: SimEntity::getConfig of SimEntity.cpp, which is not
among the sources; a read-only snapshot of the config document. -/
def SimEntity.getConfig (e : SimEntity) : ConfigMap := e.config

/-- Modelled from the spec: SimEntity::removeEntity of SimEntity.cpp, which is not
among the sources; tears down owned resources, dropping the anchor joint if
present.  The entity keeps its name and id records. -/
def SimEntity.removeEntity (e : SimEntity) : SimEntity :=
  { e with anchorJointId := 0 }

/-! ## Heap and registry state -/

/-- The heap: the most recent binding of an address is the first in the list. -/
abbrev Heap := List (Ptr × SimEntity)

/-- Object stored at an address, if any. -/
def Heap.load (h : Heap) (p : Ptr) : Option SimEntity := List.lookup p h

/-- Write an object at an address. -/
def Heap.store (h : Heap) (p : Ptr) (e : SimEntity) : Heap := (p, e) :: h

/-- An address that is neither null nor in use: one past the largest in use. -/
def Heap.fresh (h : Heap) : Ptr := (h.map Prod.fst).foldr max 0 + 1

/-- Dereference of an entity pointer. -/
def deref (h : Heap) (p : Ptr) : Except Fault SimEntity :=
  if p = 0 then .error .nullDeref
  else match Heap.load h p with
    | some e => .ok e
    | none => .error .danglingDeref

/-- The data members of EntityManager that the operations use: the id counter,
the map from id to entity pointer (a std::map, kept in ascending key order) and
the subscriber pointers. -/
structure EntityManager where
  next_entity_id : Nat
  entities : List (Nat × Ptr)
  subscribers : List Ptr
deriving DecidableEq, Repr

/-- Everything an operation can read or change. -/
structure World where
  heap : Heap
  mgr : EntityManager
  trace : List Event
deriving DecidableEq, Repr

/-- EntityManager::EntityManager: the counter starts at 1, the map and the
subscriber list are empty.  The registration as an event client of the graphics
manager lies outside the registry state. -/
def EntityManager.init : EntityManager :=
  { next_entity_id := 1, entities := [], subscribers := [] }

/-- A world holding a freshly constructed manager and the given heap. -/
def World.fresh (h : Heap) : World :=
  { heap := h, mgr := EntityManager.init, trace := [] }

/-! ## std::map primitives -/

/-- The statement m[k] = v on a std::map: overwrite the entry with key k or
insert one at its place in key order. -/
def mapAssign (k : Nat) (v : Ptr) : List (Nat × Ptr) → List (Nat × Ptr)
  | [] => [(k, v)]
  | (k', v') :: rest =>
      if k < k' then (k, v) :: (k', v') :: rest
      else if k = k' then (k, v) :: rest
      else (k', v') :: mapAssign k v rest

/-- The expression m[k] read on a std::map that has the key (null otherwise). -/
def mapAt (m : List (Nat × Ptr)) (k : Nat) : Ptr := (List.lookup k m).getD 0

/-- The loop of removeEntity and removeAssembly over the map: erase the first
entry whose value is the pointer p, then break. -/
def eraseFirstHolding (p : Ptr) : List (Nat × Ptr) → List (Nat × Ptr)
  | [] => []
  | (k, v) :: rest => if v = p then rest else (k, v) :: eraseFirstHolding p rest

/-! ## EntityManager operations -/

/-- Modelled from the spec: getNextId of EntityManager.h, which is not among the
sources; hands out the counter and increments it.  The counter is an unsigned
long, so the increment wraps at ULONG_RANGE. -/
def getNextId (w : World) : Nat × World :=
  (w.mgr.next_entity_id,
   { w with mgr := { w.mgr with next_entity_id := (w.mgr.next_entity_id + 1) % ULONG_RANGE } })

/-- EntityManager::notifySubscribers: registerEntity(entity) on each subscriber in
list order. -/
def notifySubscribers (entity : Ptr) (w : World) : World :=
  { w with trace := w.trace ++ w.mgr.subscribers.map (fun s => Event.registerEntity s entity) }

/-- EntityManager::subscribeToEntityCreation: a non-null subscriber is appended;
the result is the registry map. -/
def subscribeToEntityCreation (newsub : Ptr) (w : World) : List (Nat × Ptr) × World :=
  let w1 : World :=
    if newsub ≠ 0 then
      { w with mgr := { w.mgr with subscribers := w.mgr.subscribers ++ [newsub] } }
    else w
  (w1.mgr.entities, w1)

/-- One run of a subscriber's registerEntity callback: the subscriber, the entity
it is handed, and the world as it is at the moment of the call, which is what
the callback can read. -/
structure CallbackRun where
  subscriber : Ptr
  entity : Ptr
  world : World
deriving DecidableEq, Repr

/-- The callbacks that the loop of EntityManager::notifySubscribers runs, in list
order, each with the world at the moment it is called: the world in which the
loop was entered, with the calls to the earlier subscribers in the trace. -/
def callbackRuns (entity : Ptr) : List Ptr → World → List CallbackRun
  | [], _ => []
  | s :: rest, w =>
      { subscriber := s, entity := entity, world := w } ::
        callbackRuns entity rest { w with trace := w.trace ++ [Event.registerEntity s entity] }

/-- EntityManager::notifySubscribers with what the subscribers see: the callbacks
that run, each with the world at the moment it is called, and the world after
the last one. -/
def notifySubscribersRuns (entity : Ptr) (w : World) : List CallbackRun × World :=
  (callbackRuns entity w.mgr.subscribers w, notifySubscribers entity w)

/-- EntityManager::addEntity(const std::string&): a new SimEntity is allocated and
stored under the next id, then the subscribers are notified with entities[id].
The result is the id, the callbacks that ran, and the world the call leaves. -/
def addEntityRuns (name : String) (w : World) : Nat × List CallbackRun × World :=
  let p := Heap.fresh w.heap
  let w1 : World := { w with heap := Heap.store w.heap p (SimEntity.create name) }
  let (id, w2) := getNextId w1
  let w3 : World := { w2 with mgr := { w2.mgr with entities := mapAssign id p w2.mgr.entities } }
  let (runs, w4) := notifySubscribersRuns (mapAt w3.mgr.entities id) w3
  (id, runs, w4)

/-- EntityManager::addEntity(SimEntity*): the given pointer is stored under the
next id, then the subscribers are notified with it.  The result is the id, the
callbacks that ran, and the world the call leaves. -/
def addEntityPtrRuns (entity : Ptr) (w : World) : Nat × List CallbackRun × World :=
  let (id, w2) := getNextId w
  let w3 : World := { w2 with mgr := { w2.mgr with entities := mapAssign id entity w2.mgr.entities } }
  let (runs, w4) := notifySubscribersRuns entity w3
  (id, runs, w4)

/-- EntityManager::addEntity(const std::string&): the returned id and the world the
call leaves. -/
def addEntity (name : String) (w : World) : Nat × World :=
  ((addEntityRuns name w).1, (addEntityRuns name w).2.2)

/-- EntityManager::addEntity(SimEntity*): the returned id and the world the call
leaves. -/
def addEntityPtr (entity : Ptr) (w : World) : Nat × World :=
  ((addEntityPtrRuns entity w).1, (addEntityPtrRuns entity w).2.2)

/-- The loop of getEntity(name, verbose): the value of the first entry whose
entity has the name, none when the loop runs to the end. -/
def getEntityLoop (h : Heap) (name : String) : List (Nat × Ptr) → Except Fault (Option Ptr)
  | [] => .ok none
  | (_, p) :: rest =>
      match deref h p with
      | .error f => .error f
      | .ok e => if e.getName = name then .ok (some p) else getEntityLoop h name rest

/-- EntityManager::getEntity(const std::string&, bool): first entry whose entity
has the name; otherwise null, with a diagnostic on stderr when verbose. -/
def getEntityVerbose (name : String) (verbose : Bool) (w : World) : Except Fault (Ptr × World) :=
  match getEntityLoop w.heap name w.mgr.entities with
  | .error f => .error f
  | .ok (some p) => .ok (p, w)
  | .ok none =>
      if verbose then
        .ok (0, { w with trace := w.trace ++
          [Event.stderr ("ERROR: Entity with name " ++ name ++ " not found!\n")] })
      else .ok (0, w)

/-- EntityManager::getEntity(const std::string&): the verbose lookup. -/
def getEntity (name : String) (w : World) : Except Fault (Ptr × World) :=
  getEntityVerbose name true w

/-- EntityManager::getEntitiesOfAssembly: the pointers of the entries whose
entity's assembly tag matches the pattern, in map order. -/
def getEntitiesOfAssemblyLoop (matchPattern : String → String → Bool) (h : Heap)
    (assembly_name : String) : List (Nat × Ptr) → Except Fault (List Ptr)
  | [] => .ok []
  | (_, p) :: rest =>
      match deref h p with
      | .error f => .error f
      | .ok e =>
          match getEntitiesOfAssemblyLoop matchPattern h assembly_name rest with
          | .error f => .error f
          | .ok out => .ok (if matchPattern assembly_name e.getAssembly then p :: out else out)

/-- EntityManager::getEntitiesOfAssembly. -/
def getEntitiesOfAssembly (matchPattern : String → String → Bool) (assembly_name : String)
    (w : World) : Except Fault (List Ptr) :=
  getEntitiesOfAssemblyLoop matchPattern w.heap assembly_name w.mgr.entities

/-- The call entity->removeEntity() made by the manager: the entity is torn down
in place and the call is recorded. -/
def callEntityRemoveEntity (entity : Ptr) (w : World) : Except Fault World :=
  match deref w.heap entity with
  | .error f => .error f
  | .ok e =>
      .ok { w with heap := Heap.store w.heap entity e.removeEntity,
                   trace := w.trace ++ [Event.entityRemoveEntity entity] }

/-- One round of the loop of removeAssembly for the part p: the first map entry
holding p is erased (announced on stderr), then p is torn down. -/
def removeAssemblyPart (p : Ptr) (w : World) : Except Fault World :=
  if w.mgr.entities.any (fun kv => kv.2 = p) then
    match deref w.heap p with
    | .error f => .error f
    | .ok e =>
        callEntityRemoveEntity p
          { w with mgr := { w.mgr with entities := eraseFirstHolding p w.mgr.entities },
                   trace := w.trace ++ [Event.stderr ("Deleting entity " ++ e.getName ++ "\n")] }
  else callEntityRemoveEntity p w

/-- The loop of removeAssembly over the parts. -/
def removeAssemblyLoop : List Ptr → World → Except Fault World
  | [], w => .ok w
  | p :: parts, w =>
      match removeAssemblyPart p w with
      | .error f => .error f
      | .ok w1 => removeAssemblyLoop parts w1

/-- EntityManager::removeAssembly. -/
def removeAssembly (matchPattern : String → String → Bool) (assembly_name : String)
    (w : World) : Except Fault World :=
  match getEntitiesOfAssembly matchPattern assembly_name w with
  | .error f => .error f
  | .ok parts => removeAssemblyLoop parts w

/-- The else branch of removeEntity: erase the first map entry holding the
entity, then tear the entity down. -/
def removeEntitySingle (entity : Ptr) (w : World) : Except Fault World :=
  callEntityRemoveEntity entity
    { w with mgr := { w.mgr with entities := eraseFirstHolding entity w.mgr.entities } }

/-- EntityManager::removeEntity.  The result of getEntity(name) is used without a
null check; getAssembly is only evaluated when completeAssembly is set. -/
def removeEntity (matchPattern : String → String → Bool) (name : String)
    (completeAssembly : Bool) (w : World) : Except Fault World :=
  match getEntity name w with
  | .error f => .error f
  | .ok (entity, w1) =>
      if completeAssembly then
        match deref w1.heap entity with
        | .error f => .error f
        | .ok e =>
            if e.getAssembly ≠ "" then removeAssembly matchPattern e.getAssembly w1
            else removeEntitySingle entity w1
      else removeEntitySingle entity w1

/-- The loop of getRootOfAssembly. -/
def getRootOfAssemblyLoop (matchPattern : String → String → Bool) (h : Heap)
    (assembly_name : String) : List (Nat × Ptr) → Except Fault Ptr
  | [] => .ok 0
  | (_, p) :: rest =>
      match deref h p with
      | .error f => .error f
      | .ok e =>
          if matchPattern assembly_name e.getAssembly then
            if ConfigMap.hasKey e.getConfig "root" && (ConfigMap.item e.getConfig "root").asBool
            then .ok p
            else getRootOfAssemblyLoop matchPattern h assembly_name rest
          else getRootOfAssemblyLoop matchPattern h assembly_name rest

/-- EntityManager::getRootOfAssembly. -/
def getRootOfAssembly (matchPattern : String → String → Bool) (assembly_name : String)
    (w : World) : Except Fault Ptr :=
  getRootOfAssemblyLoop matchPattern w.heap assembly_name w.mgr.entities

/-- The loop of getMainEntityOfAssembly: the pointer returned inside the loop, none
when the loop runs to the end. -/
def getMainEntityOfAssemblyLoop (matchPattern : String → String → Bool) (h : Heap)
    (assembly_name : String) : List (Nat × Ptr) → Except Fault (Option Ptr)
  | [] => .ok none
  | (_, p) :: rest =>
      match deref h p with
      | .error f => .error f
      | .ok e =>
          if matchPattern assembly_name e.getAssembly then
            if ConfigMap.hasKey e.getConfig "main_entity" &&
                (ConfigMap.item e.getConfig "main_entity").asBool
            then .ok (some p)
            else getMainEntityOfAssemblyLoop matchPattern h assembly_name rest
          else getMainEntityOfAssemblyLoop matchPattern h assembly_name rest

/-- EntityManager::getMainEntityOfAssembly: falls back to getRootOfAssembly. -/
def getMainEntityOfAssembly (matchPattern : String → String → Bool) (assembly_name : String)
    (w : World) : Except Fault Ptr :=
  match getMainEntityOfAssemblyLoop matchPattern w.heap assembly_name w.mgr.entities with
  | .error f => .error f
  | .ok (some p) => .ok p
  | .ok none => getRootOfAssembly matchPattern assembly_name w

/-! ## Notions used to state the properties -/

/-- Name of the entity at an address, if the address holds one. -/
def nameAt (h : Heap) (p : Ptr) : Option String := (Heap.load h p).map SimEntity.getName

/-- Well-formed world: the map is in strictly ascending key order (the std::map
invariant) and every entry holds a non-null pointer to a live entity. -/
def World.WF (w : World) : Prop :=
  List.Pairwise (fun a b : Nat × Ptr => a.1 < b.1) w.mgr.entities ∧
  ∀ kv ∈ w.mgr.entities, kv.2 ≠ 0 ∧ (Heap.load w.heap kv.2).isSome = true

instance (w : World) : Decidable w.WF := by
  unfold World.WF; infer_instance

/-- A world for the witnesses: two entities named x added to a fresh manager. -/
def demoTwoX : World := (addEntity "x" (addEntity "x" (World.fresh [])).2).2

/-- The public operations that change the set of registered entities. -/
inductive Op where
  | addEntity (name : String)
  | addEntityPtr (entity : Ptr)
  | removeEntity (name : String) (completeAssembly : Bool)
  | removeAssembly (assembly_name : String)
deriving DecidableEq, Repr

/-- Whether the operation is one of the two addEntity overloads. -/
def Op.isAdd : Op → Bool
  | .addEntity _ => true
  | .addEntityPtr _ => true
  | _ => false

/-- Run one operation: the id it returns (addEntity only) and the world after it. -/
def Op.exec (matchPattern : String → String → Bool) : Op → World → Except Fault (Option Nat × World)
  | .addEntity name, w => .ok (some (mars.addEntity name w).1, (mars.addEntity name w).2)
  | .addEntityPtr entity, w =>
      .ok (some (mars.addEntityPtr entity w).1, (mars.addEntityPtr entity w).2)
  | .removeEntity name completeAssembly, w =>
      match mars.removeEntity matchPattern name completeAssembly w with
      | .error f => .error f
      | .ok w1 => .ok (none, w1)
  | .removeAssembly assembly_name, w =>
      match mars.removeAssembly matchPattern assembly_name w with
      | .error f => .error f
      | .ok w1 => .ok (none, w1)

/-- The ids returned by the addEntity calls of a sequence of operations, in call
order; the run ends at the first operation that faults. -/
def returnedIds (matchPattern : String → String → Bool) : List Op → World → List Nat
  | [], _ => []
  | op :: ops, w =>
      match op.exec matchPattern w with
      | .error _ => []
      | .ok (some id, w1) => id :: returnedIds matchPattern ops w1
      | .ok (none, w1) => returnedIds matchPattern ops w1

/-- Assembly tag of the entity at an address (empty when the address holds none). -/
def tagAt (h : Heap) (p : Ptr) : String :=
  match Heap.load h p with
  | some e => e.getAssembly
  | none => ""

/-- Whether the entity at an address has config key root with a true value. -/
def isRootAt (h : Heap) (p : Ptr) : Bool :=
  match Heap.load h p with
  | some e => ConfigMap.hasKey e.getConfig "root" && (ConfigMap.item e.getConfig "root").asBool
  | none => false

/-- Whether the entity at an address has config key main_entity with a true value. -/
def isMainAt (h : Heap) (p : Ptr) : Bool :=
  match Heap.load h p with
  | some e => ConfigMap.hasKey e.getConfig "main_entity" &&
      (ConfigMap.item e.getConfig "main_entity").asBool
  | none => false

/-- The teardown call recorded by an event, if it is one. -/
def Event.teardownOf : Event → Option Ptr
  | .entityRemoveEntity p => some p
  | _ => none

/-- The entities on which removeEntity() was called, in call order. -/
def teardownCalls (tr : List Event) : List Ptr := tr.filterMap Event.teardownOf

/-- Two heaps hold entities with the same names and configs at the same addresses. -/
def Heap.similar (h h' : Heap) : Prop :=
  ∀ q, (Heap.load h' q).map (fun e => (e.name, e.config)) =
       (Heap.load h q).map (fun e => (e.name, e.config))

/-- Modelled from the spec: matchPattern of mars/utils/misc, which is not among the
sources; glob-style matching in which a star stands for any run of characters
and a question mark for any single character. -/
def globMatchChars : List Char → List Char → Bool
  | [], cs => cs.isEmpty
  | p :: ps, cs =>
      if p = '*' then cs.tails.any (fun t => globMatchChars ps t)
      else match cs with
        | [] => false
        | c :: rest => (p = '?' || p = c) && globMatchChars ps rest

/-- The glob matcher on strings. -/
def globMatch (pattern str : String) : Bool := globMatchChars pattern.toList str.toList

/-- A call of one of the two addEntity overloads. -/
inductive AddCall where
  | byName (name : String)
  | byPtr (entity : Ptr)
deriving DecidableEq, Repr

/-- The entity a call adds: the object that new returns, or the pointer passed in. -/
def AddCall.entity : AddCall → World → Ptr
  | .byName _, w => Heap.fresh w.heap
  | .byPtr p, _ => p

/-- Run one addEntity call. -/
def AddCall.exec : AddCall → World → Nat × World
  | .byName name, w => addEntity name w
  | .byPtr p, w => addEntityPtr p w

/-- Run addEntity calls in order: per call the returned id and the entity added,
and the world after the last call. -/
def addAll : List AddCall → World → List (Nat × Ptr) × World
  | [], w => ([], w)
  | c :: cs, w =>
      (((c.exec w).1, c.entity w) :: (addAll cs (c.exec w).2).1, (addAll cs (c.exec w).2).2)

/-- The entity passed to a registerEntity callback of subscriber s, if the event is one. -/
def Event.notifiedTo (s : Ptr) : Event → Option Ptr
  | .registerEntity s1 e => if s1 = s then some e else none
  | _ => none

/-- The entities subscriber s was notified of, in callback order. -/
def notificationsTo (s : Ptr) (tr : List Event) : List Ptr := tr.filterMap (Event.notifiedTo s)

/-- Entity robotA of the demo: assembly assemblyX, marked root. -/
def demoRobotA : SimEntity :=
  { SimEntity.create "robotA" with
    config := [("assembly", ⟨"assemblyX", false⟩), ("root", ⟨"true", true⟩)] }

/-- Entity robotB of the demo: assembly assemblyX, marked main entity. -/
def demoRobotB : SimEntity :=
  { SimEntity.create "robotB" with
    config := [("assembly", ⟨"assemblyX", false⟩), ("main_entity", ⟨"true", true⟩)] }

/-- Entity of the demo that belongs to no assembly. -/
def demoLone : SimEntity := SimEntity.create "lone"

/-- A world for the witnesses: robotA, robotB and lone registered under ids 1, 2, 3. -/
def demoAssembly : World :=
  (addEntityPtr 12 (addEntityPtr 11 (addEntityPtr 10
    (World.fresh [(10, demoRobotA), (11, demoRobotB), (12, demoLone)])).2).2).2

/-! ## SimEntity operations called by the manager -/

/-- The statement m[k] = v on a std::map from ids to names: overwrite the entry with
key k or insert one at its place in key order. -/
def tableAssign (k : Nat) (v : String) : List (Nat × String) → List (Nat × String)
  | [] => [(k, v)]
  | (k1, v1) :: rest =>
      if k < k1 then (k, v) :: (k1, v1) :: rest
      else if k = k1 then (k, v) :: rest
      else (k1, v1) :: tableAssign k v rest

/-- Insertion into a std::set of ids: ascending order, no duplicates. -/
def setInsert (x : Nat) : List Nat → List Nat
  | [] => [x]
  | y :: rest =>
      if x < y then x :: y :: rest
      else if x = y then y :: rest
      else y :: setInsert x rest

/-- Linear scan over an id-to-name table for a name: the id of the first entry
bearing it, 0 when there is none. -/
def tableFindId (name : String) : List (Nat × String) → Nat
  | [] => 0
  | (k, v) :: rest => if v = name then k else tableFindId name rest

/-- Linear scan over an id-to-name table for an id: the name stored under it, the
empty string when there is none. -/
def tableFindName (id : Nat) : List (Nat × String) → String
  | [] => ""
  | (k, v) :: rest => if k = id then v else tableFindName id rest

/-- Modelled from the spec: SimEntity::addNode of SimEntity.cpp, which is not among the
sources; inserts into the node table, last write wins if an id is reused. -/
def SimEntity.addNode (e : SimEntity) (nodeId : Nat) (name : String) : SimEntity :=
  { e with nodeIds := tableAssign nodeId name e.nodeIds }

/-- Modelled from the spec: SimEntity::addMotor of SimEntity.cpp, which is not among the
sources; inserts into the motor table, last write wins if an id is reused. -/
def SimEntity.addMotor (e : SimEntity) (motorId : Nat) (name : String) : SimEntity :=
  { e with motorIds := tableAssign motorId name e.motorIds }

/-- Modelled from the spec: SimEntity::addJoint of SimEntity.cpp, which is not among the
sources; inserts into the joint table, last write wins if an id is reused. -/
def SimEntity.addJoint (e : SimEntity) (jointId : Nat) (name : String) : SimEntity :=
  { e with jointIds := tableAssign jointId name e.jointIds }

/-- Modelled from the spec: SimEntity::addController of SimEntity.cpp, which is not among
the sources; appends to the ordered list of controller ids. -/
def SimEntity.addController (e : SimEntity) (controllerId : Nat) : SimEntity :=
  { e with controllerIds := e.controllerIds ++ [controllerId] }

/-- Modelled from the spec: SimEntity::appendConfig of SimEntity.cpp, which is not among
the sources; merges the new keys into the stored configuration, the
last-applied key wins at the top level. -/
def SimEntity.appendConfig (e : SimEntity) (parameters : ConfigMap) : SimEntity :=
  { e with config := parameters ++ e.config }

/-- Modelled from the spec: SimEntity::getNode(const std::string&) of SimEntity.cpp, which
is not among the sources; linear scan over the node table, 0 when not found. -/
def SimEntity.getNode (e : SimEntity) (name : String) : Nat := tableFindId name e.nodeIds

/-- Modelled from the spec: SimEntity::getNode(unsigned long) of SimEntity.cpp, which is
not among the sources; linear scan over the node table, the empty string when
not found. -/
def SimEntity.getNodeName (e : SimEntity) (id : Nat) : String := tableFindName id e.nodeIds

/-- Modelled from the spec: SimEntity::getJoint(const std::string&) of SimEntity.cpp, which
is not among the sources; linear scan over the joint table, 0 when not found. -/
def SimEntity.getJoint (e : SimEntity) (name : String) : Nat := tableFindId name e.jointIds

/-- Modelled from the spec: SimEntity::belongsToRobot of SimEntity.cpp, which is not among
the sources; true iff the id is a key of the node table. -/
def SimEntity.belongsToRobot (e : SimEntity) (nodeId : Nat) : Bool :=
  e.nodeIds.any (fun kv => decide (kv.1 = nodeId))

/-- Modelled from the spec: SimEntity::select of SimEntity.cpp, which is not among the
sources; if the id belongs to this entity it is added to the selected-node set
(which makes the entity selected) and the result is true, otherwise the result
is false and nothing changes. -/
def SimEntity.select (e : SimEntity) (nodeId : Nat) : Bool × SimEntity :=
  if e.belongsToRobot nodeId then
    (true, { e with selectedNodes := setInsert nodeId e.selectedNodes, selected := true })
  else (false, e)

/-- Modelled from the spec: SimEntity::removeAnchor of SimEntity.cpp, which is not among
the sources; drops the anchor joint, 0 meaning none. -/
def SimEntity.removeAnchor (e : SimEntity) : SimEntity := { e with anchorJointId := 0 }

/-- Modelled from the spec: SimEntity::setInitialPose of SimEntity.cpp, which is not among
the sources; delegates to the physical-simulation collaborator, the entity's
own records stay as they are. -/
def SimEntity.setInitialPose (e : SimEntity) (_reset : Bool) : SimEntity := e

/-! ## EntityManager operations, second part -/

/-- The call iter->second->select(id) made by selectEvent: the entity is updated in
place, the call is recorded, the result is what select returned. -/
def callEntitySelect (entity : Ptr) (id : Nat) (w : World) : Except Fault (Bool × World) :=
  match deref w.heap entity with
  | .error f => .error f
  | .ok e =>
      .ok ((e.select id).1,
           { w with heap := Heap.store w.heap entity (e.select id).2,
                    trace := w.trace ++ [Event.entitySelect entity id] })

/-- The loop of selectEvent over the map: select(id) on every non-null entry, with a
line on stdout for each entity that claims the id; the loop has no break. -/
def selectEventLoop (id : Nat) : List (Nat × Ptr) → World → Except Fault World
  | [], w => .ok w
  | (_, p) :: rest, w =>
      if p ≠ 0 then
        match callEntitySelect p id w with
        | .error f => .error f
        | .ok (claimed, w1) =>
            if claimed then
              match deref w1.heap p with
              | .error f => .error f
              | .ok e =>
                  selectEventLoop id rest
                    { w1 with trace := w1.trace ++
                        [Event.stdout ("robot has been selected: " ++ e.getName ++ "\n")] }
            else selectEventLoop id rest w1
      else selectEventLoop id rest w

/-- EntityManager::selectEvent: the loop runs when mode is true; deselection is not
handled. -/
def selectEvent (id : Nat) (mode : Bool) (w : World) : Except Fault World :=
  if mode = true then selectEventLoop id w.mgr.entities w else .ok w

/-- The loop of getEntity(unsigned long): the value of the first entry whose key is
the id, null when the loop runs to the end. -/
def getEntityByIdLoop (id : Nat) : List (Nat × Ptr) → Ptr
  | [] => 0
  | (k, p) :: rest => if k = id then p else getEntityByIdLoop id rest

/-- EntityManager::getEntity(long unsigned int). -/
def getEntityById (id : Nat) (w : World) : Ptr := getEntityByIdLoop id w.mgr.entities

/-- The loop of getEntities: the pointers of the entries whose entity's name matches
the pattern, in map order. -/
def getEntitiesLoop (matchPattern : String → String → Bool) (h : Heap) (name : String) :
    List (Nat × Ptr) → Except Fault (List Ptr)
  | [] => .ok []
  | (_, p) :: rest =>
      match deref h p with
      | .error f => .error f
      | .ok e =>
          match getEntitiesLoop matchPattern h name rest with
          | .error f => .error f
          | .ok out => .ok (if matchPattern name e.getName then p :: out else out)

/-- EntityManager::getEntities. -/
def getEntities (matchPattern : String → String → Bool) (name : String) (w : World) :
    Except Fault (List Ptr) :=
  getEntitiesLoop matchPattern w.heap name w.mgr.entities

/-- First loop of resetPose: removeAnchor() on every entry in map order. -/
def resetPoseAnchors : List (Nat × Ptr) → World → Except Fault World
  | [], w => .ok w
  | (_, p) :: rest, w =>
      match deref w.heap p with
      | .error f => .error f
      | .ok e =>
          resetPoseAnchors rest
            { w with heap := Heap.store w.heap p e.removeAnchor,
                     trace := w.trace ++ [Event.entityRemoveAnchor p] }

/-- Second loop of resetPose: setInitialPose(true) on every entry in map order. -/
def resetPosePoses : List (Nat × Ptr) → World → Except Fault World
  | [], w => .ok w
  | (_, p) :: rest, w =>
      match deref w.heap p with
      | .error f => .error f
      | .ok e =>
          resetPosePoses rest
            { w with heap := Heap.store w.heap p (e.setInitialPose true),
                     trace := w.trace ++ [Event.entitySetInitialPose p true] }

/-- EntityManager::resetPose: the two loops one after the other. -/
def resetPose (w : World) : Except Fault World :=
  match resetPoseAnchors w.mgr.entities w with
  | .error f => .error f
  | .ok w1 => resetPosePoses w1.mgr.entities w1

/-- The loop of appendConfig and of addNode: entity is the value of the first entry
whose entity has the name, and stays null when there is none. -/
def findEntityLoop (h : Heap) (name : String) : List (Nat × Ptr) → Except Fault Ptr
  | [] => .ok 0
  | (_, p) :: rest =>
      match deref h p with
      | .error f => .error f
      | .ok e => if e.getName = name then .ok p else findEntityLoop h name rest

/-- EntityManager::appendConfig: the entity found by the loop, if any, gets the map
appended. -/
def appendConfig (name : String) (map : ConfigMap) (w : World) : Except Fault World :=
  match findEntityLoop w.heap name w.mgr.entities with
  | .error f => .error f
  | .ok entity =>
      if entity ≠ 0 then
        match deref w.heap entity with
        | .error f => .error f
        | .ok e => .ok { w with heap := Heap.store w.heap entity (e.appendConfig map) }
      else .ok w

/-- EntityManager::addNode: the entity found by the loop, if any, gets the node. -/
def addNode (entityName : String) (nodeId : Nat) (nodeName : String) (w : World) :
    Except Fault World :=
  match findEntityLoop w.heap entityName w.mgr.entities with
  | .error f => .error f
  | .ok entity =>
      if entity ≠ 0 then
        match deref w.heap entity with
        | .error f => .error f
        | .ok e => .ok { w with heap := Heap.store w.heap entity (e.addNode nodeId nodeName) }
      else .ok w

/-- The loop of addMotor: the motor is added to the first entry whose entity has
the name, then break. -/
def addMotorLoop (entityName : String) (motorId : Nat) (motorName : String) (h : Heap) :
    List (Nat × Ptr) → Except Fault Heap
  | [] => .ok h
  | (_, p) :: rest =>
      match deref h p with
      | .error f => .error f
      | .ok e =>
          if e.getName = entityName then .ok (Heap.store h p (e.addMotor motorId motorName))
          else addMotorLoop entityName motorId motorName h rest

/-- EntityManager::addMotor. -/
def addMotor (entityName : String) (motorId : Nat) (motorName : String) (w : World) :
    Except Fault World :=
  match addMotorLoop entityName motorId motorName w.heap w.mgr.entities with
  | .error f => .error f
  | .ok h => .ok { w with heap := h }

/-- The loop of addJoint: the joint is added to the first entry whose entity has
the name, then break. -/
def addJointLoop (entityName : String) (jointId : Nat) (jointName : String) (h : Heap) :
    List (Nat × Ptr) → Except Fault Heap
  | [] => .ok h
  | (_, p) :: rest =>
      match deref h p with
      | .error f => .error f
      | .ok e =>
          if e.getName = entityName then .ok (Heap.store h p (e.addJoint jointId jointName))
          else addJointLoop entityName jointId jointName h rest

/-- EntityManager::addJoint. -/
def addJoint (entityName : String) (jointId : Nat) (jointName : String) (w : World) :
    Except Fault World :=
  match addJointLoop entityName jointId jointName w.heap w.mgr.entities with
  | .error f => .error f
  | .ok h => .ok { w with heap := h }

/-- The loop of addController: the controller id is added to the first entry whose
entity has the name, then break. -/
def addControllerLoop (entityName : String) (controllerId : Nat) (h : Heap) :
    List (Nat × Ptr) → Except Fault Heap
  | [] => .ok h
  | (_, p) :: rest =>
      match deref h p with
      | .error f => .error f
      | .ok e =>
          if e.getName = entityName then .ok (Heap.store h p (e.addController controllerId))
          else addControllerLoop entityName controllerId h rest

/-- EntityManager::addController. -/
def addController (entityName : String) (controllerId : Nat) (w : World) :
    Except Fault World :=
  match addControllerLoop entityName controllerId w.heap w.mgr.entities with
  | .error f => .error f
  | .ok h => .ok { w with heap := h }

/-- EntityManager::getEntityNode: 0 unless getEntity(entityName) finds an entity, then
that entity's getNode(nodeName). -/
def getEntityNode (entityName nodeName : String) (w : World) : Except Fault (Nat × World) :=
  match getEntity entityName w with
  | .error f => .error f
  | .ok (entity, w1) =>
      if entity ≠ 0 then
        match deref w1.heap entity with
        | .error f => .error f
        | .ok e => .ok (e.getNode nodeName, w1)
      else .ok (0, w1)

/-- EntityManager::getEntityJoint: 0 unless getEntity(entityName) finds an entity, then
that entity's getJoint(jointName). -/
def getEntityJoint (entityName jointName : String) (w : World) : Except Fault (Nat × World) :=
  match getEntity entityName w with
  | .error f => .error f
  | .ok (entity, w1) =>
      if entity ≠ 0 then
        match deref w1.heap entity with
        | .error f => .error f
        | .ok e => .ok (e.getJoint jointName, w1)
      else .ok (0, w1)

/-! ## Notions used to state the properties, second part -/

/-- Every non-null pointer held by the map points to a live entity; null entries
are allowed. -/
def World.NoDangling (w : World) : Prop :=
  ∀ kv ∈ w.mgr.entities, kv.2 ≠ 0 → (Heap.load w.heap kv.2).isSome = true

instance (w : World) : Decidable w.NoDangling := by
  unfold World.NoDangling; infer_instance

/-- The select call recorded by an event, if it is one: entity and node id. -/
def Event.selectOf : Event → Option (Ptr × Nat)
  | .entitySelect p id => some (p, id)
  | _ => none

/-- The select calls made on entities, in call order. -/
def selectCalls (tr : List Event) : List (Ptr × Nat) := tr.filterMap Event.selectOf

/-- Whether the name of the entity at an address matches a pattern (false when the
address holds no entity). -/
def nameMatchesAt (matchPattern : String → String → Bool) (pattern : String) (h : Heap)
    (p : Ptr) : Bool :=
  match Heap.load h p with
  | some e => matchPattern pattern e.getName
  | none => false

/-- A name-indexed operation as the specification reads it: look the entity up with
getEntity(name, false) and apply the entity-level operation f to it; nothing
changes when the lookup returns null. -/
def applyToNamed (f : SimEntity → SimEntity) (name : String) (w : World) : Except Fault World :=
  match getEntityVerbose name false w with
  | .error x => .error x
  | .ok (p, w1) =>
      if p = 0 then .ok w1
      else
        match deref w1.heap p with
        | .error x => .error x
        | .ok e => .ok { w1 with heap := Heap.store w1.heap p (f e) }

/-- A std::map lookup as the specification reads it: the value stored under the key
if the map has the key. -/
def mapFind (m : List (Nat × Ptr)) (k : Nat) : Option Ptr :=
  (m.find? (fun kv => decide (kv.1 = k))).map Prod.snd

/-- Two entities that both own node 5, and one that owns node 6. -/
def demoArm : SimEntity := { SimEntity.create "arm" with nodeIds := [(5, "base"), (7, "tip")] }

/-- Second owner of node 5. -/
def demoLeg : SimEntity := { SimEntity.create "leg" with nodeIds := [(5, "hip")] }

/-- Owner of node 6 only. -/
def demoHead : SimEntity :=
  { SimEntity.create "head" with nodeIds := [(6, "neck")], jointIds := [(3, "pan")] }

/-- A world for the selection properties: arm, leg and head under ids 1, 2, 3. -/
def demoSelect : World :=
  (addEntityPtr 22 (addEntityPtr 21 (addEntityPtr 20
    (World.fresh [(20, demoArm), (21, demoLeg), (22, demoHead)])).2).2).2

/-- The public operations that change entities or their configuration. -/
inductive RegistryOp where
  | addEntity (name : String)
  | addEntityPtr (entity : Ptr)
  | appendConfig (name : String) (map : ConfigMap)
  | removeEntity (name : String) (completeAssembly : Bool)
  | removeAssembly (assembly_name : String)
deriving DecidableEq, Repr

/-- Run one operation. -/
def RegistryOp.exec (matchPattern : String → String → Bool) :
    RegistryOp → World → Except Fault World
  | .addEntity name, w => .ok (mars.addEntity name w).2
  | .addEntityPtr entity, w => .ok (mars.addEntityPtr entity w).2
  | .appendConfig name map, w => mars.appendConfig name map w
  | .removeEntity name completeAssembly, w => mars.removeEntity matchPattern name completeAssembly w
  | .removeAssembly assembly_name, w => mars.removeAssembly matchPattern assembly_name w

/-- Run a sequence of operations, stopping at the first fault. -/
def runOps (matchPattern : String → String → Bool) : List RegistryOp → World → Except Fault World
  | [], w => .ok w
  | op :: ops, w =>
      match op.exec matchPattern w with
      | .error f => .error f
      | .ok w1 => runOps matchPattern ops w1

/-- The map entries whose entity has the given assembly tag. -/
def membersOf (w : World) (tag : String) : List (Nat × Ptr) :=
  w.mgr.entities.filter (fun kv => decide (tagAt w.heap kv.2 = tag))

/-- The map entries of an assembly tag whose entity has config root true. -/
def rootsOf (w : World) (tag : String) : List (Nat × Ptr) :=
  w.mgr.entities.filter (fun kv => decide (tagAt w.heap kv.2 = tag) && isRootAt w.heap kv.2)

/-- The map entries of an assembly tag whose entity has config main_entity true. -/
def mainsOf (w : World) (tag : String) : List (Nat × Ptr) :=
  w.mgr.entities.filter (fun kv => decide (tagAt w.heap kv.2 = tag) && isMainAt w.heap kv.2)

/-- No two distinct map entries with the same non-empty assembly tag are both root,
and no two are both main entity. -/
def World.MarksUnique (w : World) : Prop :=
  (∀ a ∈ w.mgr.entities, ∀ b ∈ w.mgr.entities,
    tagAt w.heap a.2 ≠ "" → tagAt w.heap a.2 = tagAt w.heap b.2 →
    isRootAt w.heap a.2 = true → isRootAt w.heap b.2 = true → a = b) ∧
  (∀ a ∈ w.mgr.entities, ∀ b ∈ w.mgr.entities,
    tagAt w.heap a.2 ≠ "" → tagAt w.heap a.2 = tagAt w.heap b.2 →
    isMainAt w.heap a.2 = true → isMainAt w.heap b.2 = true → a = b)

instance (w : World) : Decidable w.MarksUnique := by
  unfold World.MarksUnique; infer_instance

/-- Config that puts an entity into assembly X and marks it root and main entity. -/
def demoMarks : ConfigMap :=
  [("assembly", ⟨"X", false⟩), ("root", ⟨"true", true⟩), ("main_entity", ⟨"true", true⟩)]

/-- Config that puts an entity into assembly Y without any mark. -/
def demoPlain : ConfigMap := [("assembly", ⟨"Y", false⟩)]

/-- Operations on a fresh manager after which assembly X has two roots and two main
entities and assembly Y has a member but no root. -/
def demoMarkOps : List RegistryOp :=
  [.addEntity "a", .addEntity "b", .addEntity "c",
   .appendConfig "a" demoMarks, .appendConfig "b" demoMarks, .appendConfig "c" demoPlain]

/-! ## Notions used to state the properties, third part -/

/-- Whether the operation is one of the two addEntity overloads. -/
def RegistryOp.isAdd : RegistryOp → Bool
  | .addEntity _ => true
  | .addEntityPtr _ => true
  | _ => false

/-- A fresh manager with the subscribers 100 and 101 and the entity lone on the
heap. -/
def demoSubscribed : World :=
  (subscribeToEntityCreation 101 (subscribeToEntityCreation 100
    (World.fresh [(5, demoLone)])).2).2

/-- The world right after a null pointer was handed to addEntity(SimEntity*) on a
fresh manager. -/
def demoNullEntry : World := (addEntityPtr 0 (World.fresh [])).2

/-- Every key of the map is at least 1 and below the id counter. -/
def World.KeysInRange (w : World) : Prop :=
  ∀ kv ∈ w.mgr.entities, 1 ≤ kv.1 ∧ kv.1 < w.mgr.next_entity_id

instance (w : World) : Decidable w.KeysInRange := by
  unfold World.KeysInRange; infer_instance

/-- A run of public operations used as an example of a reachable state. -/
def demoRunOps : List RegistryOp :=
  [.addEntity "a", .addEntity "b", .removeEntity "a" false, .addEntity "c"]

/-- The state the example run reaches. -/
def demoReached : World :=
  match runOps globMatch demoRunOps (World.fresh []) with
  | .ok w => w
  | .error _ => World.fresh []

/-! ## Locking view of the EntityManager operations -/

/-- The steps of an operation that matter for the locking discipline on iMutex. -/
inductive SyncStep where
  | lock
  | unlock
  | mapWrite
  | entityWrite (entity : Ptr)
deriving DecidableEq, Repr

/-- Whether a step sequence keeps the discipline: a MutexLocker is only constructed
when the mutex is free, every write happens while it is held, and it is free
again at the end. -/
def lockDiscipline (held : Bool) : List SyncStep → Bool
  | [] => !held
  | .lock :: rest => !held && lockDiscipline true rest
  | .unlock :: rest => held && lockDiscipline false rest
  | .mapWrite :: rest => held && lockDiscipline held rest
  | .entityWrite _ :: rest => held && lockDiscipline held rest

/-- Steps of addEntity (both overloads): the MutexLocker is constructed first, the map
is written, the locker is destroyed on return. -/
def addEntitySync : List SyncStep := [.lock, .mapWrite, .unlock]

/-- Steps of appendConfig and addNode: after the search, if an entity was found, a
MutexLocker is constructed around the call on the entity. -/
def writeAfterSearchSync (name : String) (w : World) : Except Fault (List SyncStep) :=
  match findEntityLoop w.heap name w.mgr.entities with
  | .error f => .error f
  | .ok entity => if entity ≠ 0 then .ok [.lock, .entityWrite entity, .unlock] else .ok []

/-- Steps of addMotor, addJoint and addController: inside the loop, at the first entry
whose entity has the name, a MutexLocker is constructed around the call on the
entity, then break. -/
def writeInSearchSync (h : Heap) (name : String) : List (Nat × Ptr) → Except Fault (List SyncStep)
  | [] => .ok []
  | (_, p) :: rest =>
      match deref h p with
      | .error f => .error f
      | .ok e =>
          if e.getName = name then .ok [.lock, .entityWrite p, .unlock]
          else writeInSearchSync h name rest

/-- Steps of the loop of removeAssembly: per part the erase from the map, if an entry
holds the part, and the teardown call; no MutexLocker is constructed. -/
def removeAssemblyLoopSync : List Ptr → World → Except Fault (List SyncStep)
  | [], _ => .ok []
  | p :: parts, w =>
      match removeAssemblyPart p w with
      | .error f => .error f
      | .ok w1 =>
          match removeAssemblyLoopSync parts w1 with
          | .error f => .error f
          | .ok steps =>
              .ok ((if w.mgr.entities.any (fun kv => kv.2 = p) then [SyncStep.mapWrite] else [])
                ++ [SyncStep.entityWrite p] ++ steps)

/-- Steps of removeAssembly. -/
def removeAssemblySync (matchPattern : String → String → Bool) (assembly_name : String)
    (w : World) : Except Fault (List SyncStep) :=
  match getEntitiesOfAssembly matchPattern assembly_name w with
  | .error f => .error f
  | .ok parts => removeAssemblyLoopSync parts w

/-- Steps of the else branch of removeEntity: the erase from the map, if an entry
holds the entity, and the teardown call; no MutexLocker is constructed. -/
def removeEntitySingleSync (entity : Ptr) (w : World) : Except Fault (List SyncStep) :=
  match removeEntitySingle entity w with
  | .error f => .error f
  | .ok _ =>
      .ok ((if w.mgr.entities.any (fun kv => kv.2 = entity) then [SyncStep.mapWrite] else [])
        ++ [SyncStep.entityWrite entity])

/-- Steps of removeEntity. -/
def removeEntitySync (matchPattern : String → String → Bool) (name : String)
    (completeAssembly : Bool) (w : World) : Except Fault (List SyncStep) :=
  match getEntity name w with
  | .error f => .error f
  | .ok (entity, w1) =>
      if completeAssembly then
        match deref w1.heap entity with
        | .error f => .error f
        | .ok e =>
            if e.getAssembly ≠ "" then removeAssemblySync matchPattern e.getAssembly w1
            else removeEntitySingleSync entity w1
      else removeEntitySingleSync entity w1

/-! ## MainGUI (common/gui/main_gui) -/

namespace main_gui

/-- Number of values of the C++ type unsigned int. -/
def UINT_RANGE : Nat := 2 ^ 32

/-- Ways in which a MainGUI call ends without returning normally. -/
inductive GuiFault where
  | nullDeref
  | invalid_argument (what : String)
  | outOfRange
  | noReturn
deriving DecidableEq, Repr

/-- The struct menuStruct (MainGUI.h): menu and toolbar are Qt object pointers. -/
structure menuStruct where
  menu : Ptr
  toolbar : Ptr
  label : String
deriving DecidableEq, Repr

/-- The struct genericMenu (MainGUI.h). -/
structure genericMenu where
  path : String
  genericAction : Ptr
  menu : Ptr
  action : Int
deriving DecidableEq, Repr

/-- The data members of MainGUI that the operations use, together with the part of
the Qt state they read or write: the text of each line edit, the widgets added
to toolbars, and the number of Qt objects created so far (object addresses are
handed out in sequence and are never null).  The std::function callbacks
stored next to the widgets are left out. -/
structure MainGUI where
  allow_toolbar : Bool
  v_qmenu : List menuStruct
  genericMenus : List genericMenu
  toolbar_cb_callbacks : List Ptr
  toolbar_le_callbacks : List (Int × Ptr)
  lineEditText : List (Ptr × String)
  toolbarWidgets : List (Ptr × Ptr)
  objects : Nat
deriving DecidableEq, Repr

/-- MainGUI::MainGUI: toolbars are allowed, no menu is known; the main window, the
menu bar, the help menu and its about action are the first four Qt objects. -/
def MainGUI.init : MainGUI :=
  { allow_toolbar := true, v_qmenu := [], genericMenus := [], toolbar_cb_callbacks := [],
    toolbar_le_callbacks := [], lineEditText := [], toolbarWidgets := [], objects := 4 }

/-- The call std::string::substr(pos, n) for pos within the string. -/
def substr (s : List Char) (pos n : Nat) : List Char := (s.drop pos).take n

/-- The first loop of addGenericMenuAction (lines 133-143) with its unsigned int
counters i and j: at every slash the part since the previous slash is pushed,
and at i == path.length() the last part is pushed when something was pushed
before.  The result is none when the fuel runs out before the loop ends. -/
def menuPathLoop (path : List Char) : Nat → Nat → Nat → List String → Option (List String)
  | 0, _, _, _ => none
  | fuel + 1, i, j, menuPath =>
      if i < path.length + 1 then
        let slash : Bool := decide (path.getD i (Char.ofNat 0) = '/')
        let menuPath1 : List String :=
          if slash then menuPath ++ [String.mk (substr path j ((i + UINT_RANGE - j) % UINT_RANGE))]
          else menuPath
        let j1 : Nat := if slash then (i + 1) % UINT_RANGE else j
        let menuPath2 : List String :=
          if i = path.length ∧ 0 < menuPath1.length then
            menuPath1 ++ [String.mk (substr path j1 ((i + UINT_RANGE - j1) % UINT_RANGE))]
          else menuPath1
        menuPathLoop path fuel ((i + 1) % UINT_RANGE) j1 menuPath2
      else some menuPath

/-- The menuPath vector that addGenericMenuAction builds from path. -/
def parseMenuPath (path : String) : Option (List String) :=
  menuPathLoop path.toList (path.toList.length + 2) 0 0 []

/-- The search loops over v_qmenu in addGenericMenuAction (lines 152-163 and 230-241):
at the first entry with the label, qmenu and qtoolbar are taken from it, and a
toolbar is created and stored in the entry when one is wanted and the entry has
none.  The result is qmenu, qtoolbar, the updated vector and object count;
none when no entry has the label. -/
def findMenuLoop (label : String) (toolbar : Bool) (objects : Nat) :
    List menuStruct → Option (Ptr × Ptr × List menuStruct × Nat)
  | [] => none
  | m :: rest =>
      if m.label = label then
        if toolbar && m.toolbar = 0 then
          some (m.menu, objects + 1, { m with toolbar := objects + 1 } :: rest, objects + 1)
        else some (m.menu, m.toolbar, m :: rest, objects)
      else
        match findMenuLoop label toolbar objects rest with
        | none => none
        | some (qmenu, qtoolbar, rest1, objects1) => some (qmenu, qtoolbar, m :: rest1, objects1)

/-- The menu entry made when no entry has the label (lines 165-175 and 243-254): a new
QMenu, and a new toolbar if one is wanted and allowed, else a null toolbar. -/
def newMenuEntry (label : String) (toolbar : Bool) (g : MainGUI) : Ptr × Ptr × MainGUI :=
  let qmenu := g.objects + 1
  if toolbar && g.allow_toolbar then
    (qmenu, g.objects + 2,
     { g with v_qmenu := g.v_qmenu ++ [{ menu := qmenu, toolbar := g.objects + 2, label := label }],
              objects := g.objects + 2 })
  else
    (qmenu, 0,
     { g with v_qmenu := g.v_qmenu ++ [{ menu := qmenu, toolbar := 0, label := label }],
              objects := g.objects + 1 })

/-- The main menu entry after a leading ".." (lines 149-178): qmenu and qtoolbar. -/
def enterMainMenu (label : String) (toolbar : Bool) (g : MainGUI) : Ptr × Ptr × MainGUI :=
  match findMenuLoop label toolbar g.objects g.v_qmenu with
  | some (qmenu, qtoolbar, v, objects) => (qmenu, qtoolbar, { g with v_qmenu := v, objects := objects })
  | none => newMenuEntry label toolbar g

/-- A menu group that is not the last path entry (lines 227-256): an existing entry is
entered; otherwise the new menu is added to the current qmenu, which must not
be null. -/
def enterSubMenu (label : String) (toolbar : Bool) (qmenu : Ptr) (g : MainGUI) :
    Except GuiFault (Ptr × Ptr × MainGUI) :=
  match findMenuLoop label toolbar g.objects g.v_qmenu with
  | some (qmenu1, qtoolbar, v, objects) =>
      .ok (qmenu1, qtoolbar, { g with v_qmenu := v, objects := objects })
  | none => if qmenu = 0 then .error .nullDeref else .ok (newMenuEntry label toolbar g)

/-- The loop that builds the menu structure (lines 186-257) over the path entries from
index i on.  At the last entry the new action is added to the toolbar only when
a toolbar is wanted and qtoolbar is not null.  The result holds csMenu when the
function goes on to record the action, and none when it returned early
(separator, empty last entry). -/
def buildMenuLoop (toolbar : Bool) (checkable : Int) :
    List String → Ptr → Ptr → MainGUI → Except GuiFault (Option Ptr × MainGUI)
  | [], _, _, g => .ok (some 0, g)
  | [last], qmenu, qtoolbar, g =>
      if checkable < 0 then
        if qmenu = 0 then .error .nullDeref else .ok (none, { g with objects := g.objects + 1 })
      else if last = "" then .ok (none, g)
      else if qmenu = 0 then .error .nullDeref
      else
        let csMenu := g.objects + 1
        if toolbar && qtoolbar ≠ 0 then
          .ok (some csMenu, { g with objects := g.objects + 1,
                                     toolbarWidgets := g.toolbarWidgets ++ [(qtoolbar, csMenu)] })
        else .ok (some csMenu, { g with objects := g.objects + 1 })
  | label :: next :: rest, qmenu, _, g =>
      match enterSubMenu label toolbar qmenu g with
      | .error f => .error f
      | .ok (qmenu1, qtoolbar1, g1) =>
          buildMenuLoop toolbar checkable (next :: rest) qmenu1 qtoolbar1 g1

/-- MainGUI::addGenericMenuAction.  Qt calls that only decorate the new action (icon,
shortcut, check state, signal connections) leave the modelled state alone; the
calls made through a null csMenu in the branch for paths without a slash are
faults. -/
def addGenericMenuAction (path : String) (action : Int) (menu : Ptr) (qtKey : Int)
    (_icon : String) (toolbar : Bool) (checkable : Int) (g : MainGUI) :
    Except GuiFault MainGUI :=
  match parseMenuPath path with
  | none => .error .noReturn
  | some [] =>
      if qtKey ≠ 0 then .error .nullDeref
      else if checkable > 0 then .error .nullDeref
      else .ok { g with genericMenus := g.genericMenus ++
        [{ path := path, genericAction := 0, menu := menu, action := action }] }
  | some (first :: entries) =>
      let start : Except GuiFault (List String × Ptr × Ptr × MainGUI) :=
        if first = ".." then
          match entries with
          | [] => .error .outOfRange
          | label :: rest =>
              .ok (rest, (enterMainMenu label toolbar g).1, (enterMainMenu label toolbar g).2.1,
                   (enterMainMenu label toolbar g).2.2)
        else .ok (first :: entries, 0, 0, g)
      match start with
      | .error f => .error f
      | .ok (todo, qmenu, qtoolbar, g1) =>
          match buildMenuLoop toolbar checkable todo qmenu qtoolbar g1 with
          | .error f => .error f
          | .ok (none, g2) => .ok g2
          | .ok (some csMenu, g2) =>
              .ok { g2 with genericMenus := g2.genericMenus ++
                [{ path := path, genericAction := csMenu, menu := menu, action := action }] }

/-- MainGUI::getToolbar: the toolbar pointer of the first menu entry with the label;
std::invalid_argument when there is none. -/
def getToolbar (label : String) (g : MainGUI) : Except GuiFault Ptr :=
  match g.v_qmenu.find? (fun m => decide (m.label = label)) with
  | some m => .ok m.toolbar
  | none => .error (.invalid_argument ("label toolbar " ++ label ++ " does not exist"))

/-- MainGUI::addComboBoxToToolbar: the new combo box is added to the toolbar that
getToolbar returned, which is dereferenced without a check. -/
def addComboBoxToToolbar (toolbar_label : String) (_elements : List String) (g : MainGUI) :
    Except GuiFault MainGUI :=
  match getToolbar toolbar_label g with
  | .error f => .error f
  | .ok toolbar =>
      let combobox := g.objects + 1
      if toolbar = 0 then .error .nullDeref
      else .ok { g with objects := g.objects + 1,
                        toolbarWidgets := g.toolbarWidgets ++ [(toolbar, combobox)],
                        toolbar_cb_callbacks := g.toolbar_cb_callbacks ++ [combobox] }

/-- MainGUI::addLineEditToToolbar: a new line edit with the default text and a new
label are added to the toolbar that getToolbar returned, which is dereferenced
without a check; the line edit is recorded under the id at the end of the
vector. -/
def addLineEditToToolbar (id : Int) (toolbar_label _label_text default_text : String)
    (g : MainGUI) : Except GuiFault MainGUI :=
  match getToolbar toolbar_label g with
  | .error f => .error f
  | .ok toolbar =>
      let line_edit := g.objects + 1
      let label := g.objects + 2
      if toolbar = 0 then .error .nullDeref
      else .ok { g with objects := g.objects + 2,
                        lineEditText := (line_edit, default_text) :: g.lineEditText,
                        toolbarWidgets := g.toolbarWidgets ++ [(toolbar, label), (toolbar, line_edit)],
                        toolbar_le_callbacks := g.toolbar_le_callbacks ++ [(id, line_edit)] }

/-- The Qt call line_edit->text(). -/
def lineEditTextOf (g : MainGUI) (line_edit : Ptr) : String :=
  (List.lookup line_edit g.lineEditText).getD ""

/-- The loop of getToolbarLineEditText over the recorded line edits. -/
def getToolbarLineEditTextLoop (g : MainGUI) (id : Int) : List (Int × Ptr) → Except GuiFault String
  | [] => .error (.invalid_argument ("Could not find QLineEdit with id " ++ toString id))
  | (id1, line_edit) :: rest =>
      if id1 = id then .ok (lineEditTextOf g line_edit)
      else getToolbarLineEditTextLoop g id rest

/-- MainGUI::getToolbarLineEditText. -/
def getToolbarLineEditText (id : Int) (g : MainGUI) : Except GuiFault String :=
  getToolbarLineEditTextLoop g id g.toolbar_le_callbacks

/-- The path split at every slash, as the specification reads it: one component
more than there are slashes, empty components kept. -/
def splitAtSlashes : List Char → List (List Char)
  | [] => [[]]
  | c :: cs =>
      if c = '/' then [] :: splitAtSlashes cs
      else
        match splitAtSlashes cs with
        | [] => [[c]]
        | x :: xs => (c :: x) :: xs

/-- The component being read joined to the split of the rest of the path. -/
def joinCurrent (cur : List Char) : List (List Char) → List (List Char)
  | [] => [cur]
  | x :: xs => (cur ++ x) :: xs

/-- The first loop of addGenericMenuAction read as a scan over the part of the path
not yet visited: cur is the text since the last slash. -/
def menuPathScan : List Char → List String → List Char → List String
  | cur, menuPath, [] => if 0 < menuPath.length then menuPath ++ [String.mk cur] else menuPath
  | cur, menuPath, c :: cs =>
      if c = '/' then menuPathScan [] (menuPath ++ [String.mk cur]) cs
      else menuPathScan (cur ++ [c]) menuPath cs

/-- A GUI in which the menu File was created without a toolbar. -/
def demoGui : MainGUI :=
  match addGenericMenuAction "../File/Open" 1 77 0 "" false 0 MainGUI.init with
  | .ok g => g
  | .error _ => MainGUI.init

/-- A GUI whose menu Tools has a toolbar with three line edits, two of them
registered under the id 7. -/
def demoLineEdits : MainGUI :=
  match (addGenericMenuAction "../Tools/Run" 1 77 0 "" true 0 MainGUI.init
          >>= addLineEditToToolbar 7 "Tools" "speed" "first"
          >>= addLineEditToToolbar 3 "Tools" "step" "other"
          >>= addLineEditToToolbar 7 "Tools" "again" "second") with
  | .ok g => g
  | .error _ => MainGUI.init

end main_gui

/-! ## OsgMaterial (common/graphics/osg_material_manager) -/

namespace osg_material_manager

/-- The class TextureInfo (OsgMaterial.h); the osg objects are pointers. -/
structure TextureInfo where
  texture : Ptr
  cubemap : Ptr
  textureUniform : Ptr
  name : String
  unit : Int
  enabled : Bool
deriving DecidableEq, Repr

/-- The class TextureArrayInfo (OsgMaterial.h). -/
structure TextureArrayInfo where
  texture : Ptr
  textureUniform : Ptr
  name : String
  unit : Int
  enabled : Bool
deriving DecidableEq, Repr

/-- The calls that enableTexture and disableTexture make on the state set. -/
inductive StateCall where
  | setTextureAttributeAndModes (unit : Int) (texture : Ptr) (value : Bool)
  | addUniform (uniform : Ptr)
  | removeUniform (uniform : Ptr)
deriving DecidableEq, Repr

/-- The two texture tables of OsgMaterial and the calls made on its state set.  A
std::map is a list of key-value pairs in which find(name) gives the first pair
with the key. -/
structure OsgMaterial where
  textures : List (String × TextureInfo)
  textureArrays : List (String × TextureArrayInfo)
  stateCalls : List StateCall
deriving DecidableEq, Repr

/-- The assignment through the iterator that find(name) returned: the value of the
first pair with the key is replaced. -/
def tableSet {α : Type} (name : String) (v : α) : List (String × α) → List (String × α)
  | [] => []
  | (k, x) :: rest => if name = k then (k, v) :: rest else (k, x) :: tableSet name v rest

/-- OsgMaterial::disableTexture. -/
def disableTexture (name : String) (m : OsgMaterial) : OsgMaterial :=
  match List.lookup name m.textures with
  | some info =>
      { m with
        textures := tableSet name { info with enabled := false } m.textures,
        stateCalls := m.stateCalls ++
          [.setTextureAttributeAndModes info.unit
             (if info.cubemap ≠ 0 then info.cubemap else info.texture) false,
           .removeUniform info.textureUniform] }
  | none =>
      match List.lookup name m.textureArrays with
      | some info =>
          { m with
            textureArrays := tableSet name { info with enabled := false } m.textureArrays,
            stateCalls := m.stateCalls ++
              [.setTextureAttributeAndModes info.unit info.texture false,
               .removeUniform info.textureUniform] }
      | none => m

/-- OsgMaterial::enableTexture. -/
def enableTexture (name : String) (m : OsgMaterial) : OsgMaterial :=
  match List.lookup name m.textures with
  | some info =>
      { m with
        textures := tableSet name { info with enabled := true } m.textures,
        stateCalls := m.stateCalls ++
          [.setTextureAttributeAndModes info.unit
             (if info.cubemap ≠ 0 then info.cubemap else info.texture) true,
           .addUniform info.textureUniform] }
  | none =>
      match List.lookup name m.textureArrays with
      | some info =>
          { m with
            textureArrays := tableSet name { info with enabled := true } m.textureArrays,
            stateCalls := m.stateCalls ++
              [.setTextureAttributeAndModes info.unit info.texture true,
               .addUniform info.textureUniform] }
      | none => m

/-- OsgMaterial::checkTexture. -/
def checkTexture (name : String) (m : OsgMaterial) : Bool :=
  match List.lookup name m.textures with
  | some info => info.enabled
  | none =>
      match List.lookup name m.textureArrays with
      | some info => info.enabled
      | none => false

/-- The factor s256 = 1./256 of loadTerrainTexture.  The C++ value is a double; one
256th is a power of two and the samples are integers below 2^16, so the double
product is exact and is computed here over the rationals. -/
def s256 : ℚ := 1 / 256

/-- The two clamps applied to v before it is stored (v < 0, then v > 255). -/
def clampByte (v : Int) : Int :=
  let v1 := if v < 0 then 0 else v
  if v1 > 255 then 255 else v1

/-- The conversion (char)v written through the unsigned char pointer of the image:
the value modulo 256. -/
def storeByte (v : Int) : Nat := (v % 256).toNat

/-- The value v = floor(s[0]*s256) before the clamps. -/
def hiValue (s : Nat) : Int := Rat.floor ((s : ℚ) * s256)

/-- The value v = (int)s[0] % 256 before the clamps; the C++ remainder truncates
toward zero. -/
def loValue (s : Nat) : Int := Int.tmod (s : Int) 256

/-- The four channels that the loop of loadTerrainTexture writes for one sample: of a
16-bit image (depth == CV_16U) or of an 8-bit image. -/
def terrainTexel (depth16 : Bool) (s : Nat) : List Nat :=
  if depth16 then
    [storeByte (clampByte (hiValue s)), storeByte (clampByte (loValue s)), 0, 255]
  else [storeByte (s : Int), 0, 0, 255]

/-- A material with two textures and one texture array. -/
def demoMaterial : OsgMaterial :=
  { textures :=
      [("diffuse", { texture := 1, cubemap := 0, textureUniform := 2, name := "diffuse",
                     unit := 0, enabled := true }),
       ("sky", { texture := 0, cubemap := 3, textureUniform := 4, name := "sky",
                 unit := 1, enabled := false })],
    textureArrays :=
      [("layers", { texture := 5, textureUniform := 6, name := "layers", unit := 2,
                    enabled := false })],
    stateCalls := [] }

end osg_material_manager

/-! ## Lemmas and verified properties -/

theorem deref_of_live {h : Heap} {p : Ptr} (hp : p ≠ 0) (hl : (Heap.load h p).isSome = true) :
    ∃ e, Heap.load h p = some e ∧ deref h p = .ok e := by
  obtain ⟨e, he⟩ := Option.isSome_iff_exists.mp hl
  exact ⟨e, he, by simp [deref, hp, he]⟩

theorem find_least {P : Nat × Ptr → Bool} {es : List (Nat × Ptr)} {kv : Nat × Ptr}
    (hs : List.Pairwise (fun a b : Nat × Ptr => a.1 < b.1) es)
    (hf : es.find? P = some kv) :
    kv ∈ es ∧ P kv = true ∧ ∀ kv' ∈ es, P kv' = true → kv.1 ≤ kv'.1 := by
  induction es with
  | nil => simp at hf
  | cons a rest ih =>
    rw [List.pairwise_cons] at hs
    by_cases ha : P a = true
    · rw [List.find?_cons_of_pos _ ha] at hf
      cases hf
      refine ⟨List.mem_cons_self _ _, ha, ?_⟩
      intro kv' hkv' _
      rcases List.mem_cons.mp hkv' with rfl | hm
      · exact le_refl _
      · exact le_of_lt (hs.1 kv' hm)
    · rw [List.find?_cons_of_neg _ ha] at hf
      obtain ⟨h1, h2, h3⟩ := ih hs.2 hf
      refine ⟨List.mem_cons_of_mem _ h1, h2, ?_⟩
      intro kv' hkv' hP
      rcases List.mem_cons.mp hkv' with rfl | hm
      · exact absurd hP ha
      · exact h3 kv' hm hP

theorem getEntityLoop_eq_find (h : Heap) (name : String) (es : List (Nat × Ptr))
    (hl : ∀ kv ∈ es, kv.2 ≠ 0 ∧ (Heap.load h kv.2).isSome = true) :
    getEntityLoop h name es =
      .ok ((es.find? (fun kv => decide (nameAt h kv.2 = some name))).map Prod.snd) := by
  induction es with
  | nil => rfl
  | cons a rest ih =>
    obtain ⟨k, p⟩ := a
    have hp := hl (k, p) (List.mem_cons_self _ _)
    obtain ⟨e, he, hd⟩ := deref_of_live hp.1 hp.2
    have ih' := ih (fun kv hkv => hl kv (List.mem_cons_of_mem _ hkv))
    simp only [getEntityLoop, hd]
    by_cases hn : e.getName = name
    · simp [hn, nameAt, he]
    · simp [hn, nameAt, he, ih']

theorem Heap.fresh_ne_zero (h : Heap) : Heap.fresh h ≠ 0 := by
  simp [Heap.fresh]

/-- Claim C2: on a well-formed registry getEntity(name) returns a pointer p and leaves
heap and manager as they were; p is null iff no entry holds an entity of that
name; a non-null p is held by an entry whose id is the least among the entries
holding an entity of that name.  After addEntity("x") twice on a fresh manager
the ids are 1 and 2 and getEntity("x") is the entity stored under id 1. -/
theorem C2_getEntity_lowest_id_match (w : World) (name : String) (hwf : w.WF) :
    (∃ p w', getEntity name w = .ok (p, w') ∧ w'.heap = w.heap ∧ w'.mgr = w.mgr ∧
      (p = 0 ↔ ¬ ∃ kv ∈ w.mgr.entities, nameAt w.heap kv.2 = some name) ∧
      (p ≠ 0 → ∃ k, (k, p) ∈ w.mgr.entities ∧ nameAt w.heap p = some name ∧
        ∀ kv ∈ w.mgr.entities, nameAt w.heap kv.2 = some name → k ≤ kv.1)) ∧
    (∀ h : Heap, ∃ p w',
      getEntity "x" (addEntity "x" (addEntity "x" (World.fresh h)).2).2 = .ok (p, w') ∧
      p ≠ 0 ∧
      (addEntity "x" (addEntity "x" (World.fresh h)).2).2.mgr.entities
        = [(1, p), (2, Heap.fresh (Heap.store h p (SimEntity.create "x")))] ∧
      (addEntity "x" (World.fresh h)).1 = 1 ∧
      (addEntity "x" (addEntity "x" (World.fresh h)).2).1 = 2) := by
  constructor
  · have hloop := getEntityLoop_eq_find w.heap name w.mgr.entities hwf.2
    cases hfind : w.mgr.entities.find? (fun kv => decide (nameAt w.heap kv.2 = some name)) with
    | none =>
      refine ⟨0, { w with trace := w.trace ++
          [Event.stderr ("ERROR: Entity with name " ++ name ++ " not found!\n")] }, ?_, ?_, ?_, ?_, ?_⟩
      · simp [getEntity, getEntityVerbose, hloop, hfind]
      · rfl
      · rfl
      · simp only [true_iff]
        rintro ⟨kv, hkv, hn⟩
        have := List.find?_eq_none.mp hfind kv hkv
        simp [hn] at this
      · intro h0; exact absurd rfl h0
    | some kv =>
      obtain ⟨hmem, hP, hleast⟩ := find_least hwf.1 hfind
      have hP' : nameAt w.heap kv.2 = some name := by simpa using hP
      refine ⟨kv.2, w, ?_, rfl, rfl, ?_, ?_⟩
      · simp [getEntity, getEntityVerbose, hloop, hfind]
      · constructor
        · intro h0; exact absurd h0 (hwf.2 kv hmem).1
        · intro hno; exact absurd ⟨kv, hmem, hP'⟩ hno
      · intro _
        refine ⟨kv.1, hmem, hP', ?_⟩
        intro kv' hkv' hn
        exact hleast kv' hkv' (by simpa using hn)
  · intro h
    refine ⟨Heap.fresh h, (addEntity "x" (addEntity "x" (World.fresh h)).2).2, ?_,
      Heap.fresh_ne_zero h, ?_, ?_, ?_⟩
    · simp [getEntity, getEntityVerbose, getEntityLoop, addEntity, addEntityRuns, notifySubscribersRuns, getNextId, notifySubscribers,
        World.fresh, EntityManager.init, mapAssign, mapAt, deref, Heap.store, Heap.load,
        ULONG_RANGE, SimEntity.create, SimEntity.getName, List.lookup, Heap.fresh]
      generalize (List.foldr max 0 (List.map Prod.fst h) == _) = b
      cases b <;> rfl
    · simp [addEntity, addEntityRuns, notifySubscribersRuns, getNextId, notifySubscribers,
        World.fresh, EntityManager.init, mapAssign, mapAt, Heap.store,
        ULONG_RANGE]
    · rfl
    · simp [addEntity, addEntityRuns, notifySubscribersRuns, getNextId, notifySubscribers,
        World.fresh, EntityManager.init, mapAssign, mapAt, Heap.store,
        ULONG_RANGE]

/-- Witness for C2 on the world with two entities named x. -/
theorem C2_witness :
    demoTwoX.WF ∧ ∃ p w1, getEntity "x" demoTwoX = .ok (p, w1) ∧ w1.heap = demoTwoX.heap ∧
      w1.mgr = demoTwoX.mgr ∧
      (p = 0 ↔ ¬ ∃ kv ∈ demoTwoX.mgr.entities, nameAt demoTwoX.heap kv.2 = some "x") ∧
      (p ≠ 0 → ∃ k, (k, p) ∈ demoTwoX.mgr.entities ∧ nameAt demoTwoX.heap p = some "x" ∧
        ∀ kv ∈ demoTwoX.mgr.entities, nameAt demoTwoX.heap kv.2 = some "x" → k ≤ kv.1) :=
  ⟨by decide, (C2_getEntity_lowest_id_match demoTwoX "x" (by decide)).1⟩

theorem callEntityRemoveEntity_mgr {p : Ptr} {w w1 : World}
    (h : callEntityRemoveEntity p w = .ok w1) : w1.mgr = w.mgr := by
  unfold callEntityRemoveEntity at h
  split at h
  · cases h
  · cases h; rfl

theorem removeAssemblyPart_counter {p : Ptr} {w w1 : World}
    (h : removeAssemblyPart p w = .ok w1) :
    w1.mgr.next_entity_id = w.mgr.next_entity_id ∧ w1.mgr.subscribers = w.mgr.subscribers := by
  unfold removeAssemblyPart at h
  split at h
  · split at h
    · cases h
    · rw [callEntityRemoveEntity_mgr h]; exact ⟨rfl, rfl⟩
  · rw [callEntityRemoveEntity_mgr h]; exact ⟨rfl, rfl⟩

theorem removeAssemblyLoop_counter (parts : List Ptr) : ∀ {w w1 : World},
    removeAssemblyLoop parts w = .ok w1 →
    w1.mgr.next_entity_id = w.mgr.next_entity_id ∧ w1.mgr.subscribers = w.mgr.subscribers := by
  induction parts with
  | nil => intro w w1 h; cases h; exact ⟨rfl, rfl⟩
  | cons p ps ih =>
    intro w w1 h
    simp only [removeAssemblyLoop] at h
    split at h
    · cases h
    · rename_i w2 h2
      have h3 := ih h
      have h4 := removeAssemblyPart_counter h2
      exact ⟨h3.1.trans h4.1, h3.2.trans h4.2⟩

theorem removeAssembly_counter {mp : String → String → Bool} {a : String} {w w1 : World}
    (h : removeAssembly mp a w = .ok w1) :
    w1.mgr.next_entity_id = w.mgr.next_entity_id ∧ w1.mgr.subscribers = w.mgr.subscribers := by
  unfold removeAssembly at h
  split at h
  · cases h
  · exact removeAssemblyLoop_counter _ h

theorem getEntityVerbose_state {name : String} {v : Bool} {w w1 : World} {p : Ptr}
    (h : getEntityVerbose name v w = .ok (p, w1)) : w1.mgr = w.mgr ∧ w1.heap = w.heap := by
  unfold getEntityVerbose at h
  split at h
  · cases h
  · cases h; exact ⟨rfl, rfl⟩
  · split at h <;> cases h <;> exact ⟨rfl, rfl⟩

theorem removeEntitySingle_counter {p : Ptr} {w w1 : World}
    (h : removeEntitySingle p w = .ok w1) :
    w1.mgr.next_entity_id = w.mgr.next_entity_id ∧ w1.mgr.subscribers = w.mgr.subscribers := by
  unfold removeEntitySingle at h
  rw [callEntityRemoveEntity_mgr h]; exact ⟨rfl, rfl⟩

theorem removeEntity_counter {mp : String → String → Bool} {name : String} {c : Bool}
    {w w1 : World} (h : removeEntity mp name c w = .ok w1) :
    w1.mgr.next_entity_id = w.mgr.next_entity_id ∧ w1.mgr.subscribers = w.mgr.subscribers := by
  unfold removeEntity at h
  split at h
  · cases h
  · rename_i entity w2 hg
    have hs := getEntityVerbose_state hg
    split at h
    · split at h
      · cases h
      · split at h
        · have := removeAssembly_counter h
          rw [hs.1] at this; exact this
        · have := removeEntitySingle_counter h
          rw [hs.1] at this; exact this
    · have := removeEntitySingle_counter h
      rw [hs.1] at this; exact this

theorem returnedIds_from (mp : String → String → Bool) (ops : List Op) :
    ∀ (w : World) (c : Nat), w.mgr.next_entity_id = c % ULONG_RANGE → 1 ≤ c →
      c + ops.countP Op.isAdd ≤ ULONG_RANGE →
      List.Pairwise (· < ·) (returnedIds mp ops w) ∧ ∀ id ∈ returnedIds mp ops w, c ≤ id := by
  induction ops with
  | nil => intro w c _ _ _; simp [returnedIds]
  | cons op ops ih =>
    intro w c hc h1 hb
    cases op with
    | addEntity name =>
      simp only [List.countP_cons, Op.isAdd, if_true] at hb
      have hlt : c < ULONG_RANGE := by omega
      have hid : (addEntity name w).1 = c := by
        simp [addEntity, addEntityRuns, notifySubscribersRuns, getNextId, hc, Nat.mod_eq_of_lt hlt]
      have hnext : (addEntity name w).2.mgr.next_entity_id = (c + 1) % ULONG_RANGE := by
        simp [addEntity, addEntityRuns, notifySubscribersRuns, getNextId, notifySubscribers, hc, Nat.mod_eq_of_lt hlt]
      obtain ⟨ih1, ih2⟩ := ih (addEntity name w).2 (c + 1) hnext (by omega) (by omega)
      simp only [returnedIds, Op.exec, hid]
      refine ⟨List.pairwise_cons.mpr ⟨fun id hidm => ?_, ih1⟩, ?_⟩
      · have := ih2 id hidm; omega
      · intro id hidm
        rcases List.mem_cons.mp hidm with rfl | hm
        · exact le_refl _
        · have := ih2 id hm; omega
    | addEntityPtr entity =>
      simp only [List.countP_cons, Op.isAdd, if_true] at hb
      have hlt : c < ULONG_RANGE := by omega
      have hid : (addEntityPtr entity w).1 = c := by
        simp [addEntityPtr, addEntityPtrRuns, notifySubscribersRuns, getNextId, hc, Nat.mod_eq_of_lt hlt]
      have hnext : (addEntityPtr entity w).2.mgr.next_entity_id = (c + 1) % ULONG_RANGE := by
        simp [addEntityPtr, addEntityPtrRuns, notifySubscribersRuns, getNextId, notifySubscribers, hc, Nat.mod_eq_of_lt hlt]
      obtain ⟨ih1, ih2⟩ := ih (addEntityPtr entity w).2 (c + 1) hnext (by omega) (by omega)
      simp only [returnedIds, Op.exec, hid]
      refine ⟨List.pairwise_cons.mpr ⟨fun id hidm => ?_, ih1⟩, ?_⟩
      · have := ih2 id hidm; omega
      · intro id hidm
        rcases List.mem_cons.mp hidm with rfl | hm
        · exact le_refl _
        · have := ih2 id hm; omega
    | removeEntity name ca =>
      simp only [List.countP_cons, Op.isAdd] at hb
      simp only [returnedIds, Op.exec]
      cases hr : removeEntity mp name ca w with
      | error f => simp
      | ok w1 =>
        simp only []
        exact ih w1 c ((removeEntity_counter hr).1.trans hc) h1 (by simpa using hb)
    | removeAssembly a =>
      simp only [List.countP_cons, Op.isAdd] at hb
      simp only [returnedIds, Op.exec]
      cases hr : removeAssembly mp a w with
      | error f => simp
      | ok w1 =>
        simp only []
        exact ih w1 c ((removeAssembly_counter hr).1.trans hc) h1 (by simpa using hb)

/-- Claim C1: for every heap and every sequence of registry operations (addEntity by
name, addEntity by pointer, removeEntity, removeAssembly) run on a freshly
constructed manager, the ids returned by the addEntity calls are strictly
increasing, never 0 and pairwise distinct.  The counter is an unsigned long, so
the sequence is taken to hold fewer than ULONG_RANGE addEntity calls. -/
theorem C1_ids_strictly_increasing (matchPattern : String → String → Bool) (h : Heap)
    (ops : List Op) (hbound : ops.countP Op.isAdd < ULONG_RANGE) :
    List.Pairwise (· < ·) (returnedIds matchPattern ops (World.fresh h)) ∧
    (∀ id ∈ returnedIds matchPattern ops (World.fresh h), id ≠ 0) ∧
    (returnedIds matchPattern ops (World.fresh h)).Nodup := by
  obtain ⟨h1, h2⟩ := returnedIds_from matchPattern ops (World.fresh h) 1
    (by simp [World.fresh, EntityManager.init, ULONG_RANGE]) (le_refl _) (by omega)
  refine ⟨h1, fun id hid => ?_, ?_⟩
  · have := h2 id hid; omega
  · exact h1.imp (fun hab => Nat.ne_of_lt hab)

theorem getRootOfAssemblyLoop_eq_find (mp : String → String → Bool) (h : Heap) (a : String)
    (es : List (Nat × Ptr))
    (hl : ∀ kv ∈ es, kv.2 ≠ 0 ∧ (Heap.load h kv.2).isSome = true) :
    getRootOfAssemblyLoop mp h a es =
      .ok (((es.find? (fun kv => mp a (tagAt h kv.2) && isRootAt h kv.2)).map Prod.snd).getD 0) := by
  induction es with
  | nil => rfl
  | cons x rest ih =>
    obtain ⟨k, p⟩ := x
    have hp := hl (k, p) (List.mem_cons_self _ _)
    obtain ⟨e, he, hd⟩ := deref_of_live hp.1 hp.2
    have ih' := ih (fun kv hkv => hl kv (List.mem_cons_of_mem _ hkv))
    simp only [getRootOfAssemblyLoop, hd]
    by_cases hm : mp a e.getAssembly = true
    · by_cases hr : (ConfigMap.hasKey e.getConfig "root" &&
          (ConfigMap.item e.getConfig "root").asBool) = true
      · simp [hm, hr, tagAt, isRootAt, he]
      · simp [hm, hr, tagAt, isRootAt, he, ih']
    · simp [hm, tagAt, isRootAt, he, ih']

theorem getMainEntityOfAssemblyLoop_eq_find (mp : String → String → Bool) (h : Heap) (a : String)
    (es : List (Nat × Ptr))
    (hl : ∀ kv ∈ es, kv.2 ≠ 0 ∧ (Heap.load h kv.2).isSome = true) :
    getMainEntityOfAssemblyLoop mp h a es =
      .ok ((es.find? (fun kv => mp a (tagAt h kv.2) && isMainAt h kv.2)).map Prod.snd) := by
  induction es with
  | nil => rfl
  | cons x rest ih =>
    obtain ⟨k, p⟩ := x
    have hp := hl (k, p) (List.mem_cons_self _ _)
    obtain ⟨e, he, hd⟩ := deref_of_live hp.1 hp.2
    have ih' := ih (fun kv hkv => hl kv (List.mem_cons_of_mem _ hkv))
    simp only [getMainEntityOfAssemblyLoop, hd]
    by_cases hm : mp a e.getAssembly = true
    · by_cases hr : (ConfigMap.hasKey e.getConfig "main_entity" &&
          (ConfigMap.item e.getConfig "main_entity").asBool) = true
      · simp [hm, hr, tagAt, isMainAt, he]
      · simp [hm, hr, tagAt, isMainAt, he, ih']
    · simp [hm, tagAt, isMainAt, he, ih']

/-- Outcome of a first-match scan over a well-formed map: either null and no entry
qualifies, or the pointer of the qualifying entry with the least id. -/
theorem find_first_cases (P : Nat × Ptr → Bool) (es : List (Nat × Ptr))
    (hs : List.Pairwise (fun a b : Nat × Ptr => a.1 < b.1) es)
    (hl : ∀ kv ∈ es, kv.2 ≠ 0) :
    ∃ p, ((es.find? P).map Prod.snd).getD 0 = p ∧
      (p = 0 ↔ ¬ ∃ kv ∈ es, P kv = true) ∧
      (p ≠ 0 → ∃ k, (k, p) ∈ es ∧ P (k, p) = true ∧ ∀ kv ∈ es, P kv = true → k ≤ kv.1) := by
  cases hfind : es.find? P with
  | none =>
    refine ⟨0, rfl, ?_, fun h0 => absurd rfl h0⟩
    simp only [true_iff]
    rintro ⟨kv, hkv, hP⟩
    have := List.find?_eq_none.mp hfind kv hkv
    exact this hP
  | some kv =>
    obtain ⟨hmem, hP, hleast⟩ := find_least hs hfind
    refine ⟨kv.2, rfl, ⟨fun h0 => absurd h0 (hl kv hmem), fun hno => absurd ⟨kv, hmem, hP⟩ hno⟩, ?_⟩
    intro _
    exact ⟨kv.1, hmem, hP, hleast⟩

/-- Claim C8: on a well-formed registry getRootOfAssembly(A) returns a pointer p; p
is null iff no entry holds an entity whose tag matches A and whose config has
root true; a non-null p is held by an entry, matches, is root, and its entry has
the least id among the qualifying entries. -/
theorem C8_getRootOfAssembly (matchPattern : String → String → Bool) (w : World) (A : String)
    (hwf : w.WF) :
    ∃ p, getRootOfAssembly matchPattern A w = .ok p ∧
      (p = 0 ↔ ¬ ∃ kv ∈ w.mgr.entities,
          matchPattern A (tagAt w.heap kv.2) = true ∧ isRootAt w.heap kv.2 = true) ∧
      (p ≠ 0 → ∃ k, (k, p) ∈ w.mgr.entities ∧
          matchPattern A (tagAt w.heap p) = true ∧ isRootAt w.heap p = true ∧
          ∀ kv ∈ w.mgr.entities,
            matchPattern A (tagAt w.heap kv.2) = true → isRootAt w.heap kv.2 = true → k ≤ kv.1) := by
  obtain ⟨p, hp, h0, h1⟩ := find_first_cases
    (fun kv => matchPattern A (tagAt w.heap kv.2) && isRootAt w.heap kv.2) w.mgr.entities hwf.1
    (fun kv hkv => (hwf.2 kv hkv).1)
  refine ⟨p, ?_, ?_, ?_⟩
  · rw [getRootOfAssembly, getRootOfAssemblyLoop_eq_find _ _ _ _ hwf.2, hp]
  · simpa using h0
  · intro hne
    obtain ⟨k, hk, hP, hleast⟩ := h1 hne
    simp only [Bool.and_eq_true] at hP hleast
    exact ⟨k, hk, hP.1, hP.2, fun kv hkv hm hr => hleast kv hkv ⟨hm, hr⟩⟩

/-- Claim C9: on a well-formed registry getMainEntityOfAssembly(A) returns a pointer p;
when some entry holds an entity whose tag matches A and whose config has
main_entity true, p is such an entity and its entry has the least id among
them; when there is none, p is exactly the result of getRootOfAssembly(A). -/
theorem C9_getMainEntityOfAssembly (matchPattern : String → String → Bool) (w : World)
    (A : String) (hwf : w.WF) :
    ∃ p, getMainEntityOfAssembly matchPattern A w = .ok p ∧
      ((∃ kv ∈ w.mgr.entities,
          matchPattern A (tagAt w.heap kv.2) = true ∧ isMainAt w.heap kv.2 = true) →
        p ≠ 0 ∧ ∃ k, (k, p) ∈ w.mgr.entities ∧
          matchPattern A (tagAt w.heap p) = true ∧ isMainAt w.heap p = true ∧
          ∀ kv ∈ w.mgr.entities,
            matchPattern A (tagAt w.heap kv.2) = true → isMainAt w.heap kv.2 = true → k ≤ kv.1) ∧
      ((¬ ∃ kv ∈ w.mgr.entities,
          matchPattern A (tagAt w.heap kv.2) = true ∧ isMainAt w.heap kv.2 = true) →
        getRootOfAssembly matchPattern A w = .ok p) := by
  have hloop := getMainEntityOfAssemblyLoop_eq_find matchPattern w.heap A w.mgr.entities hwf.2
  cases hfind : w.mgr.entities.find?
      (fun kv => matchPattern A (tagAt w.heap kv.2) && isMainAt w.heap kv.2) with
  | none =>
    have hp := getRootOfAssemblyLoop_eq_find matchPattern w.heap A w.mgr.entities hwf.2
    refine ⟨_, ?_, ?_, fun _ => hp⟩
    · simp [getMainEntityOfAssembly, hloop, hfind, getRootOfAssembly, hp]
    · rintro ⟨kv, hkv, hm, hr⟩
      have := List.find?_eq_none.mp hfind kv hkv
      simp [hm, hr] at this
  | some kv =>
    obtain ⟨hmem, hP, hleast⟩ := find_least hwf.1 hfind
    simp only [Bool.and_eq_true] at hP hleast
    refine ⟨kv.2, ?_, ?_, ?_⟩
    · simp [getMainEntityOfAssembly, hloop, hfind]
    · intro _
      exact ⟨(hwf.2 kv hmem).1, kv.1, hmem, hP.1, hP.2,
        fun kv' hkv' hm hr => hleast kv' hkv' ⟨hm, hr⟩⟩
    · intro hno
      exact absurd ⟨kv, hmem, hP.1, hP.2⟩ hno

theorem Heap.similar_refl (h : Heap) : Heap.similar h h := fun _ => rfl

theorem Heap.similar_trans {h1 h2 h3 : Heap} (a : Heap.similar h1 h2) (b : Heap.similar h2 h3) :
    Heap.similar h1 h3 := fun q => (b q).trans (a q)

theorem Heap.similar_isSome {h h' : Heap} (s : Heap.similar h h') (q : Ptr) :
    (Heap.load h' q).isSome = (Heap.load h q).isSome := by
  have := congrArg Option.isSome (s q)
  simpa using this

theorem Heap.similar_nameAt {h h' : Heap} (s : Heap.similar h h') (q : Ptr) :
    nameAt h' q = nameAt h q := by
  have := congrArg (Option.map Prod.fst) (s q)
  simpa [nameAt, SimEntity.getName, Option.map_map, Function.comp_def] using this

theorem Heap.similar_config {h h' : Heap} (s : Heap.similar h h') (q : Ptr) :
    (Heap.load h' q).map SimEntity.getConfig = (Heap.load h q).map SimEntity.getConfig := by
  have := congrArg (Option.map Prod.snd) (s q)
  simpa [SimEntity.getConfig, Option.map_map, Function.comp_def] using this

theorem Heap.similar_tagAt {h h' : Heap} (s : Heap.similar h h') (q : Ptr) :
    tagAt h' q = tagAt h q := by
  have := Heap.similar_config s q
  unfold tagAt
  cases h1 : Heap.load h' q <;> cases h2 : Heap.load h q <;>
    simp [h1, h2, SimEntity.getConfig] at this ⊢
  simp [SimEntity.getAssembly, this]

theorem callEntityRemoveEntity_spec {p : Ptr} {w : World} (hp : p ≠ 0)
    (hl : (Heap.load w.heap p).isSome = true) :
    ∃ w1, callEntityRemoveEntity p w = .ok w1 ∧ w1.mgr = w.mgr ∧
      Heap.similar w.heap w1.heap ∧
      (∀ q, q ≠ p → Heap.load w1.heap q = Heap.load w.heap q) ∧
      w1.trace = w.trace ++ [Event.entityRemoveEntity p] := by
  obtain ⟨e, he, hd⟩ := deref_of_live hp hl
  refine ⟨{ w with heap := Heap.store w.heap p e.removeEntity,
                   trace := w.trace ++ [Event.entityRemoveEntity p] },
    by simp only [callEntityRemoveEntity, hd], rfl, ?_, ?_, rfl⟩
  · intro q
    by_cases hq : q = p
    · subst hq
      simp [Heap.load, Heap.store, List.lookup] at he ⊢
      simp [he, SimEntity.removeEntity]
    · have : (q == p) = false := by simpa using hq
      simp [Heap.load, Heap.store, List.lookup, this]
  · intro q hq
    have : (q == p) = false := by simpa using hq
    simp [Heap.load, Heap.store, List.lookup, this]

theorem eraseFirstHolding_of_not_mem (p : Ptr) (es : List (Nat × Ptr))
    (hno : ∀ kv ∈ es, kv.2 ≠ p) : eraseFirstHolding p es = es := by
  induction es with
  | nil => rfl
  | cons a rest ih =>
    simp only [eraseFirstHolding, hno a (List.mem_cons_self _ _), if_false]
    rw [ih (fun kv hkv => hno kv (List.mem_cons_of_mem _ hkv))]

theorem removeAssemblyPart_spec {p : Ptr} {w : World} (hp : p ≠ 0)
    (hl : (Heap.load w.heap p).isSome = true) :
    ∃ w1, removeAssemblyPart p w = .ok w1 ∧
      w1.mgr.entities = eraseFirstHolding p w.mgr.entities ∧
      Heap.similar w.heap w1.heap ∧
      (∀ q, q ≠ p → Heap.load w1.heap q = Heap.load w.heap q) ∧
      teardownCalls w1.trace = teardownCalls w.trace ++ [p] ∧
      (∀ ev ∈ w.trace, ev ∈ w1.trace) := by
  unfold removeAssemblyPart
  obtain ⟨e, he, hd⟩ := deref_of_live hp hl
  by_cases hany : (w.mgr.entities.any (fun kv => decide (kv.2 = p))) = true
  · simp only [hany, if_true, hd]
    obtain ⟨w1, h1, h2, h3, h4, h5⟩ := callEntityRemoveEntity_spec
      (w := { w with mgr := { w.mgr with entities := eraseFirstHolding p w.mgr.entities },
                     trace := w.trace ++ [Event.stderr ("Deleting entity " ++ e.getName ++ "\n")] })
      hp hl
    refine ⟨w1, h1, by rw [h2], h3, h4, ?_, ?_⟩
    · simp [teardownCalls, h5, List.filterMap_append, Event.teardownOf]
    · intro ev hev; simp [h5, hev]
  · simp only [hany]
    obtain ⟨w1, h1, h2, h3, h4, h5⟩ := callEntityRemoveEntity_spec (w := w) hp hl
    refine ⟨w1, h1, ?_, h3, h4, ?_, ?_⟩
    · rw [h2]
      have hno : ∀ kv ∈ w.mgr.entities, kv.2 ≠ p := by
        intro kv hkv heq
        exact hany (List.any_eq_true.mpr ⟨kv, hkv, by simpa using heq⟩)
      exact (eraseFirstHolding_of_not_mem p _ hno).symm
    · simp [teardownCalls, h5, List.filterMap_append, Event.teardownOf]
    · intro ev hev; simp [h5, hev]

theorem removeAssemblyLoop_spec (parts : List Ptr) : ∀ (w : World),
    (∀ p ∈ parts, p ≠ 0 ∧ (Heap.load w.heap p).isSome = true) →
    ∃ w1, removeAssemblyLoop parts w = .ok w1 ∧
      w1.mgr.entities = parts.foldl (fun acc p => eraseFirstHolding p acc) w.mgr.entities ∧
      Heap.similar w.heap w1.heap ∧
      (∀ q, q ∉ parts → Heap.load w1.heap q = Heap.load w.heap q) ∧
      teardownCalls w1.trace = teardownCalls w.trace ++ parts ∧
      (∀ ev ∈ w.trace, ev ∈ w1.trace) := by
  induction parts with
  | nil =>
    intro w _
    exact ⟨w, rfl, rfl, Heap.similar_refl _, fun _ _ => rfl, by simp, fun _ h => h⟩
  | cons p ps ih =>
    intro w hl
    have hp := hl p (List.mem_cons_self _ _)
    obtain ⟨w1, h1, h2, h3, h4, h5, h6⟩ := removeAssemblyPart_spec (w := w) hp.1 hp.2
    have hl1 : ∀ q ∈ ps, q ≠ 0 ∧ (Heap.load w1.heap q).isSome = true := by
      intro q hq
      have := hl q (List.mem_cons_of_mem _ hq)
      exact ⟨this.1, by rw [Heap.similar_isSome h3]; exact this.2⟩
    obtain ⟨w2, g1, g2, g3, g4, g5, g6⟩ := ih w1 hl1
    refine ⟨w2, ?_, ?_, Heap.similar_trans h3 g3, ?_, ?_, fun ev hev => g6 ev (h6 ev hev)⟩
    · simp only [removeAssemblyLoop, h1, g1]
    · rw [g2, h2]; rfl
    · intro q hq
      have hq1 : q ≠ p := fun h => hq (h ▸ List.mem_cons_self _ _)
      have hq2 : q ∉ ps := fun h => hq (List.mem_cons_of_mem _ h)
      rw [g4 q hq2, h4 q hq1]
    · rw [g5, h5]; simp

theorem foldl_erase_cons_of_ne (a : Nat × Ptr) (parts : List Ptr) (hne : ∀ p ∈ parts, a.2 ≠ p) :
    ∀ es : List (Nat × Ptr),
      parts.foldl (fun acc p => eraseFirstHolding p acc) (a :: es) =
        a :: parts.foldl (fun acc p => eraseFirstHolding p acc) es := by
  induction parts with
  | nil => intro es; rfl
  | cons p ps ih =>
    intro es
    have h1 : a.2 ≠ p := hne p (List.mem_cons_self _ _)
    simp only [List.foldl_cons, eraseFirstHolding, h1, if_false]
    exact ih (fun q hq => hne q (List.mem_cons_of_mem _ hq)) _

theorem foldl_erase_filter (M : Ptr → Bool) (es : List (Nat × Ptr)) :
    ((es.filter (fun kv => M kv.2)).map Prod.snd).foldl (fun acc p => eraseFirstHolding p acc) es
      = es.filter (fun kv => !M kv.2) := by
  induction es with
  | nil => rfl
  | cons a rest ih =>
    by_cases ha : M a.2 = true
    · simp only [List.filter_cons, ha, if_true, List.map_cons, List.foldl_cons, eraseFirstHolding,
        Bool.not_true]
      simpa using ih
    · have ha' : M a.2 = false := by simpa using ha
      simp only [List.filter_cons, ha', Bool.not_false, if_true, Bool.false_eq_true, if_false]
      rw [foldl_erase_cons_of_ne, ih]
      · intro p hp heq
        obtain ⟨kv, hkv, rfl⟩ := List.mem_map.mp hp
        have := (List.mem_filter.mp hkv).2
        rw [← heq] at this
        simp [ha'] at this

theorem getEntitiesOfAssemblyLoop_eq_filter (mp : String → String → Bool) (h : Heap) (a : String)
    (es : List (Nat × Ptr))
    (hl : ∀ kv ∈ es, kv.2 ≠ 0 ∧ (Heap.load h kv.2).isSome = true) :
    getEntitiesOfAssemblyLoop mp h a es =
      .ok ((es.filter (fun kv => mp a (tagAt h kv.2))).map Prod.snd) := by
  induction es with
  | nil => rfl
  | cons x rest ih =>
    obtain ⟨k, p⟩ := x
    have hp := hl (k, p) (List.mem_cons_self _ _)
    obtain ⟨e, he, hd⟩ := deref_of_live hp.1 hp.2
    have ih' := ih (fun kv hkv => hl kv (List.mem_cons_of_mem _ hkv))
    simp only [getEntitiesOfAssemblyLoop, hd, ih']
    by_cases hm : mp a e.getAssembly = true
    · simp [hm, tagAt, he, List.filter_cons]
    · simp [hm, tagAt, he, List.filter_cons]

theorem mem_teardownCalls {tr : List Event} {p : Ptr} (h : p ∈ teardownCalls tr) :
    Event.entityRemoveEntity p ∈ tr := by
  unfold teardownCalls at h
  obtain ⟨ev, hev, hp⟩ := List.mem_filterMap.mp h
  cases ev <;> simp [Event.teardownOf] at hp
  subst hp
  exact hev

theorem removeAssembly_spec (mp : String → String → Bool) (w : World) (A : String) (hwf : w.WF) :
    ∃ w1, removeAssembly mp A w = .ok w1 ∧
      w1.mgr.entities = w.mgr.entities.filter (fun kv => !mp A (tagAt w.heap kv.2)) ∧
      Heap.similar w.heap w1.heap ∧
      (∀ kv ∈ w1.mgr.entities, Heap.load w1.heap kv.2 = Heap.load w.heap kv.2) ∧
      teardownCalls w1.trace = teardownCalls w.trace ++
        (w.mgr.entities.filter (fun kv => mp A (tagAt w.heap kv.2))).map Prod.snd ∧
      (∀ ev ∈ w.trace, ev ∈ w1.trace) := by
  have hparts := getEntitiesOfAssemblyLoop_eq_filter mp w.heap A w.mgr.entities hwf.2
  have hlive : ∀ p ∈ (w.mgr.entities.filter (fun kv => mp A (tagAt w.heap kv.2))).map Prod.snd,
      p ≠ 0 ∧ (Heap.load w.heap p).isSome = true := by
    intro p hp
    obtain ⟨kv, hkv, rfl⟩ := List.mem_map.mp hp
    exact hwf.2 kv (List.mem_filter.mp hkv).1
  obtain ⟨w1, h1, h2, h3, h4, h5, h6⟩ := removeAssemblyLoop_spec _ w hlive
  have hent : w1.mgr.entities = w.mgr.entities.filter (fun kv => !mp A (tagAt w.heap kv.2)) := by
    rw [h2]
    exact foldl_erase_filter (fun q => mp A (tagAt w.heap q)) w.mgr.entities
  refine ⟨w1, ?_, hent, h3, ?_, h5, h6⟩
  · simp only [removeAssembly, getEntitiesOfAssembly, hparts, h1]
  · intro kv hkv
    apply h4
    intro hmem
    obtain ⟨kv', hkv', heq⟩ := List.mem_map.mp hmem
    rw [hent] at hkv
    have h7 := (List.mem_filter.mp hkv).2
    have h8 := (List.mem_filter.mp hkv').2
    rw [heq] at h8
    simp [h8] at h7

/-- Claim C5: on a well-formed registry removeAssembly(A) returns; afterwards the map
holds exactly the entries whose entity's tag does not match A, in their old
order and pointing to unchanged entities; every entry whose tag matches is gone
and its entity has received removeEntity() (the teardown calls added to the
trace are the matching entries' entities in map order); getEntitiesOfAssembly(A)
is then empty. -/
theorem C5_removeAssembly_frame (matchPattern : String → String → Bool) (w : World) (A : String)
    (hwf : w.WF) :
    ∃ w1, removeAssembly matchPattern A w = .ok w1 ∧
      w1.mgr.entities = w.mgr.entities.filter (fun kv => !matchPattern A (tagAt w.heap kv.2)) ∧
      (∀ kv ∈ w1.mgr.entities, Heap.load w1.heap kv.2 = Heap.load w.heap kv.2) ∧
      (∀ kv ∈ w.mgr.entities, matchPattern A (tagAt w.heap kv.2) = true →
        kv ∉ w1.mgr.entities ∧ Event.entityRemoveEntity kv.2 ∈ w1.trace) ∧
      teardownCalls w1.trace = teardownCalls w.trace ++
        (w.mgr.entities.filter (fun kv => matchPattern A (tagAt w.heap kv.2))).map Prod.snd ∧
      getEntitiesOfAssembly matchPattern A w1 = .ok [] := by
  obtain ⟨w1, h1, h2, h3, h4, h5, _⟩ := removeAssembly_spec matchPattern w A hwf
  refine ⟨w1, h1, h2, h4, ?_, h5, ?_⟩
  · intro kv hkv hm
    constructor
    · rw [h2]
      intro hmem
      have := (List.mem_filter.mp hmem).2
      simp [hm] at this
    · apply mem_teardownCalls
      rw [h5]
      exact List.mem_append_right _ (List.mem_map.mpr ⟨kv, List.mem_filter.mpr ⟨hkv, hm⟩, rfl⟩)
  · have hl1 : ∀ kv ∈ w1.mgr.entities, kv.2 ≠ 0 ∧ (Heap.load w1.heap kv.2).isSome = true := by
      intro kv hkv
      rw [h2] at hkv
      have := hwf.2 kv (List.mem_filter.mp hkv).1
      exact ⟨this.1, by rw [Heap.similar_isSome h3]; exact this.2⟩
    rw [getEntitiesOfAssembly, getEntitiesOfAssemblyLoop_eq_filter _ _ _ _ hl1]
    have : List.filter (fun kv => matchPattern A (tagAt w1.heap kv.2)) w1.mgr.entities = [] := by
      rw [List.filter_eq_nil_iff]
      intro kv hkv
      rw [h2] at hkv
      have := (List.mem_filter.mp hkv).2
      rw [Heap.similar_tagAt h3]
      simpa using this
    rw [this]; rfl

theorem getEntity_found {name : String} {w w0 : World} {p : Ptr}
    (h : getEntity name w = .ok (p, w0)) (hp : p ≠ 0) :
    w0 = w ∧ getEntityLoop w.heap name w.mgr.entities = .ok (some p) := by
  unfold getEntity getEntityVerbose at h
  split at h
  · cases h
  · rename_i q hq
    cases h
    exact ⟨rfl, hq⟩
  · split at h <;> cases h <;> exact absurd rfl hp

theorem getEntity_found_entry {name : String} {w w0 : World} {p : Ptr} (hwf : w.WF)
    (h : getEntity name w = .ok (p, w0)) (hp : p ≠ 0) :
    w0 = w ∧ ∃ k, w.mgr.entities.find? (fun kv => decide (nameAt w.heap kv.2 = some name))
      = some (k, p) := by
  obtain ⟨h1, h2⟩ := getEntity_found h hp
  refine ⟨h1, ?_⟩
  rw [getEntityLoop_eq_find _ _ _ hwf.2] at h2
  cases hf : w.mgr.entities.find? (fun kv => decide (nameAt w.heap kv.2 = some name)) with
  | none => simp [hf] at h2
  | some kv =>
    simp [hf] at h2
    exact ⟨kv.1, by rw [← h2]⟩

/-- Claim C6: on a well-formed registry, when name resolves to an entity p whose tag A is
non-empty and the matcher accepts A as a pattern for itself, removeEntity(name,
true) returns and afterwards no entry holds an entity with tag A; in particular
no entry holds p. -/
theorem C6_removeEntity_complete_assembly (matchPattern : String → String → Bool) (w : World)
    (name : String) (p : Ptr) (w0 : World) (hwf : w.WF)
    (hres : getEntity name w = .ok (p, w0)) (hp : p ≠ 0)
    (htag : tagAt w.heap p ≠ "")
    (hrefl : matchPattern (tagAt w.heap p) (tagAt w.heap p) = true) :
    ∃ w1, removeEntity matchPattern name true w = .ok w1 ∧
      (∀ kv ∈ w1.mgr.entities, tagAt w1.heap kv.2 ≠ tagAt w.heap p) ∧
      (∀ k, (k, p) ∉ w1.mgr.entities) := by
  obtain ⟨hw0, k, hfind⟩ := getEntity_found_entry hwf hres hp
  subst hw0
  have hmem : (k, p) ∈ w0.mgr.entities := List.mem_of_find?_eq_some hfind
  obtain ⟨e, he, hd⟩ := deref_of_live hp (hwf.2 _ hmem).2
  have htage : tagAt w0.heap p = e.getAssembly := by simp [tagAt, he]
  obtain ⟨w1, h1, h2, h3, _, _, _⟩ := removeAssembly_spec matchPattern w0 e.getAssembly hwf
  have hrem : removeEntity matchPattern name true w0 = .ok w1 := by
    have hne : e.getAssembly ≠ "" := by rw [← htage]; exact htag
    simp only [removeEntity, hres, hd, if_true, hne, ne_eq, not_false_eq_true, h1]
  have hall : ∀ kv ∈ w1.mgr.entities, tagAt w1.heap kv.2 ≠ tagAt w0.heap p := by
    intro kv hkv heq
    rw [h2] at hkv
    have h4 := (List.mem_filter.mp hkv).2
    rw [Heap.similar_tagAt h3] at heq
    rw [heq, ← htage, hrefl] at h4
    simp at h4
  refine ⟨w1, hrem, hall, ?_⟩
  intro k' hk'
  have := hall _ hk'
  rw [Heap.similar_tagAt h3] at this
  exact this rfl

theorem eraseFirstHolding_eq_erase (P : Nat × Ptr → Bool) (kv : Nat × Ptr) :
    ∀ es : List (Nat × Ptr), es.find? P = some kv → (∀ x ∈ es, x.2 = kv.2 → P x = true) →
      eraseFirstHolding kv.2 es = es.erase kv := by
  intro es
  induction es with
  | nil => intro h _; simp at h
  | cons a rest ih =>
    intro hf hsame
    by_cases ha : P a = true
    · rw [List.find?_cons_of_pos _ ha] at hf
      cases hf
      simp [eraseFirstHolding]
    · rw [List.find?_cons_of_neg _ ha] at hf
      have hne : a.2 ≠ kv.2 := fun h => ha (hsame a (List.mem_cons_self _ _) h)
      have hne' : a ≠ kv := fun h => hne (by rw [h])
      have hbeq : (a == kv) = false := by simpa using hne'
      simp only [eraseFirstHolding, hne, if_false, List.erase_cons, hbeq]
      rw [ih hf (fun x hx => hsame x (List.mem_cons_of_mem _ hx))]
      simp

theorem countP_erase_add_one (P : Nat × Ptr → Bool) (kv : Nat × Ptr) :
    ∀ es : List (Nat × Ptr), kv ∈ es → P kv = true →
      es.countP P = (es.erase kv).countP P + 1 := by
  intro es
  induction es with
  | nil => intro h _; simp at h
  | cons a rest ih =>
    intro hmem hP
    by_cases ha : a = kv
    · subst ha
      simp [List.countP_cons, hP]
    · have hbeq : (a == kv) = false := by simpa using ha
      have hm : kv ∈ rest := by
        rcases List.mem_cons.mp hmem with h | h
        · exact absurd h.symm ha
        · exact h
      rw [List.erase_cons, hbeq]
      simp only [Bool.false_eq_true, if_false, List.countP_cons]
      rw [ih hm hP]
      omega

theorem pairwise_keys_nodup {es : List (Nat × Ptr)}
    (hs : List.Pairwise (fun a b : Nat × Ptr => a.1 < b.1) es) : es.Nodup :=
  hs.imp (fun {a b} hab heq => by rw [heq] at hab; exact Nat.lt_irrefl _ hab)

theorem removeEntitySingle_spec (w : World) (name : String) (k : Nat) (p : Ptr) (hwf : w.WF)
    (hfind : w.mgr.entities.find? (fun kv => decide (nameAt w.heap kv.2 = some name))
      = some (k, p)) :
    ∃ w1, removeEntitySingle p w = .ok w1 ∧
      w1.mgr.entities = w.mgr.entities.erase (k, p) ∧
      w1.mgr.next_entity_id = w.mgr.next_entity_id ∧
      w1.mgr.subscribers = w.mgr.subscribers ∧
      Heap.similar w.heap w1.heap ∧
      (∀ q, q ≠ p → Heap.load w1.heap q = Heap.load w.heap q) ∧
      w1.trace = w.trace ++ [Event.entityRemoveEntity p] := by
  have hmem : (k, p) ∈ w.mgr.entities := List.mem_of_find?_eq_some hfind
  have hlive := hwf.2 _ hmem
  obtain ⟨w1, h1, h2, h3, h4, h5⟩ := callEntityRemoveEntity_spec
    (w := { w with mgr := { w.mgr with entities := eraseFirstHolding p w.mgr.entities } })
    hlive.1 hlive.2
  refine ⟨w1, h1, ?_, by rw [h2], by rw [h2], h3, h4, h5⟩
  rw [h2]
  have hP : nameAt w.heap p = some name := by
    have := List.find?_some hfind
    simpa using this
  exact eraseFirstHolding_eq_erase _ (k, p) _ hfind (fun x _ hx => by
    simp only [decide_eq_true_eq]
    rw [show x.2 = p from hx]; exact hP)

/-- Claim C7: on a well-formed registry, when name resolves to p and either
completeAssembly is false or the tag of p is empty, removeEntity returns and
erases exactly one entry (k, p), the lowest-id entry whose entity has the
name; the map shrinks by one and every other entry stays as it was. -/
theorem C7_removeEntity_erases_one_entry (matchPattern : String → String → Bool) (w : World)
    (name : String) (completeAssembly : Bool) (p : Ptr) (w0 : World) (hwf : w.WF)
    (hres : getEntity name w = .ok (p, w0)) (hp : p ≠ 0)
    (hmode : completeAssembly = false ∨ tagAt w.heap p = "") :
    ∃ w1 k, removeEntity matchPattern name completeAssembly w = .ok w1 ∧
      (k, p) ∈ w.mgr.entities ∧
      (∀ kv ∈ w.mgr.entities, nameAt w.heap kv.2 = some name → k ≤ kv.1) ∧
      w1.mgr.entities = w.mgr.entities.erase (k, p) ∧
      w1.mgr.entities.length + 1 = w.mgr.entities.length ∧
      (∀ kv, kv ∈ w1.mgr.entities ↔ kv ∈ w.mgr.entities ∧ kv ≠ (k, p)) := by
  obtain ⟨hw0, k, hfind⟩ := getEntity_found_entry hwf hres hp
  subst hw0
  obtain ⟨hmem, _, hleast⟩ := find_least hwf.1 hfind
  obtain ⟨w1, h1, h2, _⟩ := removeEntitySingle_spec w0 name k p hwf hfind
  have hrem : removeEntity matchPattern name completeAssembly w0 = .ok w1 := by
    rcases hmode with hc | ht
    · subst hc
      simp only [removeEntity, hres, h1, Bool.false_eq_true, if_false]
    · cases completeAssembly with
      | false => simp only [removeEntity, hres, h1, Bool.false_eq_true, if_false]
      | true =>
        obtain ⟨e, he, hd⟩ := deref_of_live hp (hwf.2 _ hmem).2
        have hte : e.getAssembly = "" := by
          simpa [tagAt, he] using ht
        simp only [removeEntity, hres, hd, if_true, hte, ne_eq, not_true_eq_false, if_false, h1]
  refine ⟨w1, k, hrem, hmem, ?_, h2, ?_, ?_⟩
  · intro kv hkv hn
    exact hleast kv hkv (by simpa using hn)
  · rw [h2, List.length_erase_of_mem hmem]
    have : 0 < w0.mgr.entities.length := List.length_pos_of_mem hmem
    omega
  · intro kv
    rw [h2, (pairwise_keys_nodup hwf.1).mem_erase_iff]
    exact And.comm

/-- Claim C3, amended: on a well-formed registry (keys ascending, every entry holding a
live, non-null entity), when name resolves to the entity p, removeEntity(name,
false) returns, having erased the lowest-id entry (k, p) whose entity has the
name, and a following getEntity(name) returns; its result is null exactly when
the removed entry was the only entry whose entity has that name, and when
other entries hold entities of that name it is the entity of the lowest-id one
among them. -/
theorem C3_removeEntity_then_getEntity (matchPattern : String → String → Bool) (w : World)
    (name : String) (p : Ptr) (w0 : World) (hwf : w.WF)
    (hres : getEntity name w = .ok (p, w0)) (hp : p ≠ 0) :
    ∃ w1 q w2 k, removeEntity matchPattern name false w = .ok w1 ∧
      getEntity name w1 = .ok (q, w2) ∧
      (k, p) ∈ w.mgr.entities ∧ nameAt w.heap p = some name ∧
      (∀ kv ∈ w.mgr.entities, nameAt w.heap kv.2 = some name → k ≤ kv.1) ∧
      w1.mgr.entities = w.mgr.entities.erase (k, p) ∧
      (q = 0 ↔ w.mgr.entities.countP (fun kv => decide (nameAt w.heap kv.2 = some name)) = 1) ∧
      (q = 0 ↔ ∀ kv ∈ w.mgr.entities, kv ≠ (k, p) → nameAt w.heap kv.2 ≠ some name) ∧
      (∀ kv ∈ w.mgr.entities, kv ≠ (k, p) → nameAt w.heap kv.2 = some name →
        ∃ k2, (k2, q) ∈ w.mgr.entities ∧ (k2, q) ≠ (k, p) ∧ q ≠ 0 ∧
          nameAt w.heap q = some name ∧ nameAt w1.heap q = some name ∧
          ∀ kv2 ∈ w.mgr.entities, kv2 ≠ (k, p) → nameAt w.heap kv2.2 = some name →
            k2 ≤ kv2.1) := by
  obtain ⟨hw0, k, hfind⟩ := getEntity_found_entry hwf hres hp
  subst hw0
  have hmem : (k, p) ∈ w0.mgr.entities := List.mem_of_find?_eq_some hfind
  have hP : decide (nameAt w0.heap p = some name) = true := by
    simpa using List.find?_some hfind
  have hname : nameAt w0.heap p = some name := by simpa using hP
  have hleast : ∀ kv ∈ w0.mgr.entities, nameAt w0.heap kv.2 = some name → k ≤ kv.1 := by
    intro kv hkv hn
    exact (find_least hwf.1 hfind).2.2 kv hkv (by simpa using hn)
  obtain ⟨w1, h1, h2, _, _, h3, _, _⟩ := removeEntitySingle_spec w0 name k p hwf hfind
  have hrem : removeEntity matchPattern name false w0 = .ok w1 := by
    simp only [removeEntity, hres, h1, Bool.false_eq_true, if_false]
  have hl1 : ∀ kv ∈ w1.mgr.entities, kv.2 ≠ 0 ∧ (Heap.load w1.heap kv.2).isSome = true := by
    intro kv hkv
    rw [h2] at hkv
    have := hwf.2 kv (List.mem_of_mem_erase hkv)
    exact ⟨this.1, by rw [Heap.similar_isSome h3]; exact this.2⟩
  have hpred : (fun kv : Nat × Ptr => decide (nameAt w1.heap kv.2 = some name)) =
      (fun kv : Nat × Ptr => decide (nameAt w0.heap kv.2 = some name)) := by
    funext kv; rw [Heap.similar_nameAt h3]
  have hloop : getEntityLoop w1.heap name w1.mgr.entities = .ok (Option.map Prod.snd
      ((w0.mgr.entities.erase (k, p)).find?
        (fun kv => decide (nameAt w0.heap kv.2 = some name)))) := by
    rw [getEntityLoop_eq_find w1.heap name w1.mgr.entities hl1, hpred, h2]
  have hcount : w0.mgr.entities.countP (fun kv => decide (nameAt w0.heap kv.2 = some name)) =
      (w0.mgr.entities.erase (k, p)).countP (fun kv => decide (nameAt w0.heap kv.2 = some name)) + 1 := by
    exact countP_erase_add_one _ (k, p) _ hmem hP
  have hmemerase : ∀ kv, kv ∈ w0.mgr.entities.erase (k, p) ↔ kv ≠ (k, p) ∧ kv ∈ w0.mgr.entities :=
    fun kv => (pairwise_keys_nodup hwf.1).mem_erase_iff
  have hsorted : List.Pairwise (fun a b : Nat × Ptr => a.1 < b.1) (w0.mgr.entities.erase (k, p)) :=
    hwf.1.sublist (List.erase_sublist _ _)
  cases hf : (w0.mgr.entities.erase (k, p)).find?
      (fun kv => decide (nameAt w0.heap kv.2 = some name)) with
  | none =>
    have hnone : ∀ kv ∈ w0.mgr.entities, kv ≠ (k, p) → nameAt w0.heap kv.2 ≠ some name := by
      intro kv hkv hne
      have := List.find?_eq_none.mp hf kv ((hmemerase kv).mpr ⟨hne, hkv⟩)
      simpa using this
    refine ⟨w1, 0, { w1 with trace := w1.trace ++
        [Event.stderr ("ERROR: Entity with name " ++ name ++ " not found!\n")] }, k,
        hrem, ?_, hmem, hname, hleast, h2, ?_, ?_, ?_⟩
    · simp only [getEntity, getEntityVerbose, hloop, hf, Option.map_none', if_true]
    · simp only [true_iff]
      rw [hcount]
      have : (w0.mgr.entities.erase (k, p)).countP
          (fun kv => decide (nameAt w0.heap kv.2 = some name)) = 0 := by
        rw [List.countP_eq_zero]
        intro x hx
        exact List.find?_eq_none.mp hf x hx
      rw [this]
    · simp only [true_iff]
      exact hnone
    · intro kv hkv hne hn
      exact absurd hn (hnone kv hkv hne)
  | some kv =>
    have hkvmem := List.mem_of_find?_eq_some hf
    have hkvP := List.find?_some hf
    have hkv0 := (hmemerase kv).mp hkvmem
    have hkvname : nameAt w0.heap kv.2 = some name := by simpa using hkvP
    have hq0 : kv.2 ≠ 0 := (hwf.2 kv hkv0.2).1
    refine ⟨w1, kv.2, w1, k, hrem, ?_, hmem, hname, hleast, h2, ?_, ?_, ?_⟩
    · simp only [getEntity, getEntityVerbose, hloop, hf, Option.map_some']
    · constructor
      · intro h0
        exact absurd h0 hq0
      · intro h1c
        rw [hcount] at h1c
        have hz : (w0.mgr.entities.erase (k, p)).countP
            (fun kv => decide (nameAt w0.heap kv.2 = some name)) = 0 := by omega
        rw [List.countP_eq_zero] at hz
        exact absurd hkvP (hz kv hkvmem)
    · constructor
      · intro h0
        exact absurd h0 hq0
      · intro hall
        exact absurd hkvname (hall kv hkv0.2 hkv0.1)
    · intro _ _ _ _
      refine ⟨kv.1, hkv0.2, hkv0.1, hq0, hkvname, ?_, ?_⟩
      · rw [Heap.similar_nameAt h3]
        exact hkvname
      · intro kv2 hkv2 hne2 hn2
        exact (find_least hsorted hf).2.2 kv2 ((hmemerase kv2).mpr ⟨hne2, hkv2⟩)
          (by simpa using hn2)

theorem notifications_of_round (s e : Ptr) (subs : List Ptr) :
    (subs.map (fun s1 => Event.registerEntity s1 e)).filterMap (Event.notifiedTo s)
      = List.replicate (subs.count s) e := by
  induction subs with
  | nil => rfl
  | cons a rest ih =>
    by_cases ha : a = s
    · subst ha
      simp [List.filterMap_cons, Event.notifiedTo, ih, List.replicate_succ]
    · have : (a == s) = false := by simpa using ha
      simp [List.filterMap_cons, Event.notifiedTo, ha, ih, List.count_cons, this]

theorem mapAt_mapAssign (k : Nat) (v : Ptr) (m : List (Nat × Ptr)) :
    mapAt (mapAssign k v m) k = v := by
  induction m with
  | nil => simp [mapAssign, mapAt, List.lookup]
  | cons a rest ih =>
    obtain ⟨k1, v1⟩ := a
    unfold mapAssign
    by_cases h1 : k < k1
    · simp [h1, mapAt, List.lookup]
    · by_cases h2 : k = k1
      · simp [h2, mapAt, List.lookup]
      · have : (k == k1) = false := by simpa using h2
        simp only [h1, h2, if_false]
        simp only [mapAt, List.lookup, this]
        exact ih

theorem AddCall.exec_spec (c : AddCall) (w : World) :
    (c.exec w).2.mgr.subscribers = w.mgr.subscribers ∧
    (c.exec w).2.trace = w.trace ++ w.mgr.subscribers.map (fun s => Event.registerEntity s (c.entity w)) ∧
    mapAt (c.exec w).2.mgr.entities (c.exec w).1 = c.entity w := by
  cases c with
  | byName name =>
    simp [AddCall.exec, AddCall.entity, addEntity, addEntityRuns, notifySubscribersRuns, getNextId, notifySubscribers, mapAt_mapAssign]
  | byPtr p =>
    simp [AddCall.exec, AddCall.entity, addEntityPtr, addEntityPtrRuns, notifySubscribersRuns, getNextId, notifySubscribers, mapAt_mapAssign]

theorem addAll_notifications (s : Ptr) (calls : List AddCall) :
    ∀ w : World, w.mgr.subscribers.count s = 1 →
      notificationsTo s (addAll calls w).2.trace =
        notificationsTo s w.trace ++ (addAll calls w).1.map Prod.snd ∧
      (addAll calls w).1.length = calls.length := by
  induction calls with
  | nil => intro w _; simp [addAll]
  | cons c cs ih =>
    intro w hc
    obtain ⟨h1, h2, _⟩ := c.exec_spec w
    obtain ⟨ih1, ih2⟩ := ih (c.exec w).2 (by rw [h1]; exact hc)
    constructor
    · simp only [addAll, List.map_cons]
      rw [ih1, h2]
      simp only [notificationsTo, List.filterMap_append]
      rw [notifications_of_round, hc]
      simp
    · simp [addAll, ih2]

theorem globMatchChars_refl (cs : List Char) : globMatchChars cs cs = true := by
  induction cs with
  | nil => rfl
  | cons c rest ih =>
    unfold globMatchChars
    by_cases hc : c = '*'
    · simp only [hc, if_true, List.tails, List.any_cons]
      simp only [Bool.or_eq_true, List.any_eq_true]
      exact Or.inr ⟨rest, (List.mem_tails _ _).mpr (List.suffix_refl _), ih⟩
    · simp [hc, ih]

theorem globMatch_refl (s : String) : globMatch s s = true := globMatchChars_refl _

/-- Claim C10: when a non-null subscriber s that is not yet subscribed is registered
through subscribeToEntityCreation, then for every later sequence of addEntity
calls (either overload) the registerEntity callbacks s receives are, in order,
exactly the entities the calls added, one per call; the entity a call adds is
the one stored under the id the call returns, and for the by-name overload it
is the new entity of that name. -/
theorem C10_subscriber_notified_once_per_add (s : Ptr) (w0 : World) (calls : List AddCall)
    (hs : s ≠ 0) (hnew : s ∉ w0.mgr.subscribers) :
    notificationsTo s (addAll calls (subscribeToEntityCreation s w0).2).2.trace =
      notificationsTo s w0.trace ++
        (addAll calls (subscribeToEntityCreation s w0).2).1.map Prod.snd ∧
    (addAll calls (subscribeToEntityCreation s w0).2).1.length = calls.length ∧
    (∀ (c : AddCall) (w : World), mapAt (c.exec w).2.mgr.entities (c.exec w).1 = c.entity w) ∧
    (∀ (name : String) (w : World),
      nameAt (addEntity name w).2.heap (Heap.fresh w.heap) = some name) := by
  have hcount : (subscribeToEntityCreation s w0).2.mgr.subscribers.count s = 1 := by
    simp [subscribeToEntityCreation, hs, List.count_append, List.count_eq_zero_of_not_mem hnew]
  have htrace : (subscribeToEntityCreation s w0).2.trace = w0.trace := by
    simp [subscribeToEntityCreation, hs]
  obtain ⟨h1, h2⟩ := addAll_notifications s calls _ hcount
  refine ⟨by rw [h1, htrace], h2, fun c w => (c.exec_spec w).2.2, ?_⟩
  intro name w
  simp [addEntity, addEntityRuns, notifySubscribersRuns, getNextId, notifySubscribers, nameAt, Heap.load, Heap.store, List.lookup,
    SimEntity.create, SimEntity.getName]

/-- Witness for C10: subscriber 7 on a fresh manager, one call of each overload. -/
theorem C10_witness :
    (7 : Ptr) ≠ 0 ∧ (7 : Ptr) ∉ (World.fresh []).mgr.subscribers ∧
    notificationsTo 7 (addAll [AddCall.byName "a", AddCall.byPtr 3]
        (subscribeToEntityCreation 7 (World.fresh [])).2).2.trace =
      notificationsTo 7 (World.fresh []).trace ++
        (addAll [AddCall.byName "a", AddCall.byPtr 3]
          (subscribeToEntityCreation 7 (World.fresh [])).2).1.map Prod.snd :=
  ⟨by decide, by decide,
    (C10_subscriber_notified_once_per_add 7 (World.fresh [])
      [AddCall.byName "a", AddCall.byPtr 3] (by decide) (by decide)).1⟩

/-- Claim C4, the code at a failing input: with robotA, robotB and lone registered the
name ghost resolves to null, and removeEntity("ghost", completeAssembly)
dereferences that null pointer for either value of completeAssembly. -/
theorem C4_removeEntity_unresolved_name_faults :
    demoAssembly.WF ∧
    (getEntity "ghost" demoAssembly).map Prod.fst = .ok 0 ∧
    removeEntity globMatch "ghost" false demoAssembly = .error Fault.nullDeref ∧
    removeEntity globMatch "ghost" true demoAssembly = .error Fault.nullDeref :=
  ⟨by decide, rfl, rfl, rfl⟩

/-- Claim C3 fails as stated: with two entities named x registered under ids 1 and 2,
getEntity("x") resolves to the first, and after removeEntity("x") a following
getEntity("x") returns the second, not null. -/
theorem C3_counterexample :
    demoTwoX.WF ∧
    (getEntity "x" demoTwoX).map Prod.fst = .ok 1 ∧
    ((removeEntity globMatch "x" false demoTwoX).bind (getEntity "x")).map Prod.fst = .ok 2 :=
  ⟨by decide, rfl, rfl⟩

/-- Witness for C1: a run with three addEntity calls and a removal. -/
theorem C1_witness :
    [Op.addEntity "x", Op.addEntityPtr 5, Op.removeEntity "x" false, Op.addEntity "y"].countP
        Op.isAdd < ULONG_RANGE ∧
    List.Pairwise (· < ·) (returnedIds globMatch
      [Op.addEntity "x", Op.addEntityPtr 5, Op.removeEntity "x" false, Op.addEntity "y"]
      (World.fresh [(5, demoLone)])) :=
  ⟨by decide, (C1_ids_strictly_increasing globMatch [(5, demoLone)]
      [Op.addEntity "x", Op.addEntityPtr 5, Op.removeEntity "x" false, Op.addEntity "y"]
      (by decide)).1⟩

/-- Witness for C5: removing the assemblies matching a wildcard pattern. -/
theorem C5_witness :
    demoAssembly.WF ∧
    ∃ w1, removeAssembly globMatch "assembly*" demoAssembly = .ok w1 ∧
      w1.mgr.entities = demoAssembly.mgr.entities.filter
        (fun kv => !globMatch "assembly*" (tagAt demoAssembly.heap kv.2)) ∧
      getEntitiesOfAssembly globMatch "assembly*" w1 = .ok [] :=
  ⟨by decide, by
    obtain ⟨w1, h1, h2, _, _, _, h6⟩ :=
      C5_removeAssembly_frame globMatch demoAssembly "assembly*" (by decide)
    exact ⟨w1, h1, h2, h6⟩⟩

/-- Witness for C6: removing robotB together with its assembly. -/
theorem C6_witness :
    demoAssembly.WF ∧ getEntity "robotB" demoAssembly = .ok (11, demoAssembly) ∧
    tagAt demoAssembly.heap 11 = "assemblyX" ∧
    ∃ w1, removeEntity globMatch "robotB" true demoAssembly = .ok w1 ∧
      (∀ kv ∈ w1.mgr.entities, tagAt w1.heap kv.2 ≠ tagAt demoAssembly.heap 11) ∧
      (∀ k, (k, 11) ∉ w1.mgr.entities) :=
  ⟨by decide, rfl, rfl,
    C6_removeEntity_complete_assembly globMatch demoAssembly "robotB" 11 demoAssembly
      (by decide) rfl (by decide) (by decide) (globMatch_refl _)⟩

/-- Witness for C3 (amended) on the world with two entities named x. -/
theorem C3_witness :
    demoTwoX.WF ∧ getEntity "x" demoTwoX = .ok (1, demoTwoX) ∧ (1 : Ptr) ≠ 0 ∧
    ∃ w1 q w2 k, removeEntity globMatch "x" false demoTwoX = .ok w1 ∧
      getEntity "x" w1 = .ok (q, w2) ∧
      (k, 1) ∈ demoTwoX.mgr.entities ∧
      w1.mgr.entities = demoTwoX.mgr.entities.erase (k, 1) ∧
      (q = 0 ↔ demoTwoX.mgr.entities.countP
        (fun kv => decide (nameAt demoTwoX.heap kv.2 = some "x")) = 1) ∧
      (q = 0 ↔ ∀ kv ∈ demoTwoX.mgr.entities, kv ≠ (k, 1) →
        nameAt demoTwoX.heap kv.2 ≠ some "x") ∧
      ∃ k2, (k2, q) ∈ demoTwoX.mgr.entities ∧ (k2, q) ≠ (k, 1) ∧ q ≠ 0 ∧
        nameAt demoTwoX.heap q = some "x" :=
  ⟨by decide, rfl, by decide, by
    obtain ⟨w1, q, w2, k, h1, h2, h3, _, h4, h5, h6, h7, h8⟩ :=
      C3_removeEntity_then_getEntity globMatch demoTwoX "x" 1 demoTwoX (by decide) rfl
        (by decide)
    have hk : k = 1 := by
      have := h4 (1, 1) (by decide) (by decide)
      have h3k : k = 1 ∨ k = 2 := by
        have hm : (k, (1 : Ptr)) ∈ [((1 : Nat), (1 : Ptr)), (2, 2)] := h3
        simp at hm
        exact Or.inl hm
      rcases h3k with h | h
      · exact h
      · omega
    subst hk
    obtain ⟨k2, a, b, c, d, _⟩ := h8 (2, 2) (by decide) (by decide) (by decide)
    exact ⟨w1, q, w2, 1, h1, h2, h3, h5, h6, h7, k2, a, b, c, d⟩⟩

/-- Witness for C7: removing the entity lone, which belongs to no assembly, with
completeAssembly set. -/
theorem C7_witness :
    demoAssembly.WF ∧ getEntity "lone" demoAssembly = .ok (12, demoAssembly) ∧
    tagAt demoAssembly.heap 12 = "" ∧
    ∃ w1 k, removeEntity globMatch "lone" true demoAssembly = .ok w1 ∧
      (k, 12) ∈ demoAssembly.mgr.entities ∧
      (∀ kv ∈ demoAssembly.mgr.entities, nameAt demoAssembly.heap kv.2 = some "lone" → k ≤ kv.1) ∧
      w1.mgr.entities = demoAssembly.mgr.entities.erase (k, 12) ∧
      w1.mgr.entities.length + 1 = demoAssembly.mgr.entities.length ∧
      (∀ kv, kv ∈ w1.mgr.entities ↔ kv ∈ demoAssembly.mgr.entities ∧ kv ≠ (k, 12)) :=
  ⟨by decide, rfl, rfl,
    C7_removeEntity_erases_one_entry globMatch demoAssembly "lone" true 12 demoAssembly
      (by decide) rfl (by decide) (Or.inr rfl)⟩

/-- Witness for C8: the root of assemblyX in the demo world. -/
theorem C8_witness :
    demoAssembly.WF ∧ getRootOfAssembly globMatch "assemblyX" demoAssembly = .ok 10 ∧
    ∃ p, getRootOfAssembly globMatch "assemblyX" demoAssembly = .ok p ∧
      (p = 0 ↔ ¬ ∃ kv ∈ demoAssembly.mgr.entities,
          globMatch "assemblyX" (tagAt demoAssembly.heap kv.2) = true ∧
          isRootAt demoAssembly.heap kv.2 = true) :=
  ⟨by decide, rfl, by
    obtain ⟨p, h1, h2, _⟩ := C8_getRootOfAssembly globMatch demoAssembly "assemblyX" (by decide)
    exact ⟨p, h1, h2⟩⟩

/-- Witness for C9: the main entity of assemblyX in the demo world. -/
theorem C9_witness :
    demoAssembly.WF ∧ getMainEntityOfAssembly globMatch "assemblyX" demoAssembly = .ok 11 ∧
    ∃ p, getMainEntityOfAssembly globMatch "assemblyX" demoAssembly = .ok p ∧
      ((¬ ∃ kv ∈ demoAssembly.mgr.entities,
          globMatch "assemblyX" (tagAt demoAssembly.heap kv.2) = true ∧
          isMainAt demoAssembly.heap kv.2 = true) →
        getRootOfAssembly globMatch "assemblyX" demoAssembly = .ok p) :=
  ⟨by decide, rfl, by
    obtain ⟨p, h1, _, h3⟩ :=
      C9_getMainEntityOfAssembly globMatch demoAssembly "assemblyX" (by decide)
    exact ⟨p, h1, h3⟩⟩

/-! ### selectEvent with mode false, getEntity by id, select -/

/-- Claim C12: for every registry state and every id, selectEvent(id, false) returns with
the world exactly as it was: no call on any entity, same registry, same heap
(so every entity's selection state is unchanged), same trace. -/
theorem C12_selectEvent_deselect_noop (id : Nat) (w : World) :
    selectEvent id false w = .ok w := by
  simp [selectEvent]

theorem getEntityByIdLoop_eq_mapAt (id : Nat) (m : List (Nat × Ptr)) :
    getEntityByIdLoop id m = mapAt m id := by
  induction m with
  | nil => rfl
  | cons a rest ih =>
    obtain ⟨k, p⟩ := a
    by_cases hk : k = id
    · subst hk
      simp [getEntityByIdLoop, mapAt, List.lookup]
    · have hb : (id == k) = false := by
        simpa using (fun h : id = k => hk h.symm)
      simp only [getEntityByIdLoop, hk, if_false, mapAt, List.lookup, hb]
      exact ih

theorem getEntityByIdLoop_eq_mapFind (id : Nat) (m : List (Nat × Ptr)) :
    getEntityByIdLoop id m = (mapFind m id).getD 0 := by
  induction m with
  | nil => rfl
  | cons a rest ih =>
    obtain ⟨k, p⟩ := a
    by_cases hk : k = id
    · simp [getEntityByIdLoop, mapFind, hk]
    · simp only [getEntityByIdLoop, hk, if_false, ih, mapFind]
      rw [List.find?_cons_of_neg _ (by simpa using hk)]

theorem getEntityByIdLoop_of_mem {id : Nat} {p : Ptr} {m : List (Nat × Ptr)}
    (hs : List.Pairwise (fun a b : Nat × Ptr => a.1 < b.1) m) (hmem : (id, p) ∈ m) :
    getEntityByIdLoop id m = p := by
  induction m with
  | nil => simp at hmem
  | cons a rest ih =>
    obtain ⟨k, q⟩ := a
    rw [List.pairwise_cons] at hs
    rcases List.mem_cons.mp hmem with h | h
    · cases h
      simp [getEntityByIdLoop]
    · have hlt : k < id := hs.1 (id, p) h
      have hne : k ≠ id := Nat.ne_of_lt hlt
      simp only [getEntityByIdLoop, hne, if_false]
      exact ih hs.2 h

theorem getEntityByIdLoop_of_not_mem {id : Nat} {m : List (Nat × Ptr)}
    (hno : ∀ p, (id, p) ∉ m) : getEntityByIdLoop id m = 0 := by
  induction m with
  | nil => rfl
  | cons a rest ih =>
    obtain ⟨k, q⟩ := a
    have hne : k ≠ id := fun h => hno q (by rw [h]; exact List.mem_cons_self _ _)
    simp only [getEntityByIdLoop, hne, if_false]
    exact ih (fun p hp => hno p (List.mem_cons_of_mem _ hp))

theorem getEntityByIdLoop_mapAssign (k : Nat) (v : Ptr) (m : List (Nat × Ptr)) :
    getEntityByIdLoop k (mapAssign k v m) = v := by
  rw [getEntityByIdLoop_eq_mapAt, mapAt_mapAssign]

/-- Claim C14: on a map in key order getEntity(id) returns the pointer stored under key
id and null when the map has no such key; the linear scan agrees with a map
find (and with reading entities[id]); directly after id = addEntity(e) for an
entity pointer e, in any state, getEntity(id) returns e. -/
theorem C14_getEntity_by_id_is_map_find (w : World) (id : Nat)
    (hkeys : List.Pairwise (fun a b : Nat × Ptr => a.1 < b.1) w.mgr.entities) :
    (∀ p, (id, p) ∈ w.mgr.entities → getEntityById id w = p) ∧
    ((∀ p, (id, p) ∉ w.mgr.entities) → getEntityById id w = 0) ∧
    getEntityById id w = (mapFind w.mgr.entities id).getD 0 ∧
    getEntityById id w = mapAt w.mgr.entities id ∧
    (∀ (e : Ptr) (w0 : World), getEntityById (addEntityPtr e w0).1 (addEntityPtr e w0).2 = e) := by
  refine ⟨fun p hp => getEntityByIdLoop_of_mem hkeys hp,
    fun hno => getEntityByIdLoop_of_not_mem hno,
    getEntityByIdLoop_eq_mapFind _ _, getEntityByIdLoop_eq_mapAt _ _, ?_⟩
  intro e w0
  simp [getEntityById, addEntityPtr, addEntityPtrRuns, notifySubscribersRuns, getNextId, notifySubscribers, getEntityByIdLoop_mapAssign]

/-- Witness for C14: the entity stored under id 2 of the demo world. -/
theorem C14_witness :
    List.Pairwise (fun a b : Nat × Ptr => a.1 < b.1) demoAssembly.mgr.entities ∧
    getEntityById 2 demoAssembly = 11 ∧ getEntityById 9 demoAssembly = 0 ∧
    (∀ p, (2, p) ∈ demoAssembly.mgr.entities → getEntityById 2 demoAssembly = p) :=
  ⟨by decide, rfl, rfl, (C14_getEntity_by_id_is_map_find demoAssembly 2 (by decide)).1⟩

theorem belongsToRobot_iff (e : SimEntity) (id : Nat) :
    e.belongsToRobot id = true ↔ ∃ name, (id, name) ∈ e.nodeIds := by
  unfold SimEntity.belongsToRobot
  rw [List.any_eq_true]
  constructor
  · rintro ⟨kv, hkv, hk⟩
    have hk' : kv.1 = id := by simpa using hk
    exact ⟨kv.2, by rw [← hk']; exact hkv⟩
  · rintro ⟨name, hmem⟩
    exact ⟨(id, name), hmem, by simp⟩

/-- Claim C19: for every entity and node id, select(id) returns true iff the id is a key
of the entity's node table, which is what belongsToRobot(id) tells; when the
id is not owned the result is false and the entity is left exactly as it was,
in particular when another entity owns the id. -/
theorem C19_select_iff_owned (e : SimEntity) (id : Nat) :
    (e.select id).1 = e.belongsToRobot id ∧
    ((e.select id).1 = true ↔ ∃ name, (id, name) ∈ e.nodeIds) ∧
    (e.belongsToRobot id = false → e.select id = (false, e)) ∧
    (∀ other : SimEntity, other.belongsToRobot id = true → e.belongsToRobot id = false →
      (e.select id).1 = false ∧ (e.select id).2.selectedNodes = e.selectedNodes ∧
      (e.select id).2.selected = e.selected) := by
  have h1 : (e.select id).1 = e.belongsToRobot id := by
    unfold SimEntity.select
    cases e.belongsToRobot id <;> simp
  have h3 : e.belongsToRobot id = false → e.select id = (false, e) := by
    intro h
    simp [SimEntity.select, h]
  refine ⟨h1, ?_, h3, ?_⟩
  · rw [h1]; exact belongsToRobot_iff e id
  · intro _ _ hno
    rw [h3 hno]
    exact ⟨rfl, rfl, rfl⟩

/-! ### getEntities, getEntityNode, node round trip -/

theorem getEntitiesLoop_eq_filter (mp : String → String → Bool) (h : Heap) (pat : String)
    (es : List (Nat × Ptr))
    (hl : ∀ kv ∈ es, kv.2 ≠ 0 ∧ (Heap.load h kv.2).isSome = true) :
    getEntitiesLoop mp h pat es =
      .ok ((es.filter (fun kv => nameMatchesAt mp pat h kv.2)).map Prod.snd) := by
  induction es with
  | nil => rfl
  | cons x rest ih =>
    obtain ⟨k, p⟩ := x
    have hp := hl (k, p) (List.mem_cons_self _ _)
    obtain ⟨e, he, hd⟩ := deref_of_live hp.1 hp.2
    have ih' := ih (fun kv hkv => hl kv (List.mem_cons_of_mem _ hkv))
    simp only [getEntitiesLoop, hd, ih']
    by_cases hm : mp pat e.getName = true
    · simp [hm, nameMatchesAt, he, List.filter_cons]
    · simp [hm, nameMatchesAt, he, List.filter_cons]

/-- Claim C13: on a well-formed registry getEntities(p) returns the pointers of exactly the
map entries whose entity's name matches p, one per matching entry and in
ascending id order; an entity is listed once when it is registered under one
id only; the list is empty when no entry matches. -/
theorem C13_getEntities_filters_by_pattern (matchPattern : String → String → Bool) (w : World)
    (pattern : String) (hwf : w.WF) :
    ∃ out, getEntities matchPattern pattern w = .ok out ∧
      out = (w.mgr.entities.filter
        (fun kv => nameMatchesAt matchPattern pattern w.heap kv.2)).map Prod.snd ∧
      List.Pairwise (fun a b : Nat × Ptr => a.1 < b.1)
        (w.mgr.entities.filter (fun kv => nameMatchesAt matchPattern pattern w.heap kv.2)) ∧
      (∀ p, p ∈ out ↔ ∃ k, (k, p) ∈ w.mgr.entities ∧
        nameMatchesAt matchPattern pattern w.heap p = true) ∧
      out.length = w.mgr.entities.countP
        (fun kv => nameMatchesAt matchPattern pattern w.heap kv.2) ∧
      ((w.mgr.entities.map Prod.snd).Nodup → out.Nodup) ∧
      ((∀ kv ∈ w.mgr.entities, nameMatchesAt matchPattern pattern w.heap kv.2 = false) →
        out = []) := by
  refine ⟨_, getEntitiesLoop_eq_filter matchPattern w.heap pattern w.mgr.entities hwf.2, rfl,
    hwf.1.sublist (List.filter_sublist _), ?_, ?_, ?_, ?_⟩
  · intro p
    simp only [List.mem_map, List.mem_filter]
    constructor
    · rintro ⟨kv, ⟨hkv, hm⟩, rfl⟩
      exact ⟨kv.1, hkv, hm⟩
    · rintro ⟨k, hk, hm⟩
      exact ⟨(k, p), ⟨hk, hm⟩, rfl⟩
  · rw [List.length_map, List.countP_eq_length_filter]
  · intro hnd
    exact (hnd.sublist ((List.filter_sublist _).map Prod.snd))
  · intro hno
    have : w.mgr.entities.filter
        (fun kv => nameMatchesAt matchPattern pattern w.heap kv.2) = [] := by
      rw [List.filter_eq_nil_iff]
      intro kv hkv
      simp [hno kv hkv]
    rw [this]; rfl

/-- Witness for C13: the entities of the demo world whose name starts with robot. -/
theorem C13_witness :
    demoAssembly.WF ∧ getEntities globMatch "robot*" demoAssembly = .ok [10, 11] ∧
    ∃ out, getEntities globMatch "robot*" demoAssembly = .ok out ∧
      out = (demoAssembly.mgr.entities.filter
        (fun kv => nameMatchesAt globMatch "robot*" demoAssembly.heap kv.2)).map Prod.snd :=
  ⟨by decide, rfl, by
    obtain ⟨out, h1, h2, _⟩ :=
      C13_getEntities_filters_by_pattern globMatch demoAssembly "robot*" (by decide)
    exact ⟨out, h1, h2⟩⟩

theorem tableFindId_eq_zero (name : String) (t : List (Nat × String))
    (hno : ∀ kv ∈ t, kv.2 ≠ name) : tableFindId name t = 0 := by
  induction t with
  | nil => rfl
  | cons a rest ih =>
    obtain ⟨k, v⟩ := a
    have hv : v ≠ name := hno (k, v) (List.mem_cons_self _ _)
    simp only [tableFindId, hv, if_false]
    exact ih (fun kv hkv => hno kv (List.mem_cons_of_mem _ hkv))

theorem getEntity_cases (w : World) (name : String) (hwf : w.WF) :
    (∃ w1, getEntity name w = .ok (0, w1) ∧ w1.heap = w.heap ∧ w1.mgr = w.mgr ∧
      ¬ ∃ kv ∈ w.mgr.entities, nameAt w.heap kv.2 = some name) ∨
    (∃ k p e, getEntity name w = .ok (p, w) ∧ p ≠ 0 ∧ (k, p) ∈ w.mgr.entities ∧
      Heap.load w.heap p = some e ∧ deref w.heap p = .ok e ∧ e.getName = name ∧
      w.mgr.entities.find? (fun kv => decide (nameAt w.heap kv.2 = some name)) = some (k, p)) := by
  have hloop := getEntityLoop_eq_find w.heap name w.mgr.entities hwf.2
  cases hfind : w.mgr.entities.find? (fun kv => decide (nameAt w.heap kv.2 = some name)) with
  | none =>
    left
    refine ⟨{ w with trace := w.trace ++
        [Event.stderr ("ERROR: Entity with name " ++ name ++ " not found!\n")] }, ?_, rfl, rfl, ?_⟩
    · simp [getEntity, getEntityVerbose, hloop, hfind]
    · rintro ⟨kv, hkv, hn⟩
      have := List.find?_eq_none.mp hfind kv hkv
      simp [hn] at this
  | some kv =>
    right
    have hmem := List.mem_of_find?_eq_some hfind
    have hP : nameAt w.heap kv.2 = some name := by simpa using List.find?_some hfind
    obtain ⟨e, he, hd⟩ := deref_of_live (hwf.2 kv hmem).1 (hwf.2 kv hmem).2
    refine ⟨kv.1, kv.2, e, ?_, (hwf.2 kv hmem).1, hmem, he, hd, ?_, rfl⟩
    · simp [getEntity, getEntityVerbose, hloop, hfind]
    · simpa [nameAt, he] using hP

/-- Claim C17: on a well-formed registry getEntityNode(entityName, nodeName) returns a
value r; r is 0 when no registered entity is named entityName; when the name
resolves to an entity, r is that entity's getNode(nodeName), which is 0 when the
entity owns no node named nodeName.  getEntityJoint does the same with getJoint
and the joint table. -/
theorem C17_getEntityNode_and_Joint (w : World) (entityName itemName : String) (hwf : w.WF) :
    (∃ r w1, getEntityNode entityName itemName w = .ok (r, w1) ∧
      ((¬ ∃ kv ∈ w.mgr.entities, nameAt w.heap kv.2 = some entityName) → r = 0) ∧
      (∀ p w0 e, getEntity entityName w = .ok (p, w0) → p ≠ 0 → Heap.load w.heap p = some e →
        r = e.getNode itemName ∧ ((∀ kv ∈ e.nodeIds, kv.2 ≠ itemName) → r = 0))) ∧
    (∃ r w1, getEntityJoint entityName itemName w = .ok (r, w1) ∧
      ((¬ ∃ kv ∈ w.mgr.entities, nameAt w.heap kv.2 = some entityName) → r = 0) ∧
      (∀ p w0 e, getEntity entityName w = .ok (p, w0) → p ≠ 0 → Heap.load w.heap p = some e →
        r = e.getJoint itemName ∧ ((∀ kv ∈ e.jointIds, kv.2 ≠ itemName) → r = 0))) := by
  rcases getEntity_cases w entityName hwf with ⟨w1, hg, _, _, hno⟩ | ⟨k, p, e, hg, hp, hmem, he, hd, hn, hfind⟩
  · constructor
    · refine ⟨0, w1, by simp [getEntityNode, hg], fun _ => rfl, ?_⟩
      intro p w0 e hg' hp' _
      rw [hg] at hg'
      cases hg'
      exact absurd rfl hp'
    · refine ⟨0, w1, by simp [getEntityJoint, hg], fun _ => rfl, ?_⟩
      intro p w0 e hg' hp' _
      rw [hg] at hg'
      cases hg'
      exact absurd rfl hp'
  · have hex : ∃ kv ∈ w.mgr.entities, nameAt w.heap kv.2 = some entityName :=
      ⟨(k, p), hmem, by simp [nameAt, he, hn]⟩
    constructor
    · refine ⟨e.getNode itemName, w, by simp [getEntityNode, hg, hp, hd],
        fun hno => absurd hex hno, ?_⟩
      intro p' w0 e' hg' _ he'
      rw [hg] at hg'
      cases hg'
      rw [he] at he'
      cases he'
      exact ⟨rfl, fun hno => tableFindId_eq_zero _ _ hno⟩
    · refine ⟨e.getJoint itemName, w, by simp [getEntityJoint, hg, hp, hd],
        fun hno => absurd hex hno, ?_⟩
      intro p' w0 e' hg' _ he'
      rw [hg] at hg'
      cases hg'
      rw [he] at he'
      cases he'
      exact ⟨rfl, fun hno => tableFindId_eq_zero _ _ hno⟩

/-- Witness for C17: a node of head, a missing node, and a missing entity. -/
theorem C17_witness :
    demoSelect.WF ∧
    (getEntityNode "head" "neck" demoSelect).map Prod.fst = .ok 6 ∧
    (getEntityNode "head" "nose" demoSelect).map Prod.fst = .ok 0 ∧
    (getEntityNode "ghost" "neck" demoSelect).map Prod.fst = .ok 0 ∧
    (getEntityJoint "head" "pan" demoSelect).map Prod.fst = .ok 3 ∧
    ∃ r w1, getEntityNode "head" "neck" demoSelect = .ok (r, w1) ∧
      ((¬ ∃ kv ∈ demoSelect.mgr.entities, nameAt demoSelect.heap kv.2 = some "head") → r = 0) :=
  ⟨by decide, rfl, rfl, rfl, rfl, by
    obtain ⟨⟨r, w1, h1, h2, _⟩, _⟩ :=
      C17_getEntityNode_and_Joint demoSelect "head" "neck" (by decide)
    exact ⟨r, w1, h1, h2⟩⟩

/-! ### Name-indexed operations and the node round trip -/

theorem tableFindName_tableAssign (id : Nat) (name : String) (t : List (Nat × String)) :
    tableFindName id (tableAssign id name t) = name := by
  induction t with
  | nil => simp [tableAssign, tableFindName]
  | cons a rest ih =>
    obtain ⟨k, v⟩ := a
    unfold tableAssign
    by_cases h1 : id < k
    · simp [h1, tableFindName]
    · by_cases h2 : id = k
      · simp [h2, tableFindName]
      · have h3 : k ≠ id := fun h => h2 h.symm
        simp only [h1, h2, if_false, tableFindName, h3]
        exact ih

theorem tableFindId_tableAssign (id : Nat) (name : String) (t : List (Nat × String))
    (hfirst : ∀ kv ∈ t, kv.1 < id → kv.2 ≠ name) :
    tableFindId name (tableAssign id name t) = id := by
  induction t with
  | nil => simp [tableAssign, tableFindId]
  | cons a rest ih =>
    obtain ⟨k, v⟩ := a
    unfold tableAssign
    by_cases h1 : id < k
    · simp [h1, tableFindId]
    · by_cases h2 : id = k
      · simp [h2, tableFindId]
      · have hlt : k < id := by omega
        have hv : v ≠ name := hfirst (k, v) (List.mem_cons_self _ _) hlt
        simp only [h1, h2, if_false, tableFindId, hv]
        exact ih (fun kv hkv => hfirst kv (List.mem_cons_of_mem _ hkv))

theorem findEntityLoop_eq (h : Heap) (name : String) (es : List (Nat × Ptr)) :
    findEntityLoop h name es = (getEntityLoop h name es).map (fun r => r.getD 0) := by
  induction es with
  | nil => rfl
  | cons a rest ih =>
    obtain ⟨k, p⟩ := a
    simp only [findEntityLoop, getEntityLoop]
    cases hd : deref h p with
    | error f => rfl
    | ok e =>
      simp only []
      by_cases hn : e.getName = name
      · simp [hn, Except.map]
      · simp only [hn, if_false]
        exact ih

theorem findEntityLoop_found {w : World} {name : String} {k : Nat} {p : Ptr} (hwf : w.WF)
    (hfind : w.mgr.entities.find? (fun kv => decide (nameAt w.heap kv.2 = some name))
      = some (k, p)) :
    findEntityLoop w.heap name w.mgr.entities = .ok p := by
  rw [findEntityLoop_eq, getEntityLoop_eq_find _ _ _ hwf.2, hfind]
  rfl

theorem findEntityLoop_missing {w : World} {name : String} (hwf : w.WF)
    (hfind : w.mgr.entities.find? (fun kv => decide (nameAt w.heap kv.2 = some name)) = none) :
    findEntityLoop w.heap name w.mgr.entities = .ok 0 := by
  rw [findEntityLoop_eq, getEntityLoop_eq_find _ _ _ hwf.2, hfind]
  rfl

theorem Heap.similar_store {h : Heap} {p : Ptr} {e e1 : SimEntity}
    (he : Heap.load h p = some e) (hn : e1.name = e.name) (hc : e1.config = e.config) :
    Heap.similar h (Heap.store h p e1) := by
  intro q
  by_cases hq : q = p
  · subst hq
    simp [Heap.load, Heap.store, List.lookup] at he ⊢
    simp [he, hn, hc]
  · have : (q == p) = false := by simpa using hq
    simp [Heap.load, Heap.store, List.lookup, this]

theorem Heap.load_store_self (h : Heap) (p : Ptr) (e : SimEntity) :
    Heap.load (Heap.store h p e) p = some e := by
  simp [Heap.load, Heap.store, List.lookup]

theorem Heap.load_store_other (h : Heap) {p q : Ptr} (e : SimEntity) (hq : q ≠ p) :
    Heap.load (Heap.store h p e) q = Heap.load h q := by
  have : (q == p) = false := by simpa using hq
  simp [Heap.load, Heap.store, List.lookup, this]

theorem WF_of_similar {w w1 : World} (hwf : w.WF) (hm : w1.mgr = w.mgr)
    (hs : Heap.similar w.heap w1.heap) : w1.WF := by
  refine ⟨by rw [hm]; exact hwf.1, ?_⟩
  intro kv hkv
  rw [hm] at hkv
  exact ⟨(hwf.2 kv hkv).1, by rw [Heap.similar_isSome hs]; exact (hwf.2 kv hkv).2⟩

theorem find_name_similar {h h1 : Heap} (hs : Heap.similar h h1) (name : String)
    (es : List (Nat × Ptr)) :
    es.find? (fun kv => decide (nameAt h1 kv.2 = some name)) =
      es.find? (fun kv => decide (nameAt h kv.2 = some name)) := by
  have : (fun kv : Nat × Ptr => decide (nameAt h1 kv.2 = some name)) =
      (fun kv : Nat × Ptr => decide (nameAt h kv.2 = some name)) := by
    funext kv; rw [Heap.similar_nameAt hs]
  rw [this]

theorem addNode_found {w : World} {entityName : String} {k : Nat} {p : Ptr} {e : SimEntity}
    (hwf : w.WF)
    (hfind : w.mgr.entities.find? (fun kv => decide (nameAt w.heap kv.2 = some entityName))
      = some (k, p))
    (he : Heap.load w.heap p = some e) (nodeId : Nat) (nodeName : String) :
    addNode entityName nodeId nodeName w =
      .ok { w with heap := Heap.store w.heap p (e.addNode nodeId nodeName) } := by
  have hmem := List.mem_of_find?_eq_some hfind
  have hp : p ≠ 0 := (hwf.2 _ hmem).1
  have hd : deref w.heap p = .ok e := by simp [deref, hp, he]
  simp [addNode, findEntityLoop_found hwf hfind, hp, hd]

theorem tableFindId_least (name : String) (t : List (Nat × String))
    (hs : List.Pairwise (fun a b : Nat × String => a.1 < b.1) t)
    (hex : ∃ kv ∈ t, kv.2 = name) :
    (tableFindId name t, name) ∈ t ∧ ∀ kv ∈ t, kv.2 = name → tableFindId name t ≤ kv.1 := by
  induction t with
  | nil =>
    obtain ⟨kv, hkv, _⟩ := hex
    simp at hkv
  | cons a rest ih =>
    obtain ⟨k, v⟩ := a
    rw [List.pairwise_cons] at hs
    by_cases hv : v = name
    · subst hv
      simp only [tableFindId, if_true]
      refine ⟨List.mem_cons_self _ _, ?_⟩
      intro kv hkv _
      rcases List.mem_cons.mp hkv with h | h
      · rw [h]
      · exact le_of_lt (hs.1 kv h)
    · simp only [tableFindId, hv, if_false]
      have hex1 : ∃ kv ∈ rest, kv.2 = name := by
        obtain ⟨kv, hkv, hn⟩ := hex
        rcases List.mem_cons.mp hkv with h | h
        · rw [h] at hn
          exact absurd hn hv
        · exact ⟨kv, h, hn⟩
      obtain ⟨h1, h2⟩ := ih hs.2 hex1
      refine ⟨List.mem_cons_of_mem _ h1, ?_⟩
      intro kv hkv hn
      rcases List.mem_cons.mp hkv with h | h
      · rw [h] at hn
        exact absurd hn hv
      · exact h2 kv h hn

theorem tableFindId_tableAssign_earlier (id : Nat) (name : String) (t : List (Nat × String))
    (hs : List.Pairwise (fun a b : Nat × String => a.1 < b.1) t)
    (hex : ∃ kv ∈ t, kv.1 < id ∧ kv.2 = name) :
    tableFindId name (tableAssign id name t) = tableFindId name t := by
  induction t with
  | nil =>
    obtain ⟨kv, hkv, _⟩ := hex
    simp at hkv
  | cons a rest ih =>
    obtain ⟨k, v⟩ := a
    rw [List.pairwise_cons] at hs
    have hk : k < id := by
      obtain ⟨kv, hkv, hlt, _⟩ := hex
      rcases List.mem_cons.mp hkv with h | h
      · rw [h] at hlt
        exact hlt
      · exact lt_trans (hs.1 kv h) hlt
    have h1 : ¬ id < k := by omega
    have h2 : ¬ id = k := by omega
    unfold tableAssign
    simp only [h1, h2, if_false]
    by_cases hv : v = name
    · simp only [tableFindId, hv, if_true]
    · simp only [tableFindId, hv, if_false]
      apply ih hs.2
      obtain ⟨kv, hkv, hlt, hn⟩ := hex
      rcases List.mem_cons.mp hkv with h | h
      · rw [h] at hn
        exact absurd hn hv
      · exact ⟨kv, h, hlt, hn⟩

/-- Claim C18, amended: for every entity e, node id and node name, after addNode(id, name)
getNode(id) returns name; getNode(name) returns id when no node of e with a
smaller id already bears the name, and otherwise, the node table being in
ascending id order, it returns the smallest id of e that bears the name, which
lies below id; and when e is the entity a well-formed registry resolves
entityName to, addNode(entityName, id, name) followed by
getEntityNode(entityName, name) returns what getNode(name) returns on the
entity, hence id in the first case. -/
theorem C18_addNode_round_trip (e : SimEntity) (id : Nat) (name : String) :
    (e.addNode id name).getNodeName id = name ∧
    ((∀ kv ∈ e.nodeIds, kv.1 < id → kv.2 ≠ name) → (e.addNode id name).getNode name = id) ∧
    (List.Pairwise (fun a b : Nat × String => a.1 < b.1) e.nodeIds →
      (∃ kv ∈ e.nodeIds, kv.1 < id ∧ kv.2 = name) →
        ((e.addNode id name).getNode name, name) ∈ e.nodeIds ∧
        (e.addNode id name).getNode name < id ∧
        ∀ kv ∈ e.nodeIds, kv.2 = name → (e.addNode id name).getNode name ≤ kv.1) ∧
    (∀ (w : World) (entityName : String) (p : Ptr) (w0 : World), w.WF →
      getEntity entityName w = .ok (p, w0) → p ≠ 0 → Heap.load w.heap p = some e →
      ∃ w1 w2, addNode entityName id name w = .ok w1 ∧
        getEntityNode entityName name w1 = .ok ((e.addNode id name).getNode name, w2) ∧
        ((∀ kv ∈ e.nodeIds, kv.1 < id → kv.2 ≠ name) →
          getEntityNode entityName name w1 = .ok (id, w2))) := by
  have hround : (∀ kv ∈ e.nodeIds, kv.1 < id → kv.2 ≠ name) →
      (e.addNode id name).getNode name = id :=
    fun hfirst => tableFindId_tableAssign id name e.nodeIds hfirst
  refine ⟨tableFindName_tableAssign id name e.nodeIds, hround, ?_, ?_⟩
  · intro hs hex
    have heq : (e.addNode id name).getNode name = tableFindId name e.nodeIds :=
      tableFindId_tableAssign_earlier id name e.nodeIds hs hex
    have hex1 : ∃ kv ∈ e.nodeIds, kv.2 = name := by
      obtain ⟨kv, hkv, _, hn⟩ := hex
      exact ⟨kv, hkv, hn⟩
    obtain ⟨h1, h2⟩ := tableFindId_least name e.nodeIds hs hex1
    rw [heq]
    refine ⟨h1, ?_, h2⟩
    obtain ⟨kv, hkv, hlt, hn⟩ := hex
    exact lt_of_le_of_lt (h2 kv hkv hn) hlt
  · intro w entityName p w0 hwf hres hp he
    obtain ⟨_, k, hfind⟩ := getEntity_found_entry hwf hres hp
    have hadd := addNode_found hwf hfind he id name
    have hsim : Heap.similar w.heap (Heap.store w.heap p (e.addNode id name)) :=
      Heap.similar_store he rfl rfl
    have hwf1 : World.WF { w with heap := Heap.store w.heap p (e.addNode id name) } :=
      WF_of_similar hwf rfl hsim
    have hloop := getEntityLoop_eq_find (Heap.store w.heap p (e.addNode id name)) entityName
      w.mgr.entities hwf1.2
    rw [find_name_similar hsim, hfind] at hloop
    have hd : deref (Heap.store w.heap p (e.addNode id name)) p = .ok (e.addNode id name) := by
      simp [deref, hp, Heap.load_store_self]
    have hget : getEntityNode entityName name
        { w with heap := Heap.store w.heap p (e.addNode id name) } =
        .ok ((e.addNode id name).getNode name,
          { w with heap := Heap.store w.heap p (e.addNode id name) }) := by
      simp [getEntityNode, getEntity, getEntityVerbose, hloop, hp, hd]
    refine ⟨_, { w with heap := Heap.store w.heap p (e.addNode id name) }, hadd, hget, ?_⟩
    intro hfirst
    rw [hget, hround hfirst]

/-- Claim C18 fails as stated: head owns node 6 named neck; after addNode(9, "neck")
getNode("neck") still returns 6, also through the manager, while getNode(9)
returns neck. -/
theorem C18_counterexample :
    (demoHead.addNode 9 "neck").getNode "neck" = 6 ∧
    (demoHead.addNode 9 "neck").getNodeName 9 = "neck" ∧
    ((addNode "head" 9 "neck" demoSelect).bind (getEntityNode "head" "neck")).map Prod.fst
      = .ok 6 :=
  ⟨rfl, rfl, rfl⟩

/-- Witness for C18 (amended): a node with a new name added to head, and a node
with the name that node 6 of head already bears. -/
theorem C18_witness :
    (demoHead.addNode 9 "nose").getNodeName 9 = "nose" ∧
    (∀ kv ∈ demoHead.nodeIds, kv.1 < 9 → kv.2 ≠ "nose") ∧
    (demoHead.addNode 9 "nose").getNode "nose" = 9 ∧
    List.Pairwise (fun a b : Nat × String => a.1 < b.1) demoHead.nodeIds ∧
    (∃ kv ∈ demoHead.nodeIds, kv.1 < 9 ∧ kv.2 = "neck") ∧
    (demoHead.addNode 9 "neck").getNode "neck" < 9 ∧
    demoSelect.WF ∧ getEntity "head" demoSelect = .ok (22, demoSelect) ∧
    Heap.load demoSelect.heap 22 = some demoHead ∧
    (∃ w1 w2, addNode "head" 9 "nose" demoSelect = .ok w1 ∧
      getEntityNode "head" "nose" w1 = .ok (9, w2)) :=
  ⟨(C18_addNode_round_trip demoHead 9 "nose").1, by decide,
    (C18_addNode_round_trip demoHead 9 "nose").2.1 (by decide),
    by decide, ⟨(6, "neck"), by decide, by decide, rfl⟩,
    ((C18_addNode_round_trip demoHead 9 "neck").2.2.1 (by decide)
      ⟨(6, "neck"), by decide, by decide, rfl⟩).2.1,
    by decide, rfl, rfl, by
      obtain ⟨w1, w2, h1, _, h3⟩ :=
        (C18_addNode_round_trip demoHead 9 "nose").2.2.2 demoSelect "head" 22 demoSelect
          (by decide) rfl (by decide) rfl
      exact ⟨w1, w2, h1, h3 (by decide)⟩⟩

/-! ### Name-indexed operations against the lookup by name -/

theorem getEntityLoop_some {h : Heap} {name : String} {es : List (Nat × Ptr)} {p : Ptr}
    (hl : getEntityLoop h name es = .ok (some p)) : p ≠ 0 ∧ ∃ e, deref h p = .ok e := by
  induction es with
  | nil => simp [getEntityLoop] at hl
  | cons a rest ih =>
    obtain ⟨k, q⟩ := a
    simp only [getEntityLoop] at hl
    cases hd : deref h q with
    | error f => simp [hd] at hl
    | ok e =>
      simp only [hd] at hl
      by_cases hn : e.getName = name
      · simp only [hn, if_true] at hl
        cases hl
        refine ⟨?_, e, hd⟩
        intro h0
        simp [deref, h0] at hd
      · simp only [hn, if_false] at hl
        exact ih hl

theorem applyToNamed_eq (f : SimEntity → SimEntity) (name : String) (w : World) :
    applyToNamed f name w =
      match getEntityLoop w.heap name w.mgr.entities with
      | .error x => .error x
      | .ok none => .ok w
      | .ok (some p) =>
          match deref w.heap p with
          | .error x => .error x
          | .ok e => .ok { w with heap := Heap.store w.heap p (f e) } := by
  unfold applyToNamed getEntityVerbose
  cases hl : getEntityLoop w.heap name w.mgr.entities with
  | error x => rfl
  | ok r =>
    cases r with
    | none => simp
    | some p =>
      have hp := (getEntityLoop_some hl).1
      simp [hp]

theorem findThenApply_eq (f : SimEntity → SimEntity) (name : String) (w : World) :
    (match findEntityLoop w.heap name w.mgr.entities with
      | .error x => .error x
      | .ok entity =>
          if entity ≠ 0 then
            match deref w.heap entity with
            | .error x => .error x
            | .ok e => .ok { w with heap := Heap.store w.heap entity (f e) }
          else .ok w) = applyToNamed f name w := by
  rw [applyToNamed_eq, findEntityLoop_eq]
  cases hl : getEntityLoop w.heap name w.mgr.entities with
  | error x => rfl
  | ok r =>
    cases r with
    | none => simp [Except.map]
    | some p =>
      have hp := (getEntityLoop_some hl).1
      simp [Except.map, hp]

theorem addMotorLoop_eq (entityName : String) (motorId : Nat) (motorName : String) (h : Heap)
    (es : List (Nat × Ptr)) :
    addMotorLoop entityName motorId motorName h es =
      match getEntityLoop h entityName es with
      | .error x => .error x
      | .ok none => .ok h
      | .ok (some p) =>
          match deref h p with
          | .error x => .error x
          | .ok e => .ok (Heap.store h p (e.addMotor motorId motorName)) := by
  induction es with
  | nil => rfl
  | cons a rest ih =>
    obtain ⟨k, p⟩ := a
    simp only [addMotorLoop, getEntityLoop]
    cases hd : deref h p with
    | error f => rfl
    | ok e =>
      simp only []
      by_cases hn : e.getName = entityName
      · simp [hn, hd]
      · simp only [hn, if_false]
        exact ih

theorem addJointLoop_eq (entityName : String) (jointId : Nat) (jointName : String) (h : Heap)
    (es : List (Nat × Ptr)) :
    addJointLoop entityName jointId jointName h es =
      match getEntityLoop h entityName es with
      | .error x => .error x
      | .ok none => .ok h
      | .ok (some p) =>
          match deref h p with
          | .error x => .error x
          | .ok e => .ok (Heap.store h p (e.addJoint jointId jointName)) := by
  induction es with
  | nil => rfl
  | cons a rest ih =>
    obtain ⟨k, p⟩ := a
    simp only [addJointLoop, getEntityLoop]
    cases hd : deref h p with
    | error f => rfl
    | ok e =>
      simp only []
      by_cases hn : e.getName = entityName
      · simp [hn, hd]
      · simp only [hn, if_false]
        exact ih

theorem addControllerLoop_eq (entityName : String) (controllerId : Nat) (h : Heap)
    (es : List (Nat × Ptr)) :
    addControllerLoop entityName controllerId h es =
      match getEntityLoop h entityName es with
      | .error x => .error x
      | .ok none => .ok h
      | .ok (some p) =>
          match deref h p with
          | .error x => .error x
          | .ok e => .ok (Heap.store h p (e.addController controllerId)) := by
  induction es with
  | nil => rfl
  | cons a rest ih =>
    obtain ⟨k, p⟩ := a
    simp only [addControllerLoop, getEntityLoop]
    cases hd : deref h p with
    | error f => rfl
    | ok e =>
      simp only []
      by_cases hn : e.getName = entityName
      · simp [hn, hd]
      · simp only [hn, if_false]
        exact ih

theorem addNode_eq_applyToNamed (entityName : String) (nodeId : Nat) (nodeName : String)
    (w : World) :
    addNode entityName nodeId nodeName w =
      applyToNamed (fun e => e.addNode nodeId nodeName) entityName w :=
  findThenApply_eq (fun e => e.addNode nodeId nodeName) entityName w

theorem appendConfig_eq_applyToNamed (name : String) (map : ConfigMap) (w : World) :
    appendConfig name map w = applyToNamed (fun e => e.appendConfig map) name w :=
  findThenApply_eq (fun e => e.appendConfig map) name w

theorem addMotor_eq_applyToNamed (entityName : String) (motorId : Nat) (motorName : String)
    (w : World) :
    addMotor entityName motorId motorName w =
      applyToNamed (fun e => e.addMotor motorId motorName) entityName w := by
  rw [applyToNamed_eq, addMotor, addMotorLoop_eq]
  cases hl : getEntityLoop w.heap entityName w.mgr.entities with
  | error x => rfl
  | ok r =>
    cases r with
    | none => rfl
    | some p => cases hd : deref w.heap p <;> simp [hd]

theorem addJoint_eq_applyToNamed (entityName : String) (jointId : Nat) (jointName : String)
    (w : World) :
    addJoint entityName jointId jointName w =
      applyToNamed (fun e => e.addJoint jointId jointName) entityName w := by
  rw [applyToNamed_eq, addJoint, addJointLoop_eq]
  cases hl : getEntityLoop w.heap entityName w.mgr.entities with
  | error x => rfl
  | ok r =>
    cases r with
    | none => rfl
    | some p => cases hd : deref w.heap p <;> simp [hd]

theorem addController_eq_applyToNamed (entityName : String) (controllerId : Nat) (w : World) :
    addController entityName controllerId w =
      applyToNamed (fun e => e.addController controllerId) entityName w := by
  rw [applyToNamed_eq, addController, addControllerLoop_eq]
  cases hl : getEntityLoop w.heap entityName w.mgr.entities with
  | error x => rfl
  | ok r =>
    cases r with
    | none => rfl
    | some p => cases hd : deref w.heap p <;> simp [hd]

theorem getEntityVerbose_false_cases (w : World) (name : String) (hwf : w.WF) :
    (getEntityVerbose name false w = .ok (0, w) ∧
      (¬ ∃ kv ∈ w.mgr.entities, nameAt w.heap kv.2 = some name) ∧
      ∀ f, applyToNamed f name w = .ok w) ∨
    (∃ k p e, getEntityVerbose name false w = .ok (p, w) ∧ p ≠ 0 ∧ (k, p) ∈ w.mgr.entities ∧
      Heap.load w.heap p = some e ∧ e.getName = name ∧
      (∀ kv ∈ w.mgr.entities, nameAt w.heap kv.2 = some name → k ≤ kv.1) ∧
      ∀ f, applyToNamed f name w = .ok { w with heap := Heap.store w.heap p (f e) }) := by
  have hloop := getEntityLoop_eq_find w.heap name w.mgr.entities hwf.2
  cases hfind : w.mgr.entities.find? (fun kv => decide (nameAt w.heap kv.2 = some name)) with
  | none =>
    left
    refine ⟨by simp [getEntityVerbose, hloop, hfind], ?_, ?_⟩
    · rintro ⟨kv, hkv, hn⟩
      have := List.find?_eq_none.mp hfind kv hkv
      simp [hn] at this
    · intro f
      rw [applyToNamed_eq, hloop, hfind]
      rfl
  | some kv =>
    right
    obtain ⟨hmem, hP, hleast⟩ := find_least hwf.1 hfind
    have hP' : nameAt w.heap kv.2 = some name := by simpa using hP
    obtain ⟨e, he, hd⟩ := deref_of_live (hwf.2 kv hmem).1 (hwf.2 kv hmem).2
    refine ⟨kv.1, kv.2, e, by simp [getEntityVerbose, hloop, hfind], (hwf.2 kv hmem).1, hmem, he,
      by simpa [nameAt, he] using hP', ?_, ?_⟩
    · intro kv' hkv' hn
      exact hleast kv' hkv' (by simpa using hn)
    · intro f
      rw [applyToNamed_eq, hloop, hfind]
      simp [hd]

/-- Claim C16: each of addNode, addMotor, addJoint, addController and appendConfig does
exactly what looking the entity up with getEntity(name, false) and applying the
entity-level operation to the result does (in every state, faults included).
On a well-formed registry that lookup returns p: when p is null the world is
left as it was; otherwise p is the lowest-id entry whose entity has the name,
the entity at p is replaced by the result of the operation, and no other
address of the heap changes. -/
theorem C16_named_operations_use_lookup (w : World) (name : String) (hwf : w.WF) :
    (∀ (nodeId : Nat) (nodeName : String),
      addNode name nodeId nodeName w = applyToNamed (fun e => e.addNode nodeId nodeName) name w) ∧
    (∀ (motorId : Nat) (motorName : String),
      addMotor name motorId motorName w =
        applyToNamed (fun e => e.addMotor motorId motorName) name w) ∧
    (∀ (jointId : Nat) (jointName : String),
      addJoint name jointId jointName w =
        applyToNamed (fun e => e.addJoint jointId jointName) name w) ∧
    (∀ (controllerId : Nat),
      addController name controllerId w =
        applyToNamed (fun e => e.addController controllerId) name w) ∧
    (∀ (map : ConfigMap),
      appendConfig name map w = applyToNamed (fun e => e.appendConfig map) name w) ∧
    (∃ p, getEntityVerbose name false w = .ok (p, w) ∧
      (p = 0 → ∀ f, applyToNamed f name w = .ok w) ∧
      (p ≠ 0 → ∃ k e, (k, p) ∈ w.mgr.entities ∧ Heap.load w.heap p = some e ∧
        e.getName = name ∧
        (∀ kv ∈ w.mgr.entities, nameAt w.heap kv.2 = some name → k ≤ kv.1) ∧
        ∀ f, applyToNamed f name w = .ok { w with heap := Heap.store w.heap p (f e) } ∧
          Heap.load (Heap.store w.heap p (f e)) p = some (f e) ∧
          ∀ q, q ≠ p → Heap.load (Heap.store w.heap p (f e)) q = Heap.load w.heap q)) := by
  refine ⟨fun a b => addNode_eq_applyToNamed name a b w,
    fun a b => addMotor_eq_applyToNamed name a b w,
    fun a b => addJoint_eq_applyToNamed name a b w,
    fun a => addController_eq_applyToNamed name a w,
    fun m => appendConfig_eq_applyToNamed name m w, ?_⟩
  rcases getEntityVerbose_false_cases w name hwf with ⟨hg, _, hap⟩ | ⟨k, p, e, hg, hp, hmem, he, hn, hleast, hap⟩
  · exact ⟨0, hg, fun _ => hap, fun h0 => absurd rfl h0⟩
  · refine ⟨p, hg, fun h0 => absurd h0 hp, fun _ => ⟨k, e, hmem, he, hn, hleast, ?_⟩⟩
    intro f
    exact ⟨hap f, Heap.load_store_self _ _ _, fun q hq => Heap.load_store_other _ _ hq⟩

/-- Witness for C16: the operations applied to head in the demo world. -/
theorem C16_witness :
    demoSelect.WF ∧
    (addMotor "head" 4 "servo" demoSelect).map (fun w => Heap.load w.heap 22)
      = .ok (some (demoHead.addMotor 4 "servo")) ∧
    addMotor "ghost" 4 "servo" demoSelect = .ok demoSelect ∧
    (∀ (motorId : Nat) (motorName : String),
      addMotor "head" motorId motorName demoSelect =
        applyToNamed (fun e => e.addMotor motorId motorName) "head" demoSelect) :=
  ⟨by decide, rfl, rfl, (C16_named_operations_use_lookup demoSelect "head" (by decide)).2.1⟩

/-! ### selectEvent with mode true -/

theorem setInsert_idem (x : Nat) (l : List Nat) : setInsert x (setInsert x l) = setInsert x l := by
  induction l with
  | nil => simp [setInsert]
  | cons y rest ih =>
    unfold setInsert
    by_cases h1 : x < y
    · simp [h1, setInsert]
    · by_cases h2 : x = y
      · simp [h2, setInsert]
      · simp only [h1, h2, if_false]
        rw [setInsert]
        simp only [h1, h2, if_false, ih]

theorem mem_setInsert_self (x : Nat) (l : List Nat) : x ∈ setInsert x l := by
  induction l with
  | nil => simp [setInsert]
  | cons y rest ih =>
    unfold setInsert
    by_cases h1 : x < y
    · simp [h1]
    · by_cases h2 : x = y
      · simp [h2]
      · simp only [h1, h2, if_false]
        exact List.mem_cons_of_mem _ ih

theorem select_idem (e : SimEntity) (id : Nat) :
    ((e.select id).2.select id).2 = (e.select id).2 := by
  by_cases hb : e.belongsToRobot id = true
  · have h1 : (e.select id).2 =
        { e with selectedNodes := setInsert id e.selectedNodes, selected := true } := by
      simp [SimEntity.select, hb]
    rw [h1]
    have hb2 : SimEntity.belongsToRobot
        { e with selectedNodes := setInsert id e.selectedNodes, selected := true } id = true := hb
    simp [SimEntity.select, hb2, setInsert_idem]
  · have hb' : e.belongsToRobot id = false := by simpa using hb
    simp [SimEntity.select, hb']

theorem select_name_config (e : SimEntity) (id : Nat) :
    (e.select id).2.name = e.name ∧ (e.select id).2.config = e.config := by
  unfold SimEntity.select
  split <;> exact ⟨rfl, rfl⟩

theorem callEntitySelect_spec {p : Ptr} {w : World} (id : Nat) (hp : p ≠ 0)
    (hl : (Heap.load w.heap p).isSome = true) :
    ∃ e, Heap.load w.heap p = some e ∧
      callEntitySelect p id w = .ok ((e.select id).1,
        { w with heap := Heap.store w.heap p (e.select id).2,
                 trace := w.trace ++ [Event.entitySelect p id] }) := by
  obtain ⟨e, he, hd⟩ := deref_of_live hp hl
  exact ⟨e, he, by simp only [callEntitySelect, hd]⟩

theorem selectEventLoop_spec (id : Nat) (es : List (Nat × Ptr)) : ∀ w : World,
    (∀ kv ∈ es, kv.2 ≠ 0 → (Heap.load w.heap kv.2).isSome = true) →
    ∃ w1, selectEventLoop id es w = .ok w1 ∧ w1.mgr = w.mgr ∧
      (∀ q, Heap.load w1.heap q = (Heap.load w.heap q).map
        (fun e => if q ≠ 0 ∧ q ∈ es.map Prod.snd then (e.select id).2 else e)) ∧
      selectCalls w1.trace = selectCalls w.trace ++
        (es.filter (fun kv => decide (kv.2 ≠ 0))).map (fun kv => (kv.2, id)) := by
  induction es with
  | nil =>
    intro w _
    refine ⟨w, rfl, rfl, ?_, by simp⟩
    intro q
    cases Heap.load w.heap q <;> simp
  | cons a rest ih =>
    obtain ⟨k, p⟩ := a
    intro w hl
    by_cases hp : p = 0
    · subst hp
      obtain ⟨w1, h1, h2, h3, h4⟩ := ih w (fun kv hkv => hl kv (List.mem_cons_of_mem _ hkv))
      refine ⟨w1, by simp [selectEventLoop, h1], h2, ?_, ?_⟩
      · intro q
        rw [h3 q]
        by_cases hq : q = 0
        · simp [hq]
        · have hmem : (q ∈ List.map Prod.snd ((k, 0) :: rest)) = (q ∈ List.map Prod.snd rest) := by
            simp [hq]
          simp only [hmem]
      · rw [h4]; simp [List.filter_cons]
    · obtain ⟨e, he, hcall⟩ := callEntitySelect_spec (w := w) id hp
        (hl (k, p) (List.mem_cons_self _ _) hp)
      have hd1 : deref (Heap.store w.heap p (e.select id).2) p = .ok (e.select id).2 := by
        simp [deref, hp, Heap.load_store_self]
      -- the world handed to the rest of the loop, with or without the stdout line
      have key : ∀ tr : List Event, selectCalls tr = selectCalls w.trace ++ [(p, id)] →
          ∃ w1, selectEventLoop id rest
              { w with heap := Heap.store w.heap p (e.select id).2, trace := tr } = .ok w1 ∧
            w1.mgr = w.mgr ∧
            (∀ q, Heap.load w1.heap q = (Heap.load w.heap q).map
              (fun e => if q ≠ 0 ∧ q ∈ ((k, p) :: rest).map Prod.snd
                then (e.select id).2 else e)) ∧
            selectCalls w1.trace = selectCalls w.trace ++
              (((k, p) :: rest).filter (fun kv => decide (kv.2 ≠ 0))).map
                (fun kv => (kv.2, id)) := by
        intro tr htr
        obtain ⟨w1, h1, h2, h3, h4⟩ := ih
          { w with heap := Heap.store w.heap p (e.select id).2, trace := tr }
          (by
            intro kv hkv hne
            by_cases hq : kv.2 = p
            · rw [hq]; simp [Heap.load_store_self]
            · rw [Heap.load_store_other _ _ hq]
              exact hl kv (List.mem_cons_of_mem _ hkv) hne)
        refine ⟨w1, h1, h2, ?_, ?_⟩
        · intro q
          rw [h3 q]
          by_cases hq : q = p
          · subst hq
            simp only [Heap.load_store_self, he, Option.map_some', List.map_cons, List.mem_cons,
              true_or, and_true, ne_eq, hp, not_false_eq_true, if_true]
            by_cases hin : q ∈ rest.map Prod.snd
            · simp [hin, select_idem]
            · simp [hin]
          · simp only [Heap.load_store_other _ _ hq, List.map_cons, List.mem_cons, hq, false_or]
        · rw [h4]
          simp only [htr, List.filter_cons, ne_eq, hp, not_false_eq_true, decide_True, if_true,
            List.map_cons, List.append_assoc, List.singleton_append]
      have htr1 : selectCalls (w.trace ++ [Event.entitySelect p id]) =
          selectCalls w.trace ++ [(p, id)] := by
        simp [selectCalls, List.filterMap_append, Event.selectOf]
      cases hc : (e.select id).1 with
      | false =>
        obtain ⟨w1, h1, h2, h3, h4⟩ := key _ htr1
        refine ⟨w1, ?_, h2, h3, h4⟩
        simp only [selectEventLoop, hp, ne_eq, not_false_eq_true, if_true, hcall, hc]
        simpa using h1
      | true =>
        have htr2 : selectCalls (w.trace ++ [Event.entitySelect p id] ++
            [Event.stdout ("robot has been selected: " ++ (e.select id).2.getName ++ "\n")]) =
            selectCalls w.trace ++ [(p, id)] := by
          simp [selectCalls, List.filterMap_append, Event.selectOf]
        obtain ⟨w1, h1, h2, h3, h4⟩ := key _ htr2
        refine ⟨w1, ?_, h2, h3, h4⟩
        simp only [selectEventLoop, hp, ne_eq, not_false_eq_true, if_true, hcall, hc, hd1]
        simpa using h1

/-- Claim C11, amended: on a registry whose non-null entries point to live entities,
selectEvent(id, true) returns and invokes select(id) on the entity of every
non-null map entry, once per entry in registry iteration order, whether or not
an earlier entity claimed the id; the registry map is unchanged; every
registered entity becomes what select(id) makes of it (selected, with the id in
its selected-node set, when it owns the id, and unchanged when it does not);
all other heap objects are unchanged. -/
theorem C11_selectEvent_visits_every_entity (w : World) (id : Nat) (hl : w.NoDangling) :
    ∃ w1, selectEvent id true w = .ok w1 ∧ w1.mgr = w.mgr ∧
      selectCalls w1.trace = selectCalls w.trace ++
        (w.mgr.entities.filter (fun kv => decide (kv.2 ≠ 0))).map (fun kv => (kv.2, id)) ∧
      (∀ kv ∈ w.mgr.entities, kv.2 ≠ 0 → ∀ e, Heap.load w.heap kv.2 = some e →
        Heap.load w1.heap kv.2 = some (e.select id).2 ∧
        (e.belongsToRobot id = true →
          (e.select id).2.selected = true ∧ id ∈ (e.select id).2.selectedNodes) ∧
        (e.belongsToRobot id = false → (e.select id).2 = e)) ∧
      (∀ q, (q = 0 ∨ q ∉ w.mgr.entities.map Prod.snd) →
        Heap.load w1.heap q = Heap.load w.heap q) := by
  obtain ⟨w1, h1, h2, h3, h4⟩ := selectEventLoop_spec id w.mgr.entities w hl
  refine ⟨w1, by simpa [selectEvent] using h1, h2, h4, ?_, ?_⟩
  · intro kv hkv hne e he
    refine ⟨?_, ?_, ?_⟩
    · rw [h3 kv.2, he]
      have : kv.2 ∈ w.mgr.entities.map Prod.snd := List.mem_map.mpr ⟨kv, hkv, rfl⟩
      simp [hne, this]
    · intro hb
      simp [SimEntity.select, hb, mem_setInsert_self]
    · intro hb
      simp [SimEntity.select, hb]
  · intro q hq
    rw [h3 q]
    rcases hq with h0 | hno
    · cases Heap.load w.heap q <;> simp [h0]
    · cases Heap.load w.heap q <;> simp [hno]

/-- Claim C11 fails as stated: arm (id 1) and leg (id 2) both own node 5; arm claims the
id, yet selectEvent(5, true) goes on to call select(5) on leg and head, and leg,
which was not selected, ends up selected with node 5 in its selected set. -/
theorem C11_counterexample :
    demoSelect.NoDangling ∧ demoSelect.mgr.entities = [(1, 20), (2, 21), (3, 22)] ∧
    (demoArm.select 5).1 = true ∧
    (selectEvent 5 true demoSelect).map (fun w => selectCalls w.trace)
      = .ok [(20, 5), (21, 5), (22, 5)] ∧
    (Heap.load demoSelect.heap 21).map (fun e => (e.selected, e.selectedNodes))
      = some (false, []) ∧
    (selectEvent 5 true demoSelect).map
        (fun w => (Heap.load w.heap 21).map (fun e => (e.selected, e.selectedNodes)))
      = .ok (some (true, [5])) :=
  ⟨by decide, rfl, rfl, rfl, rfl, rfl⟩

/-- Witness for C11 (amended): node 6 selected in the demo world. -/
theorem C11_witness :
    demoSelect.NoDangling ∧
    ∃ w1, selectEvent 6 true demoSelect = .ok w1 ∧ w1.mgr = demoSelect.mgr ∧
      selectCalls w1.trace = selectCalls demoSelect.trace ++
        (demoSelect.mgr.entities.filter (fun kv => decide (kv.2 ≠ 0))).map
          (fun kv => (kv.2, 6)) :=
  ⟨by decide, by
    obtain ⟨w1, h1, h2, h3, _⟩ := C11_selectEvent_visits_every_entity demoSelect 6 (by decide)
    exact ⟨w1, h1, h2, h3⟩⟩

/-! ### resetPose -/

theorem resetPoseAnchors_spec (es : List (Nat × Ptr)) : ∀ w : World,
    (∀ kv ∈ es, kv.2 ≠ 0 ∧ (Heap.load w.heap kv.2).isSome = true) →
    ∃ w1, resetPoseAnchors es w = .ok w1 ∧ w1.mgr = w.mgr ∧ Heap.similar w.heap w1.heap ∧
      w1.trace = w.trace ++ es.map (fun kv => Event.entityRemoveAnchor kv.2) := by
  induction es with
  | nil => intro w _; exact ⟨w, rfl, rfl, Heap.similar_refl _, by simp⟩
  | cons a rest ih =>
    obtain ⟨k, p⟩ := a
    intro w hl
    have hp := hl (k, p) (List.mem_cons_self _ _)
    obtain ⟨e, he, hd⟩ := deref_of_live hp.1 hp.2
    have hsim : Heap.similar w.heap (Heap.store w.heap p e.removeAnchor) :=
      Heap.similar_store he rfl rfl
    obtain ⟨w1, h1, h2, h3, h4⟩ := ih
      { w with heap := Heap.store w.heap p e.removeAnchor,
               trace := w.trace ++ [Event.entityRemoveAnchor p] }
      (by
        intro kv hkv
        have := hl kv (List.mem_cons_of_mem _ hkv)
        exact ⟨this.1, by rw [Heap.similar_isSome hsim]; exact this.2⟩)
    refine ⟨w1, by simp only [resetPoseAnchors, hd, h1], h2, Heap.similar_trans hsim h3, ?_⟩
    rw [h4]; simp

theorem resetPosePoses_spec (es : List (Nat × Ptr)) : ∀ w : World,
    (∀ kv ∈ es, kv.2 ≠ 0 ∧ (Heap.load w.heap kv.2).isSome = true) →
    ∃ w1, resetPosePoses es w = .ok w1 ∧ w1.mgr = w.mgr ∧ Heap.similar w.heap w1.heap ∧
      w1.trace = w.trace ++ es.map (fun kv => Event.entitySetInitialPose kv.2 true) := by
  induction es with
  | nil => intro w _; exact ⟨w, rfl, rfl, Heap.similar_refl _, by simp⟩
  | cons a rest ih =>
    obtain ⟨k, p⟩ := a
    intro w hl
    have hp := hl (k, p) (List.mem_cons_self _ _)
    obtain ⟨e, he, hd⟩ := deref_of_live hp.1 hp.2
    have hsim : Heap.similar w.heap (Heap.store w.heap p (e.setInitialPose true)) :=
      Heap.similar_store he rfl rfl
    obtain ⟨w1, h1, h2, h3, h4⟩ := ih
      { w with heap := Heap.store w.heap p (e.setInitialPose true),
               trace := w.trace ++ [Event.entitySetInitialPose p true] }
      (by
        intro kv hkv
        have := hl kv (List.mem_cons_of_mem _ hkv)
        exact ⟨this.1, by rw [Heap.similar_isSome hsim]; exact this.2⟩)
    refine ⟨w1, by simp only [resetPosePoses, hd, h1], h2, Heap.similar_trans hsim h3, ?_⟩
    rw [h4]; simp

theorem count_anchor_calls (es : List (Nat × Ptr)) (p : Ptr) :
    (es.map (fun kv => Event.entityRemoveAnchor kv.2)).count (Event.entityRemoveAnchor p)
        = (es.map Prod.snd).count p ∧
    (es.map (fun kv => Event.entitySetInitialPose kv.2 true)).count (Event.entityRemoveAnchor p)
        = 0 := by
  induction es with
  | nil => simp
  | cons a rest ih =>
    obtain ⟨k, q⟩ := a
    by_cases hq : q = p
    · subst hq
      simp [List.count_cons, ih.1, ih.2]
    · have h1 : (q == p) = false := by simpa using hq
      simp [List.count_cons, ih.1, ih.2, hq, h1]

theorem count_pose_calls (es : List (Nat × Ptr)) (p : Ptr) :
    (es.map (fun kv => Event.entitySetInitialPose kv.2 true)).count
        (Event.entitySetInitialPose p true) = (es.map Prod.snd).count p ∧
    (es.map (fun kv => Event.entityRemoveAnchor kv.2)).count
        (Event.entitySetInitialPose p true) = 0 := by
  induction es with
  | nil => simp
  | cons a rest ih =>
    obtain ⟨k, q⟩ := a
    by_cases hq : q = p
    · subst hq
      simp [List.count_cons, ih.1, ih.2]
    · have h1 : (q == p) = false := by simpa using hq
      simp [List.count_cons, ih.1, ih.2, hq, h1]

/-- Claim C15: on a well-formed registry resetPose returns and the entity calls it makes
are, in this order, removeAnchor() on the entity of every map entry in registry
iteration order, then setInitialPose(true) on the entity of every map entry in
the same order; so every removeAnchor precedes every setInitialPose, and an
entity receives one call of each kind per map entry that holds it: exactly one
of each when it is registered under one id only. -/
theorem C15_resetPose_two_phases (w : World) (hwf : w.WF) :
    ∃ w1, resetPose w = .ok w1 ∧ w1.mgr = w.mgr ∧
      w1.trace = w.trace ++
        (w.mgr.entities.map (fun kv => Event.entityRemoveAnchor kv.2) ++
         w.mgr.entities.map (fun kv => Event.entitySetInitialPose kv.2 true)) ∧
      (∀ p,
        (w.mgr.entities.map (fun kv => Event.entityRemoveAnchor kv.2) ++
          w.mgr.entities.map (fun kv => Event.entitySetInitialPose kv.2 true)).count
            (Event.entityRemoveAnchor p) = (w.mgr.entities.map Prod.snd).count p ∧
        (w.mgr.entities.map (fun kv => Event.entityRemoveAnchor kv.2) ++
          w.mgr.entities.map (fun kv => Event.entitySetInitialPose kv.2 true)).count
            (Event.entitySetInitialPose p true) = (w.mgr.entities.map Prod.snd).count p) ∧
      ((w.mgr.entities.map Prod.snd).Nodup → ∀ kv ∈ w.mgr.entities,
        (w.mgr.entities.map (fun kv => Event.entityRemoveAnchor kv.2) ++
          w.mgr.entities.map (fun kv => Event.entitySetInitialPose kv.2 true)).count
            (Event.entityRemoveAnchor kv.2) = 1 ∧
        (w.mgr.entities.map (fun kv => Event.entityRemoveAnchor kv.2) ++
          w.mgr.entities.map (fun kv => Event.entitySetInitialPose kv.2 true)).count
            (Event.entitySetInitialPose kv.2 true) = 1) := by
  obtain ⟨w1, h1, h2, h3, h4⟩ := resetPoseAnchors_spec w.mgr.entities w hwf.2
  have hl1 : ∀ kv ∈ w1.mgr.entities, kv.2 ≠ 0 ∧ (Heap.load w1.heap kv.2).isSome = true := by
    intro kv hkv
    rw [h2] at hkv
    exact ⟨(hwf.2 kv hkv).1, by rw [Heap.similar_isSome h3]; exact (hwf.2 kv hkv).2⟩
  obtain ⟨w2, g1, g2, _, g4⟩ := resetPosePoses_spec w1.mgr.entities w1 hl1
  have hcount : ∀ p,
      (w.mgr.entities.map (fun kv => Event.entityRemoveAnchor kv.2) ++
        w.mgr.entities.map (fun kv => Event.entitySetInitialPose kv.2 true)).count
          (Event.entityRemoveAnchor p) = (w.mgr.entities.map Prod.snd).count p ∧
      (w.mgr.entities.map (fun kv => Event.entityRemoveAnchor kv.2) ++
        w.mgr.entities.map (fun kv => Event.entitySetInitialPose kv.2 true)).count
          (Event.entitySetInitialPose p true) = (w.mgr.entities.map Prod.snd).count p := by
    intro p
    rw [List.count_append, List.count_append, (count_anchor_calls _ p).1,
      (count_anchor_calls _ p).2, (count_pose_calls _ p).1, (count_pose_calls _ p).2]
    simp
  refine ⟨w2, by simp only [resetPose, h1, g1], by rw [g2, h2], ?_, hcount, ?_⟩
  · rw [g4, h4, h2, List.append_assoc]
  · intro hnd kv hkv
    have hone : (w.mgr.entities.map Prod.snd).count kv.2 = 1 :=
      List.count_eq_one_of_mem hnd (List.mem_map.mpr ⟨kv, hkv, rfl⟩)
    rw [(hcount kv.2).1, (hcount kv.2).2, hone]
    exact ⟨rfl, rfl⟩

/-- Witness for C15: resetPose on the demo world with three entities. -/
theorem C15_witness :
    demoAssembly.WF ∧
    (resetPose demoAssembly).map (fun w => w.trace) = .ok
      [Event.entityRemoveAnchor 10, Event.entityRemoveAnchor 11, Event.entityRemoveAnchor 12,
       Event.entitySetInitialPose 10 true, Event.entitySetInitialPose 11 true,
       Event.entitySetInitialPose 12 true] ∧
    ∃ w1, resetPose demoAssembly = .ok w1 ∧ w1.mgr = demoAssembly.mgr :=
  ⟨by decide, rfl, by
    obtain ⟨w1, h1, h2, _⟩ := C15_resetPose_two_phases demoAssembly (by decide)
    exact ⟨w1, h1, h2⟩⟩

/-! ### Root and main marks per assembly -/

theorem Heap.similar_isRootAt {h h1 : Heap} (s : Heap.similar h h1) (q : Ptr) :
    isRootAt h1 q = isRootAt h q := by
  have := Heap.similar_config s q
  unfold isRootAt
  cases h1' : Heap.load h1 q <;> cases h2 : Heap.load h q <;>
    simp [h1', h2] at this ⊢
  rw [this]

theorem Heap.similar_isMainAt {h h1 : Heap} (s : Heap.similar h h1) (q : Ptr) :
    isMainAt h1 q = isMainAt h q := by
  have := Heap.similar_config s q
  unfold isMainAt
  cases h1' : Heap.load h1 q <;> cases h2 : Heap.load h q <;>
    simp [h1', h2] at this ⊢
  rw [this]

theorem MarksUnique_of_sublist {w w1 : World} (hm : w.MarksUnique)
    (hsub : ∀ kv ∈ w1.mgr.entities, kv ∈ w.mgr.entities)
    (hsim : Heap.similar w.heap w1.heap) : w1.MarksUnique := by
  constructor
  · intro a ha b hb ht hab hra hrb
    rw [Heap.similar_tagAt hsim] at ht hab
    rw [Heap.similar_tagAt hsim] at hab
    rw [Heap.similar_isRootAt hsim] at hra hrb
    exact hm.1 a (hsub a ha) b (hsub b hb) ht hab hra hrb
  · intro a ha b hb ht hab hra hrb
    rw [Heap.similar_tagAt hsim] at ht hab
    rw [Heap.similar_tagAt hsim] at hab
    rw [Heap.similar_isMainAt hsim] at hra hrb
    exact hm.2 a (hsub a ha) b (hsub b hb) ht hab hra hrb

theorem mem_mapAssign {k : Nat} {v : Ptr} {m : List (Nat × Ptr)} {kv : Nat × Ptr}
    (h : kv ∈ mapAssign k v m) : kv = (k, v) ∨ kv ∈ m := by
  induction m with
  | nil => simpa [mapAssign] using h
  | cons a rest ih =>
    obtain ⟨k1, v1⟩ := a
    unfold mapAssign at h
    by_cases h1 : k < k1
    · simp only [h1, if_true] at h
      rcases List.mem_cons.mp h with h | h
      · exact Or.inl h
      · exact Or.inr h
    · by_cases h2 : k = k1
      · subst h2
        simp only [Nat.lt_irrefl, if_true, if_false] at h
        rcases List.mem_cons.mp h with h | h
        · exact Or.inl h
        · exact Or.inr (List.mem_cons_of_mem _ h)
      · simp only [h1, h2, if_false] at h
        rcases List.mem_cons.mp h with h | h
        · exact Or.inr (by rw [h]; exact List.mem_cons_self _ _)
        · rcases ih h with h | h
          · exact Or.inl h
          · exact Or.inr (List.mem_cons_of_mem _ h)

theorem le_foldr_max {q : Nat} {l : List Nat} (h : q ∈ l) : q ≤ l.foldr max 0 := by
  induction l with
  | nil => simp at h
  | cons a rest ih =>
    rcases List.mem_cons.mp h with h | h
    · subst h
      simp
    · have := ih h
      simp only [List.foldr_cons]
      omega

theorem Heap.mem_keys_of_load {h : Heap} {q : Ptr} (hl : (Heap.load h q).isSome = true) :
    q ∈ h.map Prod.fst := by
  induction h with
  | nil => simp [Heap.load, List.lookup] at hl
  | cons a rest ih =>
    obtain ⟨p, e⟩ := a
    by_cases hq : q = p
    · simp [hq]
    · have hb : (q == p) = false := by simpa using hq
      have hl' : (Heap.load rest q).isSome = true := by
        simpa [Heap.load, List.lookup, hb] using hl
      exact List.mem_cons_of_mem _ (ih hl')

theorem Heap.ne_fresh_of_load {h : Heap} {q : Ptr} (hl : (Heap.load h q).isSome = true) :
    q ≠ Heap.fresh h := by
  have hle : q ≤ (h.map Prod.fst).foldr max 0 := le_foldr_max (Heap.mem_keys_of_load hl)
  intro heq
  have hq : q = (h.map Prod.fst).foldr max 0 + 1 := heq
  rw [hq] at hle
  exact Nat.not_succ_le_self _ hle

theorem removeEntity_found_spec (mp : String → String → Bool) {w w0 : World} {name : String}
    {p : Ptr} (c : Bool) (hwf : w.WF) (hres : getEntity name w = .ok (p, w0)) (hp : p ≠ 0) :
    ∃ w1, removeEntity mp name c w = .ok w1 ∧
      (∀ kv ∈ w1.mgr.entities, kv ∈ w.mgr.entities) ∧ Heap.similar w.heap w1.heap := by
  obtain ⟨hw0, k, hfind⟩ := getEntity_found_entry hwf hres hp
  subst hw0
  have hmem : (k, p) ∈ w0.mgr.entities := List.mem_of_find?_eq_some hfind
  obtain ⟨e, he, hd⟩ := deref_of_live hp (hwf.2 _ hmem).2
  obtain ⟨ws, s1, s2, _, _, s3, _, _⟩ := removeEntitySingle_spec w0 name k p hwf hfind
  have hsingle : (∀ kv ∈ ws.mgr.entities, kv ∈ w0.mgr.entities) := by
    intro kv hkv
    rw [s2] at hkv
    exact List.mem_of_mem_erase hkv
  cases c with
  | false =>
    exact ⟨ws, by simp only [removeEntity, hres, s1, Bool.false_eq_true, if_false], hsingle, s3⟩
  | true =>
    by_cases ht : e.getAssembly = ""
    · exact ⟨ws, by simp only [removeEntity, hres, hd, if_true, ht, ne_eq, not_true_eq_false,
        if_false, s1], hsingle, s3⟩
    · obtain ⟨wa, a1, a2, a3, _⟩ := removeAssembly_spec mp w0 e.getAssembly hwf
      refine ⟨wa, by simp only [removeEntity, hres, hd, if_true, ht, ne_eq, not_false_eq_true, a1],
        ?_, a3⟩
      intro kv hkv
      rw [a2] at hkv
      exact (List.mem_filter.mp hkv).1

/-- Claim C20, amended: the registry does not establish the uniqueness of root and main
marks, it only keeps it under the operations that do not touch configs.  In a
well-formed state in which no two distinct entries of the same non-empty
assembly tag are both root and no two are both main entity, this is still so
after addEntity(name), after removeAssembly(A), and after removeEntity(name, c)
for a name that resolves. -/
theorem C20_marks_kept_by_add_and_remove (matchPattern : String → String → Bool) (w : World)
    (hwf : w.WF) (hmarks : w.MarksUnique) :
    (∀ name, (addEntity name w).2.MarksUnique) ∧
    (∀ A, ∃ w1, removeAssembly matchPattern A w = .ok w1 ∧ w1.MarksUnique) ∧
    (∀ name c p w0, getEntity name w = .ok (p, w0) → p ≠ 0 →
      ∃ w1, removeEntity matchPattern name c w = .ok w1 ∧ w1.MarksUnique) := by
  refine ⟨?_, ?_, ?_⟩
  · intro name
    have hent : (addEntity name w).2.mgr.entities =
        mapAssign w.mgr.next_entity_id (Heap.fresh w.heap) w.mgr.entities := by
      simp [addEntity, addEntityRuns, notifySubscribersRuns, getNextId, notifySubscribers]
    have hheap : (addEntity name w).2.heap =
        Heap.store w.heap (Heap.fresh w.heap) (SimEntity.create name) := by
      simp [addEntity, addEntityRuns, notifySubscribersRuns, getNextId, notifySubscribers]
    have hold : ∀ kv ∈ w.mgr.entities,
        Heap.load (addEntity name w).2.heap kv.2 = Heap.load w.heap kv.2 := by
      intro kv hkv
      rw [hheap]
      exact Heap.load_store_other _ _ (Heap.ne_fresh_of_load (hwf.2 kv hkv).2)
    have hnewR : isRootAt (addEntity name w).2.heap (Heap.fresh w.heap) = false := by
      rw [hheap]
      simp [isRootAt, Heap.load_store_self, SimEntity.create, SimEntity.getConfig,
        ConfigMap.hasKey, List.lookup]
    have hnewM : isMainAt (addEntity name w).2.heap (Heap.fresh w.heap) = false := by
      rw [hheap]
      simp [isMainAt, Heap.load_store_self, SimEntity.create, SimEntity.getConfig,
        ConfigMap.hasKey, List.lookup]
    have htag : ∀ kv ∈ w.mgr.entities,
        tagAt (addEntity name w).2.heap kv.2 = tagAt w.heap kv.2 := by
      intro kv hkv; simp only [tagAt, hold kv hkv]
    have hroot : ∀ kv ∈ w.mgr.entities,
        isRootAt (addEntity name w).2.heap kv.2 = isRootAt w.heap kv.2 := by
      intro kv hkv; simp only [isRootAt, hold kv hkv]
    have hmain : ∀ kv ∈ w.mgr.entities,
        isMainAt (addEntity name w).2.heap kv.2 = isMainAt w.heap kv.2 := by
      intro kv hkv; simp only [isMainAt, hold kv hkv]
    constructor
    · intro a ha b hb ht hab hra hrb
      rw [hent] at ha hb
      rcases mem_mapAssign ha with ha | ha
      · rw [ha] at hra; simp [hnewR] at hra
      · rcases mem_mapAssign hb with hb | hb
        · rw [hb] at hrb; simp [hnewR] at hrb
        · rw [htag a ha] at ht hab
          rw [htag b hb] at hab
          rw [hroot a ha] at hra
          rw [hroot b hb] at hrb
          exact hmarks.1 a ha b hb ht hab hra hrb
    · intro a ha b hb ht hab hra hrb
      rw [hent] at ha hb
      rcases mem_mapAssign ha with ha | ha
      · rw [ha] at hra; simp [hnewM] at hra
      · rcases mem_mapAssign hb with hb | hb
        · rw [hb] at hrb; simp [hnewM] at hrb
        · rw [htag a ha] at ht hab
          rw [htag b hb] at hab
          rw [hmain a ha] at hra
          rw [hmain b hb] at hrb
          exact hmarks.2 a ha b hb ht hab hra hrb
  · intro A
    obtain ⟨w1, h1, h2, h3, _⟩ := removeAssembly_spec matchPattern w A hwf
    refine ⟨w1, h1, MarksUnique_of_sublist hmarks ?_ h3⟩
    intro kv hkv
    rw [h2] at hkv
    exact (List.mem_filter.mp hkv).1
  · intro name c p w0 hres hp
    obtain ⟨w1, h1, h2, h3⟩ := removeEntity_found_spec matchPattern c hwf hres hp
    exact ⟨w1, h1, MarksUnique_of_sublist hmarks h2 h3⟩

/-- Claim C20 fails as stated: after three addEntity calls and three appendConfig calls on
a fresh manager, assembly X has two entities with root true and two with
main_entity true, and assembly Y has a member but no entity with root true. -/
theorem C20_counterexample :
    (runOps globMatch demoMarkOps (World.fresh [])).map (fun w => (rootsOf w "X").length)
      = .ok 2 ∧
    (runOps globMatch demoMarkOps (World.fresh [])).map (fun w => (mainsOf w "X").length)
      = .ok 2 ∧
    (runOps globMatch demoMarkOps (World.fresh [])).map (fun w => (membersOf w "Y").length)
      = .ok 1 ∧
    (runOps globMatch demoMarkOps (World.fresh [])).map (fun w => (rootsOf w "Y").length)
      = .ok 0 :=
  ⟨rfl, rfl, rfl, rfl⟩

/-- Witness for C20 (amended): the demo world has one root and one main entity in
assemblyX. -/
theorem C20_witness :
    demoAssembly.WF ∧ demoAssembly.MarksUnique ∧
    (addEntity "new" demoAssembly).2.MarksUnique ∧
    ∃ w1, removeAssembly globMatch "assemblyX" demoAssembly = .ok w1 ∧ w1.MarksUnique :=
  ⟨by decide, by decide,
    (C20_marks_kept_by_add_and_remove globMatch demoAssembly (by decide) (by decide)).1 "new",
    (C20_marks_kept_by_add_and_remove globMatch demoAssembly (by decide) (by decide)).2.1
      "assemblyX"⟩

/-! ### Root and main entity are members of the assembly; subscribers see stored entities -/

/-- Claim C25: on a well-formed registry getEntitiesOfAssembly(A) returns a list, and a
non-null result of getRootOfAssembly(A) or of getMainEntityOfAssembly(A) is an
element of that list. -/
theorem C25_root_and_main_in_assembly (matchPattern : String → String → Bool) (w : World)
    (A : String) (hwf : w.WF) :
    ∃ out, getEntitiesOfAssembly matchPattern A w = .ok out ∧
      (∀ p, getRootOfAssembly matchPattern A w = .ok p → p ≠ 0 → p ∈ out) ∧
      (∀ p, getMainEntityOfAssembly matchPattern A w = .ok p → p ≠ 0 → p ∈ out) := by
  have hout := getEntitiesOfAssemblyLoop_eq_filter matchPattern w.heap A w.mgr.entities hwf.2
  have hroot := getRootOfAssemblyLoop_eq_find matchPattern w.heap A w.mgr.entities hwf.2
  have hmain := getMainEntityOfAssemblyLoop_eq_find matchPattern w.heap A w.mgr.entities hwf.2
  have hrootmem : ∀ p, getRootOfAssembly matchPattern A w = .ok p → p ≠ 0 →
      p ∈ (w.mgr.entities.filter (fun kv => matchPattern A (tagAt w.heap kv.2))).map Prod.snd := by
    intro p hp hne
    rw [getRootOfAssembly, hroot] at hp
    cases hf : w.mgr.entities.find?
        (fun kv => matchPattern A (tagAt w.heap kv.2) && isRootAt w.heap kv.2) with
    | none =>
      rw [hf] at hp
      cases hp
      exact absurd rfl hne
    | some kv =>
      rw [hf] at hp
      cases hp
      have hmem := List.mem_of_find?_eq_some hf
      have hP := List.find?_some hf
      simp only [Bool.and_eq_true] at hP
      exact List.mem_map.mpr ⟨kv, List.mem_filter.mpr ⟨hmem, hP.1⟩, rfl⟩
  refine ⟨_, hout, hrootmem, ?_⟩
  intro p hp hne
  unfold getMainEntityOfAssembly at hp
  rw [hmain] at hp
  cases hf : w.mgr.entities.find?
      (fun kv => matchPattern A (tagAt w.heap kv.2) && isMainAt w.heap kv.2) with
  | none =>
    rw [hf] at hp
    exact hrootmem p hp hne
  | some kv =>
    rw [hf] at hp
    cases hp
    have hmem := List.mem_of_find?_eq_some hf
    have hP := List.find?_some hf
    simp only [Bool.and_eq_true] at hP
    exact List.mem_map.mpr ⟨kv, List.mem_filter.mpr ⟨hmem, hP.1⟩, rfl⟩

/-- Witness for C25: root and main entity of assemblyX in the demo world. -/
theorem C25_witness :
    demoAssembly.WF ∧ getEntitiesOfAssembly globMatch "assemblyX" demoAssembly = .ok [10, 11] ∧
    getRootOfAssembly globMatch "assemblyX" demoAssembly = .ok 10 ∧
    getMainEntityOfAssembly globMatch "assemblyX" demoAssembly = .ok 11 ∧
    ∃ out, getEntitiesOfAssembly globMatch "assemblyX" demoAssembly = .ok out ∧
      (∀ p, getRootOfAssembly globMatch "assemblyX" demoAssembly = .ok p → p ≠ 0 → p ∈ out) :=
  ⟨by decide, rfl, rfl, rfl, by
    obtain ⟨out, h1, h2, _⟩ :=
      C25_root_and_main_in_assembly globMatch demoAssembly "assemblyX" (by decide)
    exact ⟨out, h1, h2⟩⟩

theorem mem_mapAssign_self (k : Nat) (v : Ptr) (m : List (Nat × Ptr)) :
    (k, v) ∈ mapAssign k v m := by
  induction m with
  | nil => simp [mapAssign]
  | cons a rest ih =>
    obtain ⟨k1, v1⟩ := a
    unfold mapAssign
    by_cases h1 : k < k1
    · simp [h1]
    · by_cases h2 : k = k1
      · simp [h2]
      · simp only [h1, h2, if_false]
        exact List.mem_cons_of_mem _ ih

theorem callbackRuns_subscribers (entity : Ptr) (subs : List Ptr) :
    ∀ w : World, (callbackRuns entity subs w).map CallbackRun.subscriber = subs := by
  induction subs with
  | nil => intro w; rfl
  | cons s rest ih =>
    intro w
    simp only [callbackRuns, List.map_cons, ih]

theorem callbackRuns_spec (entity : Ptr) (subs : List Ptr) :
    ∀ (w : World) (r : CallbackRun), r ∈ callbackRuns entity subs w →
      r.entity = entity ∧ r.world.heap = w.heap ∧ r.world.mgr = w.mgr ∧
      ∃ pre post, subs = pre ++ r.subscriber :: post ∧
        r.world.trace = w.trace ++ pre.map (fun s => Event.registerEntity s entity) := by
  induction subs with
  | nil =>
    intro w r hr
    simp [callbackRuns] at hr
  | cons s rest ih =>
    intro w r hr
    simp only [callbackRuns] at hr
    rcases List.mem_cons.mp hr with h | h
    · subst h
      exact ⟨rfl, rfl, rfl, [], rest, rfl, by simp⟩
    · obtain ⟨h1, h2, h3, pre, post, h4, h5⟩ := ih _ r h
      refine ⟨h1, h2, h3, s :: pre, post, by rw [h4]; rfl, ?_⟩
      rw [h5]
      simp

/-- Claim C26: for either overload of addEntity and every state, every subscriber's
registerEntity callback is run once, in list order, with the entity of the
call, and the world in which it runs (after the callbacks of the earlier
subscribers) already holds that entity in the registry map under the id the
call returns, the map being the one the call leaves; getEntity(id) on the
world the call leaves returns the entity every callback was handed. -/
theorem C26_callbacks_see_stored_entity (w : World) :
    (∀ e : Ptr,
      (addEntityPtrRuns e w).2.1.map CallbackRun.subscriber = w.mgr.subscribers ∧
      (∀ r ∈ (addEntityPtrRuns e w).2.1,
        r.entity = e ∧
        ((addEntityPtr e w).1, e) ∈ r.world.mgr.entities ∧
        getEntityById (addEntityPtr e w).1 r.world = e ∧
        r.world.mgr.entities = (addEntityPtr e w).2.mgr.entities ∧
        r.entity = getEntityById (addEntityPtr e w).1 (addEntityPtr e w).2 ∧
        ∃ pre post, w.mgr.subscribers = pre ++ r.subscriber :: post ∧
          r.world.trace = w.trace ++ pre.map (fun s => Event.registerEntity s e)) ∧
      (addEntityPtr e w).2.trace =
        w.trace ++ w.mgr.subscribers.map (fun s => Event.registerEntity s e) ∧
      getEntityById (addEntityPtr e w).1 (addEntityPtr e w).2 = e) ∧
    (∀ name : String,
      (addEntityRuns name w).2.1.map CallbackRun.subscriber = w.mgr.subscribers ∧
      (∀ r ∈ (addEntityRuns name w).2.1,
        r.entity = Heap.fresh w.heap ∧
        nameAt r.world.heap r.entity = some name ∧
        ((addEntity name w).1, r.entity) ∈ r.world.mgr.entities ∧
        getEntityById (addEntity name w).1 r.world = r.entity ∧
        r.world.mgr.entities = (addEntity name w).2.mgr.entities ∧
        r.entity = getEntityById (addEntity name w).1 (addEntity name w).2 ∧
        ∃ pre post, w.mgr.subscribers = pre ++ r.subscriber :: post ∧
          r.world.trace =
            w.trace ++ pre.map (fun s => Event.registerEntity s (Heap.fresh w.heap))) ∧
      (addEntity name w).2.trace =
        w.trace ++ w.mgr.subscribers.map (fun s => Event.registerEntity s (Heap.fresh w.heap)) ∧
      getEntityById (addEntity name w).1 (addEntity name w).2 = Heap.fresh w.heap) := by
  constructor
  · intro e
    have hafter : getEntityById (addEntityPtr e w).1 (addEntityPtr e w).2 = e := by
      simp [getEntityById, addEntityPtr, addEntityPtrRuns, notifySubscribersRuns, getNextId, notifySubscribers,
        getEntityByIdLoop_mapAssign]
    refine ⟨?_, ?_, ?_, hafter⟩
    · simp only [addEntityPtrRuns, notifySubscribersRuns, getNextId]
      exact callbackRuns_subscribers _ _ _
    · intro r hr
      simp only [addEntityPtrRuns, notifySubscribersRuns, getNextId] at hr
      obtain ⟨h1, _, h3, pre, post, h4, h5⟩ := callbackRuns_spec _ _ _ r hr
      have hent : r.world.mgr.entities = mapAssign w.mgr.next_entity_id e w.mgr.entities := by
        rw [h3]
      refine ⟨h1, ?_, ?_, ?_, ?_, pre, post, h4, h5⟩
      · rw [hent]
        exact mem_mapAssign_self _ _ _
      · simp only [getEntityById, hent]
        exact getEntityByIdLoop_mapAssign _ _ _
      · rw [hent]
        rfl
      · rw [hafter, h1]
    · simp [addEntityPtr, addEntityPtrRuns, notifySubscribersRuns, getNextId, notifySubscribers]
  · intro name
    have hafter : getEntityById (addEntity name w).1 (addEntity name w).2 = Heap.fresh w.heap := by
      simp [getEntityById, addEntity, addEntityRuns, notifySubscribersRuns, getNextId, notifySubscribers,
        getEntityByIdLoop_mapAssign]
    refine ⟨?_, ?_, ?_, hafter⟩
    · simp only [addEntityRuns, notifySubscribersRuns, getNextId]
      exact callbackRuns_subscribers _ _ _
    · intro r hr
      simp only [addEntityRuns, notifySubscribersRuns, getNextId, mapAt_mapAssign] at hr
      obtain ⟨h1, h2, h3, pre, post, h4, h5⟩ := callbackRuns_spec _ _ _ r hr
      have hent : r.world.mgr.entities =
          mapAssign w.mgr.next_entity_id (Heap.fresh w.heap) w.mgr.entities := by
        rw [h3]
      refine ⟨h1, ?_, ?_, ?_, ?_, ?_, pre, post, h4, h5⟩
      · rw [h1, h2]
        simp [nameAt, Heap.load_store_self, SimEntity.create, SimEntity.getName]
      · rw [hent, h1]
        exact mem_mapAssign_self _ _ _
      · simp only [getEntityById, hent, h1]
        exact getEntityByIdLoop_mapAssign _ _ _
      · rw [hent]
        rfl
      · rw [hafter, h1]
    · simp [addEntity, addEntityRuns, notifySubscribersRuns, getNextId, notifySubscribers, mapAt_mapAssign]

/-- Witness for C26: an entity added to a manager with the subscribers 100 and 101. -/
theorem C26_witness :
    (addEntityPtr 5 demoSubscribed).1 = 1 ∧
    (addEntityPtrRuns 5 demoSubscribed).2.1.map CallbackRun.subscriber = [100, 101] ∧
    (∀ r ∈ (addEntityPtrRuns 5 demoSubscribed).2.1,
      r.entity = 5 ∧ (1, 5) ∈ r.world.mgr.entities ∧ getEntityById 1 r.world = 5) ∧
    getEntityById 1 (addEntityPtr 5 demoSubscribed).2 = 5 ∧
    (addEntityRuns "y" demoSubscribed).2.1.map CallbackRun.subscriber = [100, 101] :=
  ⟨rfl, ((C26_callbacks_see_stored_entity demoSubscribed).1 5).1,
    fun r hr =>
      ⟨(((C26_callbacks_see_stored_entity demoSubscribed).1 5).2.1 r hr).1,
       (((C26_callbacks_see_stored_entity demoSubscribed).1 5).2.1 r hr).2.1,
       (((C26_callbacks_see_stored_entity demoSubscribed).1 5).2.1 r hr).2.2.1⟩,
    ((C26_callbacks_see_stored_entity demoSubscribed).1 5).2.2.2,
    ((C26_callbacks_see_stored_entity demoSubscribed).2 "y").1⟩

/-- Claim C24, the code at a failing input: addEntity(SimEntity*) accepts a null pointer
and stores it under id 1; from then on every name-based operation that
dereferences entries without a check faults on the null entry, while
selectEvent, which checks for null, skips it. -/
theorem C24_null_entry_reachable_and_dereferenced :
    runOps globMatch [RegistryOp.addEntityPtr 0] (World.fresh []) = .ok demoNullEntry ∧
    demoNullEntry.mgr.entities = [(1, 0)] ∧
    getEntity "x" demoNullEntry = .error Fault.nullDeref ∧
    getEntities globMatch "x" demoNullEntry = .error Fault.nullDeref ∧
    getEntitiesOfAssembly globMatch "x" demoNullEntry = .error Fault.nullDeref ∧
    getRootOfAssembly globMatch "x" demoNullEntry = .error Fault.nullDeref ∧
    addNode "x" 1 "n" demoNullEntry = .error Fault.nullDeref ∧
    appendConfig "x" [] demoNullEntry = .error Fault.nullDeref ∧
    resetPose demoNullEntry = .error Fault.nullDeref ∧
    selectEvent 5 true demoNullEntry = .ok demoNullEntry :=
  ⟨rfl, rfl, rfl, rfl, rfl, rfl, rfl, rfl, rfl, rfl⟩

/-! ### Keys of the map against the id counter -/

theorem eraseFirstHolding_subset {p : Ptr} {es : List (Nat × Ptr)} {kv : Nat × Ptr}
    (h : kv ∈ eraseFirstHolding p es) : kv ∈ es := by
  induction es with
  | nil => simp [eraseFirstHolding] at h
  | cons a rest ih =>
    obtain ⟨k, v⟩ := a
    unfold eraseFirstHolding at h
    by_cases hv : v = p
    · simp only [hv, if_true] at h
      exact List.mem_cons_of_mem _ h
    · simp only [hv, if_false] at h
      rcases List.mem_cons.mp h with h | h
      · rw [h]; exact List.mem_cons_self _ _
      · exact List.mem_cons_of_mem _ (ih h)

theorem removeAssemblyPart_subset {p : Ptr} {w w1 : World}
    (h : removeAssemblyPart p w = .ok w1) : ∀ kv ∈ w1.mgr.entities, kv ∈ w.mgr.entities := by
  unfold removeAssemblyPart at h
  split at h
  · split at h
    · cases h
    · rw [callEntityRemoveEntity_mgr h]
      intro kv hkv
      exact eraseFirstHolding_subset hkv
  · rw [callEntityRemoveEntity_mgr h]
    intro kv hkv
    exact hkv

theorem removeAssemblyLoop_subset (parts : List Ptr) : ∀ {w w1 : World},
    removeAssemblyLoop parts w = .ok w1 → ∀ kv ∈ w1.mgr.entities, kv ∈ w.mgr.entities := by
  induction parts with
  | nil => intro w w1 h; cases h; exact fun _ hkv => hkv
  | cons p ps ih =>
    intro w w1 h
    simp only [removeAssemblyLoop] at h
    split at h
    · cases h
    · rename_i w2 h2
      intro kv hkv
      exact removeAssemblyPart_subset h2 kv (ih h kv hkv)

theorem removeAssembly_subset {mp : String → String → Bool} {a : String} {w w1 : World}
    (h : removeAssembly mp a w = .ok w1) : ∀ kv ∈ w1.mgr.entities, kv ∈ w.mgr.entities := by
  unfold removeAssembly at h
  split at h
  · cases h
  · exact removeAssemblyLoop_subset _ h

theorem removeEntitySingle_subset {p : Ptr} {w w1 : World}
    (h : removeEntitySingle p w = .ok w1) : ∀ kv ∈ w1.mgr.entities, kv ∈ w.mgr.entities := by
  unfold removeEntitySingle at h
  rw [callEntityRemoveEntity_mgr h]
  intro kv hkv
  exact eraseFirstHolding_subset hkv

theorem removeEntity_subset {mp : String → String → Bool} {name : String} {c : Bool}
    {w w1 : World} (h : removeEntity mp name c w = .ok w1) :
    ∀ kv ∈ w1.mgr.entities, kv ∈ w.mgr.entities := by
  unfold removeEntity at h
  split at h
  · cases h
  · rename_i entity w2 hg
    have hs := getEntityVerbose_state hg
    split at h
    · split at h
      · cases h
      · split at h
        · have := removeAssembly_subset h
          rw [hs.1] at this; exact this
        · have := removeEntitySingle_subset h
          rw [hs.1] at this; exact this
    · have := removeEntitySingle_subset h
      rw [hs.1] at this; exact this

theorem appendConfig_mgr {name : String} {map : ConfigMap} {w w1 : World}
    (h : appendConfig name map w = .ok w1) : w1.mgr = w.mgr := by
  unfold appendConfig at h
  split at h
  · cases h
  · split at h
    · split at h
      · cases h
      · cases h; rfl
    · cases h; rfl

theorem mapAssign_append_of_lt (k : Nat) (v : Ptr) (es : List (Nat × Ptr))
    (hlt : ∀ kv ∈ es, kv.1 < k) : mapAssign k v es = es ++ [(k, v)] := by
  induction es with
  | nil => rfl
  | cons a rest ih =>
    obtain ⟨k1, v1⟩ := a
    have h1 : k1 < k := hlt (k1, v1) (List.mem_cons_self _ _)
    have h2 : ¬ k < k1 := by omega
    have h3 : k ≠ k1 := by omega
    simp only [mapAssign, h2, h3, if_false, List.cons_append]
    rw [ih (fun kv hkv => hlt kv (List.mem_cons_of_mem _ hkv))]

theorem addEntityPtr_mgr (e : Ptr) (w : World) :
    (addEntityPtr e w).1 = w.mgr.next_entity_id ∧
    (addEntityPtr e w).2.mgr.entities = mapAssign w.mgr.next_entity_id e w.mgr.entities ∧
    (addEntityPtr e w).2.mgr.next_entity_id = (w.mgr.next_entity_id + 1) % ULONG_RANGE := by
  simp [addEntityPtr, addEntityPtrRuns, notifySubscribersRuns, getNextId, notifySubscribers]

theorem addEntity_mgr (name : String) (w : World) :
    (addEntity name w).1 = w.mgr.next_entity_id ∧
    (addEntity name w).2.mgr.entities =
      mapAssign w.mgr.next_entity_id (Heap.fresh w.heap) w.mgr.entities ∧
    (addEntity name w).2.mgr.next_entity_id = (w.mgr.next_entity_id + 1) % ULONG_RANGE := by
  simp [addEntity, addEntityRuns, notifySubscribersRuns, getNextId, notifySubscribers]

theorem KeysInRange_after_insert {w w1 : World} {v : Ptr} (hk : w.KeysInRange)
    (h1 : 1 ≤ w.mgr.next_entity_id) (hlt : w.mgr.next_entity_id + 1 < ULONG_RANGE)
    (hent : w1.mgr.entities = mapAssign w.mgr.next_entity_id v w.mgr.entities)
    (hnext : w1.mgr.next_entity_id = (w.mgr.next_entity_id + 1) % ULONG_RANGE) :
    w1.KeysInRange ∧ w1.mgr.next_entity_id = w.mgr.next_entity_id + 1 := by
  have hn : w1.mgr.next_entity_id = w.mgr.next_entity_id + 1 := by
    rw [hnext, Nat.mod_eq_of_lt hlt]
  refine ⟨?_, hn⟩
  intro kv hkv
  rw [hent] at hkv
  rw [hn]
  rcases mem_mapAssign hkv with h | h
  · rw [h]
    exact ⟨h1, Nat.lt_succ_self _⟩
  · have := hk kv h
    exact ⟨this.1, Nat.lt_succ_of_lt this.2⟩

theorem runOps_keys (mp : String → String → Bool) (ops : List RegistryOp) :
    ∀ w w1 : World, 1 ≤ w.mgr.next_entity_id →
      w.mgr.next_entity_id + ops.countP RegistryOp.isAdd < ULONG_RANGE → w.KeysInRange →
      runOps mp ops w = .ok w1 →
      w1.KeysInRange ∧
      w1.mgr.next_entity_id = w.mgr.next_entity_id + ops.countP RegistryOp.isAdd := by
  induction ops with
  | nil =>
    intro w w1 _ _ hk h
    cases h
    exact ⟨hk, by simp⟩
  | cons op ops ih =>
    intro w w1 h1 hb hk hrun
    simp only [runOps] at hrun
    cases op with
    | addEntity name =>
      simp only [List.countP_cons, RegistryOp.isAdd, if_true] at hb ⊢
      simp only [RegistryOp.exec] at hrun
      obtain ⟨_, hent, hnext⟩ := addEntity_mgr name w
      obtain ⟨hk1, hn1⟩ := KeysInRange_after_insert hk h1 (by omega) hent hnext
      obtain ⟨r1, r2⟩ := ih (addEntity name w).2 w1 (by omega) (by omega) hk1 hrun
      exact ⟨r1, by omega⟩
    | addEntityPtr e =>
      simp only [List.countP_cons, RegistryOp.isAdd, if_true] at hb ⊢
      simp only [RegistryOp.exec] at hrun
      obtain ⟨_, hent, hnext⟩ := addEntityPtr_mgr e w
      obtain ⟨hk1, hn1⟩ := KeysInRange_after_insert hk h1 (by omega) hent hnext
      obtain ⟨r1, r2⟩ := ih (addEntityPtr e w).2 w1 (by omega) (by omega) hk1 hrun
      exact ⟨r1, by omega⟩
    | appendConfig name map =>
      simp only [List.countP_cons, RegistryOp.isAdd] at hb ⊢
      simp only [RegistryOp.exec] at hrun
      cases hr : mars.appendConfig name map w with
      | error f => simp [hr] at hrun
      | ok w2 =>
        simp only [hr] at hrun
        have hm := appendConfig_mgr hr
        have hk2 : w2.KeysInRange := by
          intro kv hkv
          rw [hm] at hkv ⊢
          exact hk kv hkv
        obtain ⟨r1, r2⟩ := ih w2 w1 (by rw [hm]; exact h1) (by rw [hm]; simpa using hb) hk2 hrun
        exact ⟨r1, by rw [r2, hm]; simp⟩
    | removeEntity name c =>
      simp only [List.countP_cons, RegistryOp.isAdd] at hb ⊢
      simp only [RegistryOp.exec] at hrun
      cases hr : mars.removeEntity mp name c w with
      | error f => simp [hr] at hrun
      | ok w2 =>
        simp only [hr] at hrun
        have hc := (removeEntity_counter hr).1
        have hk2 : w2.KeysInRange := by
          intro kv hkv
          rw [hc]
          exact hk kv (removeEntity_subset hr kv hkv)
        obtain ⟨r1, r2⟩ := ih w2 w1 (by rw [hc]; exact h1) (by rw [hc]; simpa using hb) hk2 hrun
        exact ⟨r1, by rw [r2, hc]; simp⟩
    | removeAssembly a =>
      simp only [List.countP_cons, RegistryOp.isAdd] at hb ⊢
      simp only [RegistryOp.exec] at hrun
      cases hr : mars.removeAssembly mp a w with
      | error f => simp [hr] at hrun
      | ok w2 =>
        simp only [hr] at hrun
        have hc := (removeAssembly_counter hr).1
        have hk2 : w2.KeysInRange := by
          intro kv hkv
          rw [hc]
          exact hk kv (removeAssembly_subset hr kv hkv)
        obtain ⟨r1, r2⟩ := ih w2 w1 (by rw [hc]; exact h1) (by rw [hc]; simpa using hb) hk2 hrun
        exact ⟨r1, by rw [r2, hc]; simp⟩

/-- Claim C23: in every state reached from a fresh manager by a sequence of public
operations with fewer than ULONG_RANGE - 1 addEntity calls (the counter is an
unsigned long), every key of the map is at least 1 and below the id counter;
hence addEntity, by pointer or by name, returns an id that is no key of the
map, the new map is the old one with the entry for that id appended (one entry
more, every old entry kept). -/
theorem C23_keys_below_counter (matchPattern : String → String → Bool) (h : Heap)
    (ops : List RegistryOp) (w : World)
    (hbound : ops.countP RegistryOp.isAdd + 1 < ULONG_RANGE)
    (hreach : runOps matchPattern ops (World.fresh h) = .ok w) :
    (∀ kv ∈ w.mgr.entities, 1 ≤ kv.1 ∧ kv.1 < w.mgr.next_entity_id) ∧
    (∀ e : Ptr,
      (∀ p, ((addEntityPtr e w).1, p) ∉ w.mgr.entities) ∧
      (addEntityPtr e w).2.mgr.entities = w.mgr.entities ++ [((addEntityPtr e w).1, e)] ∧
      (addEntityPtr e w).2.mgr.entities.length = w.mgr.entities.length + 1 ∧
      (∀ kv ∈ w.mgr.entities, kv ∈ (addEntityPtr e w).2.mgr.entities)) ∧
    (∀ name : String,
      (∀ p, ((addEntity name w).1, p) ∉ w.mgr.entities) ∧
      (addEntity name w).2.mgr.entities =
        w.mgr.entities ++ [((addEntity name w).1, Heap.fresh w.heap)] ∧
      (addEntity name w).2.mgr.entities.length = w.mgr.entities.length + 1 ∧
      (∀ kv ∈ w.mgr.entities, kv ∈ (addEntity name w).2.mgr.entities)) := by
  have hfresh : (World.fresh h).KeysInRange := by
    intro kv hkv
    simp [World.fresh, EntityManager.init] at hkv
  obtain ⟨hk, _⟩ := runOps_keys matchPattern ops (World.fresh h) w
    (by simp [World.fresh, EntityManager.init])
    (by simp only [World.fresh, EntityManager.init]; omega) hfresh hreach
  have hlt : ∀ kv ∈ w.mgr.entities, kv.1 < w.mgr.next_entity_id := fun kv hkv => (hk kv hkv).2
  refine ⟨hk, ?_, ?_⟩
  · intro e
    obtain ⟨hid, hent, _⟩ := addEntityPtr_mgr e w
    rw [hid, hent, mapAssign_append_of_lt _ _ _ hlt]
    refine ⟨?_, rfl, by simp, fun kv hkv => List.mem_append_left _ hkv⟩
    intro p hp
    exact Nat.lt_irrefl _ (hlt _ hp)
  · intro name
    obtain ⟨hid, hent, _⟩ := addEntity_mgr name w
    rw [hid, hent, mapAssign_append_of_lt _ _ _ hlt]
    refine ⟨?_, rfl, by simp, fun kv hkv => List.mem_append_left _ hkv⟩
    intro p hp
    exact Nat.lt_irrefl _ (hlt _ hp)

/-- Witness for C23: the state after adding two entities, removing one and adding a
third. -/
theorem C23_witness :
    demoRunOps.countP RegistryOp.isAdd + 1 < ULONG_RANGE ∧
    runOps globMatch demoRunOps (World.fresh []) = .ok demoReached ∧
    demoReached.mgr.entities = [(2, 2), (3, 3)] ∧ demoReached.mgr.next_entity_id = 4 ∧
    (∀ kv ∈ demoReached.mgr.entities, 1 ≤ kv.1 ∧ kv.1 < demoReached.mgr.next_entity_id) ∧
    (addEntityPtr 9 demoReached).2.mgr.entities = demoReached.mgr.entities ++ [(4, 9)] :=
  ⟨by decide, rfl, rfl, rfl,
    (C23_keys_below_counter globMatch [] demoRunOps demoReached (by decide) rfl).1,
    ((C23_keys_below_counter globMatch [] demoRunOps demoReached (by decide) rfl).2.1 9).2.1⟩

/-! ### Locking discipline -/

theorem writeInSearchSync_disciplined (h : Heap) (name : String) (es : List (Nat × Ptr)) :
    ∀ steps, writeInSearchSync h name es = .ok steps → lockDiscipline false steps = true := by
  induction es with
  | nil =>
    intro steps hs
    cases hs
    rfl
  | cons a rest ih =>
    obtain ⟨k, p⟩ := a
    intro steps hs
    simp only [writeInSearchSync] at hs
    cases hd : deref h p with
    | error f => simp [hd] at hs
    | ok e =>
      simp only [hd] at hs
      by_cases hn : e.getName = name
      · simp only [hn, if_true] at hs
        cases hs
        rfl
      · simp only [hn, if_false] at hs
        exact ih steps hs

/-- Claim C21, the code at a failing input: addEntity, appendConfig, addNode, addMotor,
addJoint and addController write only while a MutexLocker on iMutex is alive,
in every state; removeEntity("x") on a registry holding two entities named x
erases a map entry and tears the entity down without ever constructing a
MutexLocker, and removeAssembly("assemblyX") does the same for both members of
the assembly. -/
theorem C21_remove_operations_take_no_lock :
    lockDiscipline false addEntitySync = true ∧
    (∀ (w : World) (name : String) (steps : List SyncStep),
      writeAfterSearchSync name w = .ok steps → lockDiscipline false steps = true) ∧
    (∀ (w : World) (name : String) (steps : List SyncStep),
      writeInSearchSync w.heap name w.mgr.entities = .ok steps →
      lockDiscipline false steps = true) ∧
    removeEntitySync globMatch "x" false demoTwoX
      = .ok [SyncStep.mapWrite, SyncStep.entityWrite 1] ∧
    lockDiscipline false [SyncStep.mapWrite, SyncStep.entityWrite 1] = false ∧
    removeAssemblySync globMatch "assemblyX" demoAssembly
      = .ok [SyncStep.mapWrite, SyncStep.entityWrite 10,
             SyncStep.mapWrite, SyncStep.entityWrite 11] ∧
    lockDiscipline false [SyncStep.mapWrite, SyncStep.entityWrite 10,
      SyncStep.mapWrite, SyncStep.entityWrite 11] = false := by
  refine ⟨rfl, ?_, ?_, rfl, rfl, rfl, rfl⟩
  · intro w name steps hs
    unfold writeAfterSearchSync at hs
    cases hf : findEntityLoop w.heap name w.mgr.entities with
    | error f => simp [hf] at hs
    | ok entity =>
      simp only [hf] at hs
      by_cases he : entity = 0
      · simp only [he, ne_eq, not_true_eq_false, if_false] at hs
        cases hs
        rfl
      · simp only [he, ne_eq, not_false_eq_true, if_true] at hs
        cases hs
        rfl
  · intro w name steps hs
    exact writeInSearchSync_disciplined _ _ _ steps hs

namespace main_gui

theorem splitAtSlashes_ne_nil (s : List Char) : splitAtSlashes s ≠ [] := by
  cases s with
  | nil => simp [splitAtSlashes]
  | cons c cs =>
      unfold splitAtSlashes
      by_cases hc : c = '/'
      · simp [hc]
      · simp only [hc, if_false]
        cases splitAtSlashes cs <;> simp

theorem joinCurrent_nil (l : List (List Char)) (h : l ≠ []) : joinCurrent [] l = l := by
  cases l with
  | nil => exact absurd rfl h
  | cons x xs => simp [joinCurrent]

theorem menuPathScan_eq_split (s : List Char) :
    ∀ (cur : List Char) (mp : List String),
      menuPathScan cur mp s =
        if mp = [] ∧ '/' ∉ s then []
        else mp ++ (joinCurrent cur (splitAtSlashes s)).map String.mk := by
  induction s with
  | nil =>
      intro cur mp
      cases mp with
      | nil => simp [menuPathScan]
      | cons m ms => simp [menuPathScan, splitAtSlashes, joinCurrent]
  | cons c cs ih =>
      intro cur mp
      by_cases hc : c = '/'
      · subst hc
        have h1 : menuPathScan cur mp ('/' :: cs) = menuPathScan [] (mp ++ [String.mk cur]) cs := by
          simp [menuPathScan]
        rw [h1, ih]
        have h2 : ¬ (mp ++ [String.mk cur] = [] ∧ '/' ∉ cs) := by simp
        have h3 : ¬ (mp = [] ∧ '/' ∉ ('/' :: cs)) := by simp
        rw [if_neg h2, if_neg h3, joinCurrent_nil _ (splitAtSlashes_ne_nil cs)]
        simp [splitAtSlashes, joinCurrent]
      · have h1 : menuPathScan cur mp (c :: cs) = menuPathScan (cur ++ [c]) mp cs := by
          simp [menuPathScan, hc]
        have hmem : ('/' ∉ c :: cs) = ('/' ∉ cs) := by
          have : ¬ '/' = c := fun h => hc h.symm
          simp [this]
        rw [h1, ih]
        simp only [hmem]
        have h4 : joinCurrent (cur ++ [c]) (splitAtSlashes cs)
            = joinCurrent cur (splitAtSlashes (c :: cs)) := by
          have hs : splitAtSlashes (c :: cs) =
              (match splitAtSlashes cs with
               | [] => [[c]]
               | x :: xs => (c :: x) :: xs) := by
            simp [splitAtSlashes, hc]
          rw [hs]
          cases splitAtSlashes cs <;> simp [joinCurrent]
        rw [h4]

theorem splitAtSlashes_length (s : List Char) :
    (splitAtSlashes s).length = s.count '/' + 1 := by
  induction s with
  | nil => simp [splitAtSlashes]
  | cons c cs ih =>
      by_cases hc : c = '/'
      · subst hc
        simp [splitAtSlashes, ih]
      · have hs : splitAtSlashes (c :: cs) =
            (match splitAtSlashes cs with
             | [] => [[c]]
             | x :: xs => (c :: x) :: xs) := by
          simp [splitAtSlashes, hc]
        have hcnt : (c :: cs).count '/' = cs.count '/' := by
          rw [List.count_cons]
          simp [hc]
        rw [hs, hcnt, ← ih]
        have hne := splitAtSlashes_ne_nil cs
        cases hsp : splitAtSlashes cs with
        | nil => exact absurd hsp hne
        | cons x xs => simp

theorem splitAtSlashes_intercalate (s : List Char) :
    List.intercalate ['/'] (splitAtSlashes s) = s := by
  induction s with
  | nil => simp [splitAtSlashes, List.intercalate]
  | cons c cs ih =>
      have hne := splitAtSlashes_ne_nil cs
      by_cases hc : c = '/'
      · subst hc
        have hs : splitAtSlashes ('/' :: cs) = [] :: splitAtSlashes cs := by
          simp [splitAtSlashes]
        rw [hs]
        cases hsp : splitAtSlashes cs with
        | nil => exact absurd hsp hne
        | cons x xs =>
            rw [hsp] at ih
            rw [← ih]
            simp [List.intercalate]
      · have hs : splitAtSlashes (c :: cs) =
            (match splitAtSlashes cs with
             | [] => [[c]]
             | x :: xs => (c :: x) :: xs) := by
          simp [splitAtSlashes, hc]
        rw [hs]
        cases hsp : splitAtSlashes cs with
        | nil => exact absurd hsp hne
        | cons x xs =>
            rw [hsp] at ih
            have : List.intercalate ['/'] ((c :: x) :: xs) = c :: List.intercalate ['/'] (x :: xs) := by
              cases xs <;> simp [List.intercalate]
            simp only [this, ih]

theorem splitAtSlashes_no_slash (s : List Char) :
    ∀ x ∈ splitAtSlashes s, '/' ∉ x := by
  induction s with
  | nil => simp [splitAtSlashes]
  | cons c cs ih =>
      by_cases hc : c = '/'
      · subst hc
        intro x hx
        have hs : splitAtSlashes ('/' :: cs) = [] :: splitAtSlashes cs := by
          simp [splitAtSlashes]
        rw [hs] at hx
        rcases List.mem_cons.mp hx with h | h
        · subst h; simp
        · exact ih x h
      · have hs : splitAtSlashes (c :: cs) =
            (match splitAtSlashes cs with
             | [] => [[c]]
             | x :: xs => (c :: x) :: xs) := by
          simp [splitAtSlashes, hc]
        rw [hs]
        cases hsp : splitAtSlashes cs with
        | nil => intro x hx; simp at hx; subst hx; simpa using fun h => hc h.symm
        | cons y ys =>
            rw [hsp] at ih
            intro x hx
            rcases List.mem_cons.mp hx with h | h
            · subst h
              have hy := ih y (List.mem_cons_self _ _)
              intro hmem
              rcases List.mem_cons.mp hmem with h1 | h1
              · exact hc h1.symm
              · exact hy h1
            · exact ih x (List.mem_cons_of_mem _ h)

end main_gui

namespace main_gui

theorem menuPathLoop_eq_scan (P : List Char) (hlen : P.length + 1 < UINT_RANGE) :
    ∀ (rest : List Char) (fuel i j : Nat) (mp : List String),
      P.drop i = rest → j ≤ i → i ≤ P.length → rest.length + 2 ≤ fuel →
      menuPathLoop P fuel i j mp = some (menuPathScan (substr P j (i - j)) mp rest) := by
  have hU : UINT_RANGE = 4294967296 := by norm_num [UINT_RANGE]
  rw [hU] at hlen
  intro rest
  induction rest with
  | nil =>
      intro fuel i j mp hdrop hji hil hfuel
      have hi : i = P.length := by
        have := List.drop_eq_nil_iff.mp hdrop
        omega
      obtain ⟨f, rfl⟩ : ∃ f, fuel = f + 2 := ⟨fuel - 2, by simp at hfuel; omega⟩
      have hget : P.getD i (Char.ofNat 0) = Char.ofNat 0 := by
        rw [List.getD_eq_default]
        omega
      have hns : ¬ (Char.ofNat 0 = '/') := by decide
      have hmod1 : (i + 1) % UINT_RANGE = i + 1 := by rw [hU]; omega
      have hmod2 : (i + UINT_RANGE - j) % UINT_RANGE = i - j := by rw [hU]; omega
      have hlt : i < P.length + 1 := by omega
      have hnlt : ¬ (i + 1 < P.length + 1) := by omega
      have hstep1 : menuPathLoop P (f + 1 + 1) i j mp
          = menuPathLoop P (f + 1) (i + 1) j
              (if 0 < mp.length then mp ++ [String.mk (substr P j (i - j))] else mp) := by
        rw [menuPathLoop]
        simp only [hlt, if_true, hget, hns, decide_False, Bool.false_eq_true, if_false,
          hmod1, hmod2]
        by_cases hm : 0 < mp.length
        · simp [hm, hi]
        · simp [hm]
      have hstep2 : ∀ x, menuPathLoop P (f + 1) (i + 1) j x = some x := by
        intro x
        rw [menuPathLoop]
        simp only [hnlt, if_false]
      rw [hstep1, hstep2]
      rfl
  | cons c cs ih =>
      intro fuel i j mp hdrop hji hil hfuel
      have hi : i < P.length := by
        rcases Nat.lt_or_ge i P.length with h | h
        · exact h
        · rw [List.drop_eq_nil_iff.mpr h] at hdrop
          exact absurd hdrop (by simp)
      obtain ⟨f, rfl⟩ : ∃ f, fuel = f + 1 := ⟨fuel - 1, by simp at hfuel; omega⟩
      have helem : P[i]? = some c := by
        have h0 : (P.drop i)[0]? = some c := by rw [hdrop]; simp
        rw [List.getElem?_drop] at h0
        simpa using h0
      have hget : P.getD i (Char.ofNat 0) = c := by
        rw [List.getD_eq_getElem?_getD, helem]
        rfl
      have hdrop1 : P.drop (i + 1) = cs := by
        rw [← List.drop_drop 1 i P, hdrop]
        rfl
      have hmod1 : (i + 1) % UINT_RANGE = i + 1 := by rw [hU]; omega
      have hmod2 : (i + UINT_RANGE - j) % UINT_RANGE = i - j := by rw [hU]; omega
      have hlt : i < P.length + 1 := by omega
      have hne : ¬ (i = P.length) := by omega
      have hfuel1 : cs.length + 2 ≤ f := by simp at hfuel; omega
      by_cases hc : c = '/'
      · have hstep : menuPathLoop P (f + 1) i j mp
            = menuPathLoop P f (i + 1) (i + 1) (mp ++ [String.mk (substr P j (i - j))]) := by
          simp [menuPathLoop, hlt, helem, hc, hmod1, hmod2, hne]
        rw [hstep, ih f (i + 1) (i + 1) _ hdrop1 (Nat.le_refl _) hi hfuel1]
        have h0 : substr P (i + 1) (i + 1 - (i + 1)) = [] := by simp [substr]
        rw [h0]
        simp [menuPathScan, hc]
      · have hstep : menuPathLoop P (f + 1) i j mp = menuPathLoop P f (i + 1) j mp := by
          simp [menuPathLoop, hlt, helem, hc, hmod1, hne]
        rw [hstep, ih f (i + 1) j mp hdrop1 (by omega) hi hfuel1]
        have h0 : substr P j (i + 1 - j) = substr P j (i - j) ++ [c] := by
          have h1 : i + 1 - j = (i - j) + 1 := by omega
          have h2 : (P.drop j)[i - j]? = some c := by
            rw [List.getElem?_drop]
            have : j + (i - j) = i := by omega
            rw [this, helem]
          rw [substr, substr, h1, List.take_succ, h2]
          rfl
        rw [h0]
        simp [menuPathScan, hc]

theorem parseMenuPath_eq (path : String) (hlen : path.length + 1 < UINT_RANGE) :
    parseMenuPath path =
      some (if '/' ∈ path.toList then (splitAtSlashes path.toList).map String.mk else []) := by
  have h := menuPathLoop_eq_scan path.toList hlen path.toList (path.toList.length + 2) 0 0 []
    rfl (Nat.le_refl _) (Nat.zero_le _) (Nat.le_refl _)
  rw [parseMenuPath, h, menuPathScan_eq_split]
  have h0 : substr path.toList 0 (0 - 0) = [] := by simp [substr]
  rw [h0, joinCurrent_nil _ (splitAtSlashes_ne_nil _)]
  by_cases hs : '/' ∈ path.toList
  · simp [hs]
  · simp [hs]

/-- Claim C28: for a path with at least one slash the component list that
addGenericMenuAction builds is the path split at every slash: there is one
component more than there are slashes, no component contains a slash, and the
components joined with slashes give back the path (so empty components are
kept); for a path without a slash the list is empty.  The path is shorter than
the range of the unsigned int loop counters. -/
theorem C28_menu_path_is_split_at_slashes (path : String)
    (hlen : path.length + 1 < UINT_RANGE) :
    ('/' ∈ path.toList →
      ∃ comps : List String,
        parseMenuPath path = some comps ∧
        comps = (splitAtSlashes path.toList).map String.mk ∧
        comps.length = path.toList.count '/' + 1 ∧
        (∀ c ∈ comps, '/' ∉ c.toList) ∧
        String.mk (List.intercalate ['/'] (comps.map String.toList)) = path) ∧
    ('/' ∉ path.toList → parseMenuPath path = some []) := by
  have h := parseMenuPath_eq path hlen
  constructor
  · intro hs
    refine ⟨(splitAtSlashes path.toList).map String.mk, ?_, rfl, ?_, ?_, ?_⟩
    · rw [h, if_pos hs]
    · rw [List.length_map, splitAtSlashes_length]
    · intro c hc
      obtain ⟨x, hx, rfl⟩ := List.mem_map.mp hc
      exact splitAtSlashes_no_slash _ x hx
    · have hmap : ((splitAtSlashes path.toList).map String.mk).map String.toList
          = splitAtSlashes path.toList := by
        rw [List.map_map]
        exact List.map_id _
      rw [hmap, splitAtSlashes_intercalate]
      rfl
  · intro hs
    rw [h, if_neg hs]

theorem C28_witness :
    ("a//b/".length + 1 < UINT_RANGE) ∧ '/' ∈ "a//b/".toList ∧
    parseMenuPath "a//b/" = some ["a", "", "b", ""] ∧
    parseMenuPath "abc" = some [] := by
  have h := C28_menu_path_is_split_at_slashes "a//b/" (by decide)
  have h2 := C28_menu_path_is_split_at_slashes "abc" (by decide)
  refine ⟨by decide, by decide, ?_, h2.2 (by decide)⟩
  obtain ⟨comps, hp, hc, _⟩ := h.1 (by decide)
  rw [hp, hc]
  rfl

end main_gui

namespace main_gui

theorem getToolbarLineEditTextLoop_spec (g : MainGUI) (id : Int) :
    ∀ l : List (Int × Ptr),
      getToolbarLineEditTextLoop g id l =
        match l.find? (fun e => decide (e.1 = id)) with
        | some e => .ok (lineEditTextOf g e.2)
        | none => .error (.invalid_argument ("Could not find QLineEdit with id " ++ toString id)) := by
  intro l
  induction l with
  | nil => rfl
  | cons e rest ih =>
      obtain ⟨id1, p⟩ := e
      by_cases h : id1 = id
      · simp [getToolbarLineEditTextLoop, h]
      · simp [getToolbarLineEditTextLoop, h, ih]

/-- Claim C22: getToolbarLineEditText(id) returns the text of the first line edit in
registration order whose id is id, and throws std::invalid_argument exactly when
no registered line edit has the id; addLineEditToToolbar registers the new line
edit, holding the default text, behind all earlier ones. -/
theorem C22_line_edit_text_of_first_with_id (g : MainGUI) (id : Int) :
    (∀ (pre post : List (Int × Ptr)) (line_edit : Ptr),
        g.toolbar_le_callbacks = pre ++ (id, line_edit) :: post →
        (∀ e ∈ pre, e.1 ≠ id) →
        getToolbarLineEditText id g = .ok (lineEditTextOf g line_edit)) ∧
    ((∃ what, getToolbarLineEditText id g = .error (.invalid_argument what)) ↔
        ∀ e ∈ g.toolbar_le_callbacks, e.1 ≠ id) ∧
    (∀ f, getToolbarLineEditText id g = .error f →
        f = .invalid_argument ("Could not find QLineEdit with id " ++ toString id)) ∧
    (∀ (id1 : Int) (toolbar_label label_text default_text : String) (g1 : MainGUI),
        addLineEditToToolbar id1 toolbar_label label_text default_text g = .ok g1 →
        g1.toolbar_le_callbacks = g.toolbar_le_callbacks ++ [(id1, g.objects + 1)] ∧
        lineEditTextOf g1 (g.objects + 1) = default_text) := by
  have hspec := getToolbarLineEditTextLoop_spec g id g.toolbar_le_callbacks
  refine ⟨?_, ?_, ?_, ?_⟩
  · intro pre post line_edit hl hpre
    have hfind : g.toolbar_le_callbacks.find? (fun e => decide (e.1 = id)) = some (id, line_edit) := by
      rw [hl, List.find?_append]
      have h1 : pre.find? (fun e => decide (e.1 = id)) = none := by
        rw [List.find?_eq_none]
        intro e he
        simpa using hpre e he
      rw [h1]
      simp
    rw [getToolbarLineEditText, hspec, hfind]
  · constructor
    · rintro ⟨what, hw⟩ e he hid
      rw [getToolbarLineEditText, hspec] at hw
      cases hf : g.toolbar_le_callbacks.find? (fun e => decide (e.1 = id)) with
      | none =>
          rw [List.find?_eq_none] at hf
          exact absurd (by simpa using hid) (hf e he)
      | some x =>
          rw [hf] at hw
          cases hw
    · intro hall
      have hf : g.toolbar_le_callbacks.find? (fun e => decide (e.1 = id)) = none := by
        rw [List.find?_eq_none]
        intro e he
        simpa using hall e he
      exact ⟨_, by rw [getToolbarLineEditText, hspec, hf]⟩
  · intro f hf
    rw [getToolbarLineEditText, hspec] at hf
    cases hx : g.toolbar_le_callbacks.find? (fun e => decide (e.1 = id)) with
    | none =>
        rw [hx] at hf
        cases hf
        rfl
    | some x =>
        rw [hx] at hf
        cases hf
  · intro id1 toolbar_label label_text default_text g1 hadd
    unfold addLineEditToToolbar at hadd
    cases ht : getToolbar toolbar_label g with
    | error f =>
        rw [ht] at hadd
        cases hadd
    | ok toolbar =>
        rw [ht] at hadd
        by_cases h0 : toolbar = 0
        · simp [h0] at hadd
        · simp only [h0, if_false] at hadd
          cases hadd
          exact ⟨rfl, by simp [lineEditTextOf, List.lookup]⟩

theorem C22_witness :
    getToolbarLineEditText 7 demoLineEdits = .ok "first" ∧
    (∃ what, getToolbarLineEditText 9 demoLineEdits = .error (.invalid_argument what)) ∧
    demoLineEdits.toolbar_le_callbacks = [(7, 8), (3, 10), (7, 12)] :=
  ⟨(C22_line_edit_text_of_first_with_id demoLineEdits 7).1 [] [(3, 10), (7, 12)] 8 rfl
      (by simp),
   (C22_line_edit_text_of_first_with_id demoLineEdits 9).2.1.mpr (by decide),
   rfl⟩

/-- Claim C27: a menu that addGenericMenuAction created with toolbar = false is
stored with a null toolbar; getToolbar returns that null pointer without
throwing, and addLineEditToToolbar and addComboBoxToToolbar then add their
widget through it.  With toolbar = true the same calls succeed, and
addGenericMenuAction itself tests the toolbar pointer before it adds the
action to it. -/
theorem C27_getToolbar_returns_null_toolbar :
    addGenericMenuAction "../File/Open" 1 77 0 "" false 0 MainGUI.init = .ok demoGui ∧
    demoGui.v_qmenu = [{ menu := 5, toolbar := 0, label := "File" }] ∧
    getToolbar "File" demoGui = .ok 0 ∧
    addLineEditToToolbar 1 "File" "speed" "1.0" demoGui = .error .nullDeref ∧
    addComboBoxToToolbar "File" ["a", "b"] demoGui = .error .nullDeref ∧
    (∃ what, getToolbar "Edit" demoGui = .error (.invalid_argument what)) ∧
    (∃ g, addGenericMenuAction "../File/Open" 1 77 0 "" true 0 MainGUI.init = .ok g ∧
      getToolbar "File" g = .ok 6 ∧ g.toolbarWidgets = [(6, 7)] ∧
      (∃ g1, addLineEditToToolbar 1 "File" "speed" "1.0" g = .ok g1)) ∧
    demoGui.toolbarWidgets = [] :=
  ⟨rfl, rfl, rfl, rfl, rfl, ⟨_, rfl⟩, ⟨_, rfl, rfl, rfl, ⟨_, rfl⟩⟩, rfl⟩

end main_gui

namespace osg_material_manager

theorem lookup_tableSet_self {α : Type} (name : String) (v : α) :
    ∀ l : List (String × α), (List.lookup name l).isSome →
      List.lookup name (tableSet name v l) = some v := by
  intro l
  induction l with
  | nil => intro h; simp [List.lookup] at h
  | cons e rest ih =>
      obtain ⟨k, x⟩ := e
      intro h
      by_cases hk : name = k
      · subst hk
        simp [tableSet, List.lookup]
      · have hb : (name == k) = false := by simpa using hk
        simp only [List.lookup, hb] at h
        simp only [tableSet, hk, if_false, List.lookup, hb]
        exact ih h

theorem lookup_tableSet_other {α : Type} (name k : String) (v : α) (hk : k ≠ name) :
    ∀ l : List (String × α), List.lookup k (tableSet name v l) = List.lookup k l := by
  intro l
  induction l with
  | nil => rfl
  | cons e rest ih =>
      obtain ⟨k1, x⟩ := e
      by_cases h1 : name = k1
      · subst h1
        have hb : (k == name) = false := by simpa using hk
        simp [tableSet, List.lookup, hb]
      · simp only [tableSet, h1, if_false, List.lookup]
        rw [ih]

theorem keys_tableSet {α : Type} (name : String) (v : α) :
    ∀ l : List (String × α), (tableSet name v l).map Prod.fst = l.map Prod.fst := by
  intro l
  induction l with
  | nil => rfl
  | cons e rest ih =>
      obtain ⟨k1, x⟩ := e
      by_cases h1 : name = k1
      · simp [tableSet, h1]
      · simp [tableSet, h1, ih]

/-- Claim C29: for a name in the textures table or the textureArrays table,
checkTexture is true after enableTexture and false after disableTexture;
neither call changes an entry under another name, the set of names of either
table, or (when the name is in textures) the textureArrays table; for a name
in neither table checkTexture is false and both calls leave the material as it
is. -/
theorem C29_enable_disable_check (m : OsgMaterial) (n : String) :
    ((List.lookup n m.textures).isSome ∨ (List.lookup n m.textureArrays).isSome →
        checkTexture n (enableTexture n m) = true ∧
        checkTexture n (disableTexture n m) = false) ∧
    (∀ k, k ≠ n →
        List.lookup k (enableTexture n m).textures = List.lookup k m.textures ∧
        List.lookup k (enableTexture n m).textureArrays = List.lookup k m.textureArrays ∧
        List.lookup k (disableTexture n m).textures = List.lookup k m.textures ∧
        List.lookup k (disableTexture n m).textureArrays = List.lookup k m.textureArrays) ∧
    ((enableTexture n m).textures.map Prod.fst = m.textures.map Prod.fst ∧
      (enableTexture n m).textureArrays.map Prod.fst = m.textureArrays.map Prod.fst ∧
      (disableTexture n m).textures.map Prod.fst = m.textures.map Prod.fst ∧
      (disableTexture n m).textureArrays.map Prod.fst = m.textureArrays.map Prod.fst) ∧
    ((List.lookup n m.textures).isSome →
        (enableTexture n m).textureArrays = m.textureArrays ∧
        (disableTexture n m).textureArrays = m.textureArrays) ∧
    (List.lookup n m.textures = none →
        (enableTexture n m).textures = m.textures ∧
        (disableTexture n m).textures = m.textures) ∧
    (List.lookup n m.textures = none ∧ List.lookup n m.textureArrays = none →
        checkTexture n m = false ∧ enableTexture n m = m ∧ disableTexture n m = m) := by
  cases ht : List.lookup n m.textures with
  | some info =>
      have hs : (List.lookup n m.textures).isSome := by rw [ht]; rfl
      have he : enableTexture n m = { m with
          textures := tableSet n { info with enabled := true } m.textures,
          stateCalls := m.stateCalls ++
            [.setTextureAttributeAndModes info.unit
               (if info.cubemap ≠ 0 then info.cubemap else info.texture) true,
             .addUniform info.textureUniform] } := by
        simp only [enableTexture, ht]
      have hd : disableTexture n m = { m with
          textures := tableSet n { info with enabled := false } m.textures,
          stateCalls := m.stateCalls ++
            [.setTextureAttributeAndModes info.unit
               (if info.cubemap ≠ 0 then info.cubemap else info.texture) false,
             .removeUniform info.textureUniform] } := by
        simp only [disableTexture, ht]
      refine ⟨?_, ?_, ?_, ?_, ?_, ?_⟩
      · intro _
        constructor
        · simp only [checkTexture, he, lookup_tableSet_self n _ m.textures hs]
        · simp only [checkTexture, hd, lookup_tableSet_self n _ m.textures hs]
      · intro k hk
        rw [he, hd]
        exact ⟨lookup_tableSet_other n k _ hk _, rfl, lookup_tableSet_other n k _ hk _, rfl⟩
      · rw [he, hd]
        exact ⟨keys_tableSet n _ _, rfl, keys_tableSet n _ _, rfl⟩
      · intro _
        rw [he, hd]
        exact ⟨rfl, rfl⟩
      · intro h
        cases h
      · intro h
        cases h.1
  | none =>
      cases ha : List.lookup n m.textureArrays with
      | some info =>
          have hs : (List.lookup n m.textureArrays).isSome := by rw [ha]; rfl
          have he : enableTexture n m = { m with
              textureArrays := tableSet n { info with enabled := true } m.textureArrays,
              stateCalls := m.stateCalls ++
                [.setTextureAttributeAndModes info.unit info.texture true,
                 .addUniform info.textureUniform] } := by
            simp only [enableTexture, ht, ha]
          have hd : disableTexture n m = { m with
              textureArrays := tableSet n { info with enabled := false } m.textureArrays,
              stateCalls := m.stateCalls ++
                [.setTextureAttributeAndModes info.unit info.texture false,
                 .removeUniform info.textureUniform] } := by
            simp only [disableTexture, ht, ha]
          refine ⟨?_, ?_, ?_, ?_, ?_, ?_⟩
          · intro _
            constructor
            · simp only [checkTexture, he, ht, lookup_tableSet_self n _ m.textureArrays hs]
            · simp only [checkTexture, hd, ht, lookup_tableSet_self n _ m.textureArrays hs]
          · intro k hk
            rw [he, hd]
            exact ⟨rfl, lookup_tableSet_other n k _ hk _, rfl, lookup_tableSet_other n k _ hk _⟩
          · rw [he, hd]
            exact ⟨rfl, keys_tableSet n _ _, rfl, keys_tableSet n _ _⟩
          · intro h
            cases h
          · intro _
            rw [he, hd]
            exact ⟨rfl, rfl⟩
          · intro h
            cases h.2
      | none =>
          have he : enableTexture n m = m := by simp only [enableTexture, ht, ha]
          have hd : disableTexture n m = m := by simp only [disableTexture, ht, ha]
          refine ⟨?_, ?_, ?_, ?_, ?_, ?_⟩
          · intro h
            rcases h with h | h <;> cases h
          · intro k _
            rw [he, hd]
            exact ⟨rfl, rfl, rfl, rfl⟩
          · rw [he, hd]
            exact ⟨rfl, rfl, rfl, rfl⟩
          · intro h
            cases h
          · intro _
            rw [he, hd]
            exact ⟨rfl, rfl⟩
          · intro _
            exact ⟨by simp only [checkTexture, ht, ha], he, hd⟩

theorem C29_witness :
    checkTexture "sky" demoMaterial = false ∧
    checkTexture "sky" (enableTexture "sky" demoMaterial) = true ∧
    checkTexture "sky" (disableTexture "sky" (enableTexture "sky" demoMaterial)) = false ∧
    checkTexture "layers" (enableTexture "layers" demoMaterial) = true ∧
    checkTexture "diffuse" (disableTexture "diffuse" demoMaterial) = false ∧
    checkTexture "none" demoMaterial = false ∧
    enableTexture "none" demoMaterial = demoMaterial :=
  ⟨by decide,
   ((C29_enable_disable_check demoMaterial "sky").1 (Or.inl (by decide))).1,
   ((C29_enable_disable_check (enableTexture "sky" demoMaterial) "sky").1
      (Or.inl (by decide))).2,
   ((C29_enable_disable_check demoMaterial "layers").1 (Or.inr (by decide))).1,
   ((C29_enable_disable_check demoMaterial "diffuse").1 (Or.inl (by decide))).2,
   ((C29_enable_disable_check demoMaterial "none").2.2.2.2.2 ⟨by decide, by decide⟩).1,
   ((C29_enable_disable_check demoMaterial "none").2.2.2.2.2 ⟨by decide, by decide⟩).2.1⟩

theorem hiValue_eq (s : Nat) : hiValue s = ((s / 256 : Nat) : Int) := by
  have h : (s : ℚ) * s256 = ((s : ℕ) : ℚ) / ((256 : ℕ) : ℚ) := by
    simp only [s256]
    push_cast
    ring
  have hf : Rat.floor ((s : ℚ) * s256) = ⌊(s : ℚ) * s256⌋ := rfl
  rw [hiValue, hf, h, Rat.floor_natCast_div_natCast]
  rfl

theorem loValue_eq (s : Nat) : loValue s = ((s % 256 : Nat) : Int) := by
  rw [loValue]
  have h := Int.tmod_eq_emod (a := (s : Int)) (b := 256) (Int.ofNat_nonneg s) (by decide)
  rw [h]
  rfl

/-- Claim C30: for a 16-bit sample s the loop of loadTerrainTexture writes
floor(s / 256) to channel 0 and s mod 256 to channel 1; both values lie in
0..255, so neither clamp changes them, and channel 0 times 256 plus channel 1
is s. -/
theorem C30_terrain_sample_bytes (s : Nat) (hs : s ≤ 65535) :
    hiValue s = ((s / 256 : Nat) : Int) ∧
    loValue s = ((s % 256 : Nat) : Int) ∧
    clampByte (hiValue s) = hiValue s ∧
    clampByte (loValue s) = loValue s ∧
    terrainTexel true s = [s / 256, s % 256, 0, 255] ∧
    s / 256 ≤ 255 ∧ s % 256 ≤ 255 ∧
    (s / 256) * 256 + s % 256 = s := by
  have hhi := hiValue_eq s
  have hlo := loValue_eq s
  have h1 : s / 256 ≤ 255 := by omega
  have h2 : s % 256 ≤ 255 := by omega
  have hc1 : clampByte (hiValue s) = hiValue s := by
    rw [hhi]
    simp only [clampByte]
    have a : ¬ (((s / 256 : Nat) : Int) < 0) := by omega
    have b : ¬ (((s / 256 : Nat) : Int) > 255) := by omega
    simp only [a, b, if_false]
  have hc2 : clampByte (loValue s) = loValue s := by
    rw [hlo]
    simp only [clampByte]
    have a : ¬ (((s % 256 : Nat) : Int) < 0) := by omega
    have b : ¬ (((s % 256 : Nat) : Int) > 255) := by omega
    simp only [a, b, if_false]
  refine ⟨hhi, hlo, hc1, hc2, ?_, h1, h2, by omega⟩
  have hb1 : storeByte ((s / 256 : Nat) : Int) = s / 256 := by
    simp only [storeByte]
    omega
  have hb2 : storeByte ((s % 256 : Nat) : Int) = s % 256 := by
    simp only [storeByte]
    omega
  simp only [terrainTexel, if_true, hc1, hc2]
  rw [hhi, hlo, hb1, hb2]

theorem C30_witness :
    43981 ≤ 65535 ∧ terrainTexel true 43981 = [171, 205, 0, 255] ∧ 171 * 256 + 205 = 43981 := by
  have h := C30_terrain_sample_bytes 43981 (by decide)
  exact ⟨by decide, h.2.2.2.2.1, by decide⟩

end osg_material_manager

end mars
